import Mathlib

/-!
# collect: goroutine pipelines with cooperative cancellation

A shallow embedding of `problem1.go` and `problem2.go`, and proofs about every
interleaving of their goroutines.

## The embedding

Both programs are concurrent, so each is embedded as a labelled transition
system: a state records the control point of every goroutine together with the
shared objects (channels, the `sync.WaitGroup`) and what the program has
put out so far; an action names the goroutine the scheduler runs next and the
`select` case it takes; `step` performs that one atomic move, or is `none` when the
move is not enabled (the goroutine is blocked or is somewhere else in its code).
An interleaving of the program is a list of actions that `exec` accepts from the
state in which the function is called.

A move is one operation on a shared object (a channel operation, a `select`, a
`go` statement, `close`, an atomic operation of the `sync.WaitGroup`) together with
the local computation that leads to the next one.  The deferred call of a function
body is a move of its own, or several where it is several atomic operations.  The
value `fn()` returns is chosen by the scheduler.

Go's semantics used here (The Go Programming Language Specification, package `sync`):
* channels made by `make(chan T)` are unbuffered: a send and the matching receive
  happen together, in one step;
* `close` of a closed channel panics, a send on a closed channel panics;
* a receive from a closed channel never blocks, so `range` over it ends;
* `select` takes any one of its ready cases;
* a `sync.WaitGroup` holds a counter and the number of goroutines registered in
  `Wait`, changed together by atomic operations, and a semaphore on which the waiters
  sleep.  `Add(delta)` adds to the counter and panics when the counter gets negative,
  and also when it raises the counter from zero while a waiter is registered
  (`WaitGroup misuse: Add called concurrently with Wait`); the `Add(-1)` of `Done` that
  brings the counter to zero with waiters registered re-reads the state, resets it
  and releases the waiters, in three further operations.  `Wait` returns at once when
  it reads a zero counter; otherwise it registers by compare-and-swap, sleeps on the
  semaphore and, once released, panics unless it finds the state reset (`WaitGroup is
  reused before previous Wait has returned`).
  In `problem1` the goroutines call `wg.Add(1)` themselves, so an `Add` can race
  with `wg.Wait()`: the model of `problem1` has all of the above.  In `fanIn` the
  one `wg.Add(len(channels))` comes before any worker and before the goroutine that
  waits, no `Add` can follow a `Done` or a `Wait`, and the model of `problem2` keeps
  the counter only: `Done` on a zero counter panics, `Wait` returns when the counter
  is zero.
A channel is represented by the number of `close` operations executed on it:
`0` is an open channel.

## The proofs

For each program: an invariant of all reachable states (`Inv`), a measure that every
move decreases (`fuel`, so every interleaving is finite), and progress (`problem2`
can stop only in its final state; `problem1` can stop only in its final state or in
one of the two panics of `sync.WaitGroup` above, which are both reachable).  The
claims C1 to C10 follow from these.
-/

set_option maxRecDepth 100000
set_option linter.unusedTactic false
set_option linter.unreachableTactic false
set_option linter.unnecessarySeqFocus false
set_option linter.unusedVariables false

namespace Collect

/-! ## Shared definitions -/

/-- Run-time panics of the operations the two programs use. -/
inductive Panic
  | closeOfClosedChannel
  | sendOnClosedChannel
  | negativeWaitGroupCounter
  /-- the panic `sync: WaitGroup misuse: Add called concurrently with Wait` -/
  | waitGroupMisuse
  /-- the panic `sync: WaitGroup is reused before previous Wait has returned` -/
  | waitGroupReused
deriving DecidableEq

/-- Point update of a table of goroutines indexed by slot. -/
def upd {α : Type} (f : Nat → α) (i : Nat) (v : α) : Nat → α :=
  fun j => if j = i then v else f j

/-- Sum of `f 0, …, f (n-1)`. -/
def sumTo : Nat → (Nat → Nat) → Nat
  | 0, _ => 0
  | n + 1, f => sumTo n f + f n

/-- Execution of a list of scheduler choices with a step function: `none` as
soon as a chosen move is not enabled. -/
def runWith {σ α : Type} (step : σ → α → Option σ) : σ → List α → Option σ
  | s, [] => some s
  | s, a :: rest =>
    match step s a with
    | none => none
    | some t => runWith step t rest

/-- Go's `close(ch)` on a channel that has seen `closes` closes: the new count and
the panic it raises, if any. -/
def closeChan (closes : Nat) : Nat × Option Panic :=
  (closes + 1, if closes = 0 then none else some .closeOfClosedChannel)

/-! ## problem2.go: the program as a transition system -/

namespace Problem2

/-- The constants of `problem2` (lines 15-19), kept as parameters. -/
structure Config where
  MaxTotalNumbers : Nat
  MaxTotalGenerators : Nat
  MaxNumbersPerGenerator : Nat
deriving DecidableEq

/-- The constants as `problem2` fixes them. -/
def problem2Config : Config :=
  { MaxTotalNumbers := 100, MaxTotalGenerators := 10, MaxNumbersPerGenerator := 25 }

/-- The `Result` container (lines 58-62).  `Value` is whatever `fn()` returned;
nothing in the pipeline inspects it. -/
structure Result where
  Slot : Nat
  Index : Nat
  Value : Nat
deriving DecidableEq

/-- Control points of the goroutine started by `generator` (lines 91-107). -/
inductive Gen
  /-- before `generator` is called for this slot -/
  | idle
  /-- at the loop test `inx < count` (line 94) -/
  | loop (inx : Nat)
  /-- with `item` built, blocked in the `select` (line 101) -/
  | select (item : Result)
  /-- the function body is left, the deferred `close(randomStream)` is pending -/
  | closing
  /-- after `close(randomStream)`: the goroutine is gone -/
  | finished
deriving DecidableEq

/-- Control points of a `multiplex` goroutine of `fanIn` (lines 120-130). -/
inductive Work
  /-- before `go multiplex(c)` is executed for this channel -/
  | idle
  /-- blocked in `range c`, waiting for the next value of its input -/
  | range
  /-- holds `i`, blocked in the `select` (line 124) -/
  | select (i : Result)
  /-- the function body is left, the deferred `wg.Done()` is pending -/
  | leaving
  /-- after `wg.Done()`: the goroutine is gone -/
  | finished
deriving DecidableEq

/-- Control points of the supervisory goroutine of `fanIn` (lines 140-143). -/
inductive Sup
  /-- not started yet -/
  | idle
  /-- in `wg.Wait()` -/
  | waiting
  /-- after `wg.Wait()` has returned, `close(multiplexedStream)` is next -/
  | closing
  /-- after `close(multiplexedStream)`: the goroutine is gone -/
  | finished
deriving DecidableEq

/-- Control points of `problem2` itself. -/
inductive Main
  /-- at the test of the loop of lines 27-37, with this `inx` -/
  | spawnGen (inx : Nat)
  /-- inside `fanIn`, after `wg.Add(len(channels))`, at the loop of lines 135-137
  with this many channels done -/
  | spawnWork (k : Nat)
  /-- in the consumer loop, blocked on the next value of `fanIn`s channel (line 40) -/
  | range
  /-- the consumer loop is over, `close(done)` (line 52) is next -/
  | closeDone
  /-- after `close(done)`: the final `log.Printf` and the return are next -/
  | returning
  /-- after `problem2` has returned -/
  | returned
deriving DecidableEq

/-- What belongs to one slot: the generator goroutine, its `randomStream`
(as the number of closes executed on it) and the `multiplex` goroutine reading it. -/
structure Lane where
  gen : Gen
  stream : Nat
  work : Work
deriving DecidableEq

/-- A state of the running program. -/
structure State where
  main : Main
  /-- the local `total` of `problem2` -/
  total : Nat
  lanes : Nat → Lane
  /-- counter of the `sync.WaitGroup` of `fanIn` -/
  wg : Nat
  sup : Sup
  /-- closes executed on `multiplexedStream` -/
  merged : Nat
  /-- closes executed on `done` -/
  done : Nat
  /-- every item the consumer loop took from the merged stream, oldest first -/
  received : List Result
  /-- the items printed by line 47, oldest first -/
  logged : List Result
  /-- the panic that stopped the program, if any -/
  panic : Option Panic

/-- The state in which `problem2` is called. -/
def init : State :=
  { main := .spawnGen 0, total := 0, lanes := fun _ => ⟨.idle, 0, .idle⟩, wg := 0,
    sup := .idle, merged := 0, done := 0, received := [], logged := [], panic := none }

/-- The scheduler's choices. -/
inductive Action
  /-- the goroutine of `problem2` itself makes its next move that needs no partner -/
  | main
  /-- generator `s` evaluates the loop test and, inside the loop, `fn()` returns `v` -/
  | genIter (s v : Nat)
  /-- the `select` of generator `s` takes `case <-done` -/
  | genDone (s : Nat)
  /-- the `select` of generator `s` takes `case randomStream <- item` -/
  | genSend (s : Nat)
  /-- generator `s` runs its deferred `close(randomStream)` -/
  | genClose (s : Nat)
  /-- the `range c` of worker `s` finds its input closed -/
  | workEnd (s : Nat)
  /-- the `select` of worker `s` takes `case <-done` -/
  | workDone (s : Nat)
  /-- the `select` of worker `s` takes `case multiplexedStream <- i` -/
  | workSend (s : Nat)
  /-- worker `s` runs its deferred `wg.Done()` -/
  | workWgDone (s : Nat)
  /-- the `wg.Wait()` of the supervisor returns -/
  | supWait
  /-- the supervisor executes `close(multiplexedStream)` -/
  | supClose
deriving DecidableEq

/-- Replace what belongs to slot `s`. -/
def State.setLane (σ : State) (s : Nat) (lane : Lane) : State :=
  { σ with lanes := upd σ.lanes s lane }

/-- Replace the generator of slot `s`. -/
def State.setGen (σ : State) (s : Nat) (g : Gen) : State :=
  σ.setLane s { σ.lanes s with gen := g }

/-- Replace the worker of slot `s`. -/
def State.setWork (σ : State) (s : Nat) (w : Work) : State :=
  σ.setLane s { σ.lanes s with work := w }

/-- The program dies with panic `p`. -/
def State.panicWith (σ : State) (p : Panic) : State :=
  { σ with panic := some p }

/-- The statement `close(done)` of line 52, the cancel operation of the pipeline. -/
def closeDone (σ : State) : State :=
  { σ with done := (closeChan σ.done).1, panic := (closeChan σ.done).2 }

/-- Moves of `problem2`s own goroutine that involve no other goroutine: the
set-up (lines 27-37 and the body of `fanIn`, lines 114-146), leaving the consumer
loop when the merged stream has ended, `close(done)` and the return. -/
def problem2 (cfg : Config) (σ : State) : Option State :=
  match σ.main with
  | .spawnGen inx =>
    if inx < cfg.MaxTotalGenerators then
      -- generators[inx] = generator(done, inx, MaxNumbersPerGenerator, ...)
      some { σ.setGen inx (.loop 0) with main := .spawnGen (inx + 1) }
    else
      -- fanIn is entered: make(chan), wg.Add(len(channels))
      some { σ with wg := σ.wg + cfg.MaxTotalGenerators, main := .spawnWork 0 }
  | .spawnWork k =>
    if k < cfg.MaxTotalGenerators then
      -- go multiplex(c)
      some { σ.setWork k .range with main := .spawnWork (k + 1) }
    else
      -- go func() { wg.Wait(); close(multiplexedStream) }(); return multiplexedStream
      some { σ with sup := .waiting, main := .range }
  | .range =>
    -- the range loop ends when the channel is closed
    if σ.merged = 0 then none else some { σ with main := .closeDone }
  | .closeDone => some { closeDone σ with main := .returning }
  | .returning => some { σ with main := .returned }
  | .returned => none

/-- Generator `s` at its loop test (line 94): build the next item, `fn()`
returning `v`, or leave the loop. -/
def generatorIter (cfg : Config) (σ : State) (s v : Nat) : Option State :=
  match (σ.lanes s).gen with
  | .loop inx =>
    if inx < cfg.MaxNumbersPerGenerator then
      some (σ.setGen s (.select { Slot := s, Index := inx, Value := v }))
    else some (σ.setGen s .closing)
  | _ => none

/-- Generator `s` takes `case <-done: return` (lines 102-103): enabled once `done`
is closed. -/
def generatorDone (σ : State) (s : Nat) : Option State :=
  match (σ.lanes s).gen with
  | .select _ => if σ.done = 0 then none else some (σ.setGen s .closing)
  | _ => none

/-- Generator `s` takes `case randomStream <- item` (line 104): a panic on a closed
channel, else enabled when worker `s` is receiving in `range c`; the worker then
holds the item and the generator goes on to `inx++` and the loop test. -/
def generatorSend (σ : State) (s : Nat) : Option State :=
  match (σ.lanes s).gen with
  | .select item =>
    if (σ.lanes s).stream ≠ 0 then some (σ.panicWith .sendOnClosedChannel)
    else
      match (σ.lanes s).work with
      | .range =>
        some (σ.setLane s ⟨.loop (item.Index + 1), (σ.lanes s).stream, .select item⟩)
      | _ => none
  | _ => none

/-- Generator `s` runs the deferred `close(randomStream)` (line 92). -/
def generatorClose (σ : State) (s : Nat) : Option State :=
  match (σ.lanes s).gen with
  | .closing =>
    let closed := closeChan (σ.lanes s).stream
    some { σ.setLane s ⟨.finished, closed.1, (σ.lanes s).work⟩ with panic := closed.2 }
  | _ => none

/-- Worker `s` in `range c` (line 123) with `c` closed: the loop ends. -/
def multiplexEnd (σ : State) (s : Nat) : Option State :=
  match (σ.lanes s).work with
  | .range => if (σ.lanes s).stream = 0 then none else some (σ.setWork s .leaving)
  | _ => none

/-- Worker `s` takes `case <-done: return` (lines 125-126). -/
def multiplexDone (σ : State) (s : Nat) : Option State :=
  match (σ.lanes s).work with
  | .select _ => if σ.done = 0 then none else some (σ.setWork s .leaving)
  | _ => none

/-- Worker `s` takes `case multiplexedStream <- i` (line 127): a panic on a closed
channel, else enabled when the consumer loop of `problem2` is receiving.  The
consumer then runs its loop body (lines 41-48): `total++`, the quota test with
`break`, the log line. -/
def multiplexSend (cfg : Config) (σ : State) (s : Nat) : Option State :=
  match (σ.lanes s).work with
  | .select i =>
    if σ.merged ≠ 0 then some (σ.panicWith .sendOnClosedChannel)
    else
      match σ.main with
      | .range =>
        some { σ.setWork s .range with
          total := σ.total + 1,
          received := σ.received ++ [i],
          main := if σ.total + 1 > cfg.MaxTotalNumbers then .closeDone else .range,
          logged := if σ.total + 1 > cfg.MaxTotalNumbers then σ.logged else σ.logged ++ [i] }
      | _ => none
  | _ => none

/-- Worker `s` runs the deferred `wg.Done()` (line 121). -/
def multiplexWgDone (σ : State) (s : Nat) : Option State :=
  match (σ.lanes s).work with
  | .leaving =>
    if σ.wg = 0 then some (σ.panicWith .negativeWaitGroupCounter)
    else some { σ.setWork s .finished with wg := σ.wg - 1 }
  | _ => none

/-- The supervisor of `fanIn`: `wg.Wait()` returns when the counter is zero. -/
def fanInWait (σ : State) : Option State :=
  match σ.sup with
  | .waiting => if σ.wg = 0 then some { σ with sup := .closing } else none
  | _ => none

/-- The supervisor of `fanIn`: `close(multiplexedStream)` (line 142). -/
def fanInClose (σ : State) : Option State :=
  match σ.sup with
  | .closing =>
    some { σ with sup := .finished, merged := (closeChan σ.merged).1,
                  panic := (closeChan σ.merged).2 }
  | _ => none

/-- One atomic move of the program; nothing moves after a panic. -/
def step (cfg : Config) (σ : State) (a : Action) : Option State :=
  if σ.panic ≠ none then none
  else
    match a with
    | .main => problem2 cfg σ
    | .genIter s v => generatorIter cfg σ s v
    | .genDone s => generatorDone σ s
    | .genSend s => generatorSend σ s
    | .genClose s => generatorClose σ s
    | .workEnd s => multiplexEnd σ s
    | .workDone s => multiplexDone σ s
    | .workSend s => multiplexSend cfg σ s
    | .workWgDone s => multiplexWgDone σ s
    | .supWait => fanInWait σ
    | .supClose => fanInClose σ

/-- The state an interleaving leads to from the call of `problem2`. -/
def exec (cfg : Config) (acts : List Action) : Option State :=
  runWith (step cfg) init acts

/-! ### Quantities the invariant of the pipeline speaks about -/

/-- The `Index` values the consumer received from slot `s`, oldest first. -/
def seen (rs : List Result) (s : Nat) : List Nat :=
  (rs.filter (fun r => r.Slot = s)).map (fun r => r.Index)

/-- How many items the consumer received from slot `s`. -/
def cnt (rs : List Result) (s : Nat) : Nat :=
  (seen rs s).length

/-- Number of slots for which `generator` has been called. -/
def gensStarted (cfg : Config) : Main → Nat
  | .spawnGen inx => inx
  | _ => cfg.MaxTotalGenerators

/-- Number of `multiplex` goroutines started. -/
def worksStarted (cfg : Config) : Main → Nat
  | .spawnGen _ => 0
  | .spawnWork k => k
  | _ => cfg.MaxTotalGenerators

/-- Whether `problem2` has not entered `fanIn` yet. -/
def Main.beforeFanIn : Main → Bool
  | .spawnGen _ => true
  | _ => false

/-- Whether `problem2` has not reached its consumer loop yet. -/
def Main.inSetup : Main → Bool
  | .spawnGen _ => true
  | .spawnWork _ => true
  | _ => false

/-- Whether `problem2` has left its consumer loop. -/
def Main.pastLoop : Main → Bool
  | .closeDone => true
  | .returning => true
  | .returned => true
  | _ => false

/-- Whether `problem2` has executed `close(done)`. -/
def Main.hasClosed : Main → Bool
  | .returning => true
  | .returned => true
  | _ => false

/-- What a worker contributes to the `WaitGroup` counter: one until its `wg.Done()`. -/
def Work.live : Work → Nat
  | .finished => 0
  | _ => 1

/-- Whether the worker has left its loop. -/
def Work.gone : Work → Bool
  | .leaving => true
  | .finished => true
  | _ => false

/-- The number of items a worker holds: one while it is in its `select`. -/
def Work.held : Work → Nat
  | .select _ => 1
  | _ => 0

/-- Whether the generator goroutine has left its loop. -/
def Gen.over : Gen → Bool
  | .closing => true
  | .finished => true
  | _ => false

/-- The value of `inx` of a generator inside its loop (`0` outside of it). -/
def Gen.pos : Gen → Nat
  | .loop inx => inx
  | .select item => item.Index
  | _ => 0

/-- The workers that still owe their `wg.Done()`. -/
def liveWorkers (cfg : Config) (σ : State) : Nat :=
  sumTo cfg.MaxTotalGenerators (fun s => (σ.lanes s).work.live)

/-- The part of the invariant that concerns one slot `s`: `m` is the control point
of `problem2` and `c` the number of items of slot `s` the consumer has received. -/
structure LaneInv (cfg : Config) (m : Main) (c : Nat) (l : Lane) (s : Nat) : Prop where
  genIdle : l.gen = .idle ↔ gensStarted cfg m ≤ s
  workIdle : l.work = .idle ↔ worksStarted cfg m ≤ s
  stream : l.stream = if l.gen = .finished then 1 else 0
  cntLe : c ≤ cfg.MaxNumbersPerGenerator
  sel : ∀ item, l.gen = .select item → item.Slot = s ∧ item.Index < cfg.MaxNumbersPerGenerator
  held : ∀ i, l.work = .select i →
    i.Slot = s ∧ i.Index = c ∧ c < cfg.MaxNumbersPerGenerator
  posLe : l.gen.pos ≤ cfg.MaxNumbersPerGenerator
  pos : l.gen.over = false → l.work.gone = false → l.gen.pos = c + l.work.held
  over : l.gen.over = true → m.hasClosed = false → l.work.gone = false →
    c + l.work.held = cfg.MaxNumbersPerGenerator
  gone : l.work.gone = true → m.hasClosed = false →
    l.gen = .finished ∧ c = cfg.MaxNumbersPerGenerator
  goneAll : l.work.gone = true → c = cfg.MaxNumbersPerGenerator → l.gen = .finished

/-- The invariant of the pipeline: how the shared objects and what the consumer
has received follow from the control points of the goroutines. -/
structure Inv (cfg : Config) (σ : State) : Prop where
  noPanic : σ.panic = none
  genBound : gensStarted cfg σ.main ≤ cfg.MaxTotalGenerators
  workBound : worksStarted cfg σ.main ≤ cfg.MaxTotalGenerators
  lane : ∀ s, LaneInv cfg σ.main (cnt σ.received s) (σ.lanes s) s
  wg : σ.wg = if σ.main.beforeFanIn = true then 0 else liveWorkers cfg σ
  supIdle : σ.sup = .idle ↔ σ.main.inSetup = true
  merged : σ.merged = if σ.sup = .finished then 1 else 0
  supWg : σ.sup = .closing ∨ σ.sup = .finished → σ.wg = 0
  done : σ.done = if σ.main.hasClosed = true then 1 else 0
  slots : ∀ r, r ∈ σ.received → r.Slot < cfg.MaxTotalGenerators
  seen : ∀ s, seen σ.received s = List.range (cnt σ.received s)
  total : σ.total = σ.received.length
  inLoop : σ.main.pastLoop = false → σ.total ≤ cfg.MaxTotalNumbers
  broke : σ.total ≤ cfg.MaxTotalNumbers + 1
  eos : σ.main.pastLoop = true → σ.total ≤ cfg.MaxTotalNumbers →
    σ.merged = 1 ∧ ∀ s, s < cfg.MaxTotalGenerators →
      cnt σ.received s = cfg.MaxNumbersPerGenerator

/-! ### A bound on the moves still possible -/

/-- Moves a generator goroutine can still make, counting each hand-over three times. -/
def Gen.fuel (count : Nat) : Gen → Nat
  | .idle => 3 * count + 2
  | .loop inx => 3 * (count - inx) + 2
  | .select item => 3 * (count - (item.Index + 1)) + 4
  | .closing => 1
  | .finished => 0

/-- Moves a worker can still make by itself. -/
def Work.fuel : Work → Nat
  | .idle => 2
  | .range => 2
  | .select _ => 3
  | .leaving => 1
  | .finished => 0

/-- Moves the supervisor can still make. -/
def Sup.fuel : Sup → Nat
  | .idle => 2
  | .waiting => 2
  | .closing => 1
  | .finished => 0

/-- Moves `problem2` can still make by itself. -/
def Main.fuel (n : Nat) : Main → Nat
  | .spawnGen inx => (n - inx) + n + 5
  | .spawnWork k => (n - k) + 4
  | .range => 3
  | .closeDone => 2
  | .returning => 1
  | .returned => 0

/-- What one slot contributes to `fuel`. -/
def Lane.fuel (cfg : Config) (l : Lane) : Nat :=
  l.gen.fuel cfg.MaxNumbersPerGenerator + l.work.fuel

/-- A bound on the number of moves the program can still make from `σ`. -/
def fuel (cfg : Config) (σ : State) : Nat :=
  σ.main.fuel cfg.MaxTotalGenerators + σ.sup.fuel +
    sumTo cfg.MaxTotalGenerators (fun s => (σ.lanes s).fuel cfg)

/-- The bound at the call of `problem2`. -/
def maxSteps (cfg : Config) : Nat :=
  cfg.MaxTotalGenerators * (3 * cfg.MaxNumbersPerGenerator + 6) + 7

/-! ### Enabled moves, terminal states -/

/-- The scheduler can choose `a` in `σ`. -/
def Enabled (cfg : Config) (σ : State) (a : Action) : Prop :=
  ∃ σ', step cfg σ a = some σ'

/-- No move is possible in `σ`. -/
def Terminal (cfg : Config) (σ : State) : Prop :=
  ∀ a, step cfg σ a = none

/-- Generator `s` takes part in some enabled move. -/
def GenCanMove (cfg : Config) (σ : State) (s : Nat) : Prop :=
  (∃ v, Enabled cfg σ (.genIter s v)) ∨ Enabled cfg σ (.genDone s) ∨
    Enabled cfg σ (.genSend s) ∨ Enabled cfg σ (.genClose s)

/-- Worker `s` takes part in some enabled move. -/
def WorkCanMove (cfg : Config) (σ : State) (s : Nat) : Prop :=
  Enabled cfg σ (.genSend s) ∨ Enabled cfg σ (.workEnd s) ∨ Enabled cfg σ (.workDone s) ∨
    Enabled cfg σ (.workSend s) ∨ Enabled cfg σ (.workWgDone s)

/-- The supervisor of `fanIn` has an enabled move. -/
def SupCanMove (cfg : Config) (σ : State) : Prop :=
  Enabled cfg σ .supWait ∨ Enabled cfg σ .supClose

/-- Every goroutine of the pipeline is gone and `problem2` has returned. -/
def AllDone (cfg : Config) (σ : State) : Prop :=
  σ.main = .returned ∧ σ.sup = .finished ∧
    ∀ s, s < cfg.MaxTotalGenerators →
      (σ.lanes s).gen = .finished ∧ (σ.lanes s).work = .finished

/-! ### Schedules -/

/-- The moves of `problem2` up to its consumer loop, for `n` generators. -/
def setup (n : Nat) : List Action :=
  List.replicate (2 * n + 2) .main

/-- One item travels from generator `s` through worker `s` to the consumer. -/
def lap (s : Nat) : List Action :=
  [.genIter s 0, .genSend s, .workSend s]

/-- The next `n` items of generator `s` travel to the consumer. -/
def laps (s n : Nat) : List Action :=
  (List.replicate n (lap s)).flatten

/-- Generator `s` leaves its loop and closes its channel, worker `s` sees the end
of its input and signs off. -/
def retire (s : Nat) : List Action :=
  [.genIter s 0, .genClose s, .workEnd s, .workWgDone s]

/-- One generator delivers its five items and ends, its worker ends, and the
supervisor closes the merged stream; the consumer has not noticed yet. -/
def fiveItemsMerged : List Action :=
  setup 1 ++ laps 0 5 ++ retire 0 ++ [.supWait, .supClose]

/-- A complete run of one generator with five items: after `fiveItemsMerged` the
consumer loop ends, `problem2` closes `done` and returns. -/
def fiveItems : List Action :=
  fiveItemsMerged ++ [.main, .main, .main]

/-- A run with two generators in which the quota of two cuts the stream short:
the third item breaks the loop, then `done` is closed and `problem2` returns. -/
def twoSlots : List Action :=
  setup 2 ++ lap 0 ++ lap 1 ++ lap 0 ++ [.main, .main]

/-- The run of `problem2` in which generators 0 to 3 deliver all their 25 items one
after the other and generator 4 delivers the item that breaks the consumer loop;
`problem2` then closes `done` and returns at once. -/
def quotaRun : List Action :=
  setup 10 ++ laps 0 25 ++ laps 1 25 ++ laps 2 25 ++ laps 3 25 ++ laps 4 1 ++ [.main, .main]

/-- Generator `s` hands its next item to worker `s`, which drops it because `done`
is closed and signs off; the generator is left inside its loop. -/
def drop (s : Nat) : List Action :=
  [.genIter s 0, .genSend s, .workDone s, .workWgDone s]

/-- The run `quotaRun` continued until `fanIn` closes the merged stream: workers 0
to 3 end with their inputs, workers 4 to 9 each take one more item and leave through
`case <-done`, then the supervisor moves. -/
def earlyClose : List Action :=
  quotaRun ++ retire 0 ++ retire 1 ++ retire 2 ++ retire 3 ++ drop 4 ++ drop 5 ++ drop 6 ++
    drop 7 ++ drop 8 ++ drop 9 ++ [.supWait, .supClose]

/-- A run with two generators of three items each in which the last item of all, the
sixth, is the one that breaks the consumer loop (for a quota of five): the generators
and workers end with their streams and the supervisor closes the merged stream before
`problem2` closes `done` and returns. -/
def lastItemBreaks : List Action :=
  setup 2 ++ laps 0 3 ++ laps 1 3 ++ retire 0 ++ retire 1 ++ [.supWait, .supClose] ++
    [.main, .main]

end Problem2

/-! ## problem1.go: the program as a transition system -/

namespace Problem1

/-- The constants of `problem1` (lines 17-20) and the literal bound `25` of the loop
of `printRandom1` (line 38), kept as parameters. -/
structure Config where
  MaxTotalNumbers : Nat
  MaxTotalGenerators : Nat
  loopBound : Nat
deriving DecidableEq

/-- The constants as `problem1` fixes them. -/
def problem1Config : Config :=
  { MaxTotalNumbers := 100, MaxTotalGenerators := 10, loopBound := 25 }

/-- Control points of a goroutine running the closure `printRandom1` (lines 34-46). -/
inductive Proc
  /-- before `go printRandom1(inx)` is executed for this slot -/
  | idle
  /-- started by the `go` statement, `wg.Add(1)` (line 35) is next -/
  | started
  /-- at the loop test `inx < 25` (line 38) -/
  | loop (inx : Nat)
  /-- blocked in the `select` (line 39) -/
  | select (inx : Nat)
  /-- the send of line 42 is done, the `log.Printf` of line 43 is next -/
  | logging (inx : Nat)
  /-- the function body is left, the deferred `wg.Done()` is pending -/
  | leaving
  /-- inside `wg.Done()`: its decrement brought the counter to zero with `w` waiters
  registered; the re-read of the state is next -/
  | doneCheck (w : Nat)
  /-- inside `wg.Done()`: the state was found unchanged; the store that resets it is
  next -/
  | doneStore (w : Nat)
  /-- inside `wg.Done()`: the state is reset; `w` waiters are still to be released -/
  | doneRelease (w : Nat)
  /-- after `wg.Done()`: the goroutine is gone -/
  | finished
deriving DecidableEq

/-- Control points of `problem1` itself. -/
inductive Main
  /-- at the test of the loop of lines 48-52, with this `inx` -/
  | spawn (inx : Nat)
  /-- in the loop of lines 56-62, blocked on the next value of `generated` -/
  | range
  /-- the loop is left by `break`, `close(done)` (line 65) is next -/
  | closeDone
  /-- in `wg.Wait()` (line 68), at the head of its loop: the load of the state is
  next -/
  | waiting
  /-- in `wg.Wait()`: the state was read with counter `v`, not zero, and `w` waiters;
  the compare-and-swap that registers one more waiter is next -/
  | waitCas (v w : Nat)
  /-- in `wg.Wait()`: registered as a waiter and asleep on the semaphore -/
  | waitSema
  /-- in `wg.Wait()`: released from the semaphore; the re-read of the state is next -/
  | waitCheck
  /-- after `wg.Wait()` has returned: the final `log.Printf` and the return are next -/
  | returning
  /-- after `problem1` has returned -/
  | returned
deriving DecidableEq

/-- A state of the running program.  The channel `generated` is never closed by
the program, so it has no state of its own. -/
structure State where
  main : Main
  /-- the local `total` of `problem1` -/
  total : Nat
  procs : Nat → Proc
  /-- counter of the `sync.WaitGroup` -/
  wg : Nat
  /-- number of waiters registered in the `sync.WaitGroup` -/
  waiters : Nat
  /-- value of the semaphore of the `sync.WaitGroup` -/
  sema : Nat
  /-- closes executed on `done` -/
  done : Nat
  /-- the slots of the goroutines whose sends on `generated` succeeded, oldest first:
  one entry per notification the consumer loop received -/
  sent : List Nat
  /-- the lines printed by line 43, as `(slot, inx)`, oldest first -/
  logs : List (Nat × Nat)
  /-- the panic that stopped the program, if any -/
  panic : Option Panic

/-- The state in which `problem1` is called. -/
def init : State :=
  { main := .spawn 0, total := 0, procs := fun _ => .idle, wg := 0, waiters := 0, sema := 0,
    done := 0, sent := [], logs := [], panic := none }

/-- The scheduler's choices. -/
inductive Action
  /-- the goroutine of `problem1` itself makes its next move that needs no partner -/
  | main
  /-- goroutine `s` executes `wg.Add(1)` -/
  | procAdd (s : Nat)
  /-- goroutine `s` evaluates its loop test -/
  | procIter (s : Nat)
  /-- the `select` of goroutine `s` takes `case <-done` -/
  | procDone (s : Nat)
  /-- the `select` of goroutine `s` takes `case generated <- struct{}{}` -/
  | procSend (s : Nat)
  /-- goroutine `s` prints its line -/
  | procLog (s : Nat)
  /-- goroutine `s` makes the next move of its deferred `wg.Done()` -/
  | procWgDone (s : Nat)
deriving DecidableEq

/-- Replace the goroutine of slot `s`. -/
def State.setProc (σ : State) (s : Nat) (p : Proc) : State :=
  { σ with procs := upd σ.procs s p }

/-- Moves of `problem1`s own goroutine that involve no other goroutine: starting
the goroutines (lines 48-52), `close(done)`, the operations of `wg.Wait()` and the
return.  In the consumer loop it can only move together with a sender. -/
def problem1 (cfg : Config) (σ : State) : Option State :=
  match σ.main with
  | .spawn inx =>
    if inx < cfg.MaxTotalGenerators then
      -- go printRandom1(inx)
      some { σ.setProc inx .started with main := .spawn (inx + 1) }
    else some { σ with main := .range }
  | .range => none
  | .closeDone =>
    some { σ with done := (closeChan σ.done).1, panic := (closeChan σ.done).2,
                  main := .waiting }
  | .waiting =>
    -- wg.Wait() loads the state: it returns when the counter is zero
    if σ.wg = 0 then some { σ with main := .returning }
    else some { σ with main := .waitCas σ.wg σ.waiters }
  | .waitCas v w =>
    -- compare-and-swap: one more waiter if the state is still the one read, else again
    if σ.wg = v ∧ σ.waiters = w then some { σ with waiters := σ.waiters + 1, main := .waitSema }
    else some { σ with main := .waiting }
  | .waitSema =>
    -- asleep until the semaphore is released
    if σ.sema = 0 then none else some { σ with sema := σ.sema - 1, main := .waitCheck }
  | .waitCheck =>
    -- the state must be the one the releasing wg.Done() has stored
    if σ.wg = 0 ∧ σ.waiters = 0 then some { σ with main := .returning }
    else some { σ with panic := some .waitGroupReused }
  | .returning => some { σ with main := .returned }
  | .returned => none

/-- Goroutine `s` executes `wg.Add(1)` (line 35) and enters its loop.  The counter
is incremented in any case; the call panics when that raises the counter from zero
while a waiter is registered. -/
def printRandom1Add (σ : State) (s : Nat) : Option State :=
  match σ.procs s with
  | .started =>
    if σ.waiters ≠ 0 ∧ σ.wg + 1 = 1 then
      some { σ with wg := σ.wg + 1, panic := some .waitGroupMisuse }
    else some { σ.setProc s (.loop 0) with wg := σ.wg + 1 }
  | _ => none

/-- Goroutine `s` at its loop test (line 38). -/
def printRandom1Iter (cfg : Config) (σ : State) (s : Nat) : Option State :=
  match σ.procs s with
  | .loop inx =>
    if inx < cfg.loopBound then some (σ.setProc s (.select inx))
    else some (σ.setProc s .leaving)
  | _ => none

/-- Goroutine `s` takes `case <-done: return` (lines 40-41). -/
def printRandom1Done (σ : State) (s : Nat) : Option State :=
  match σ.procs s with
  | .select _ => if σ.done = 0 then none else some (σ.setProc s .leaving)
  | _ => none

/-- Goroutine `s` takes `case generated <- struct{}{}` (line 42): enabled when the
consumer loop of `problem1` is receiving.  The consumer then runs its loop body
(lines 57-61): `total++` and the quota test with `break`. -/
def printRandom1Send (cfg : Config) (σ : State) (s : Nat) : Option State :=
  match σ.procs s with
  | .select inx =>
    match σ.main with
    | .range =>
      some { σ.setProc s (.logging inx) with
        total := σ.total + 1,
        sent := σ.sent ++ [s],
        main := if σ.total + 1 ≥ cfg.MaxTotalNumbers then .closeDone else .range }
    | _ => none
  | _ => none

/-- Goroutine `s` prints its line (line 43) and goes on to `inx++` and the loop test. -/
def printRandom1Log (σ : State) (s : Nat) : Option State :=
  match σ.procs s with
  | .logging inx => some { σ.setProc s (.loop (inx + 1)) with logs := σ.logs ++ [(s, inx)] }
  | _ => none

/-- Goroutine `s` makes the next move of the deferred `wg.Done()` (line 36), which
is `wg.Add(-1)`: the decrement; then, only if that brought the counter to zero while
waiters are registered, the re-read of the state, the store that resets it, and the
release of the semaphore, once per waiter. -/
def printRandom1WgDone (σ : State) (s : Nat) : Option State :=
  match σ.procs s with
  | .leaving =>
    if σ.wg = 0 then some { σ with panic := some .negativeWaitGroupCounter }
    else if 0 < σ.wg - 1 ∨ σ.waiters = 0 then
      some { σ.setProc s .finished with wg := σ.wg - 1 }
    else some { σ.setProc s (.doneCheck σ.waiters) with wg := σ.wg - 1 }
  | .doneCheck w =>
    if σ.wg = 0 ∧ σ.waiters = w then some (σ.setProc s (.doneStore w))
    else some { σ with panic := some .waitGroupMisuse }
  | .doneStore w => some { σ.setProc s (.doneRelease w) with wg := 0, waiters := 0 }
  | .doneRelease w =>
    if w = 0 then some (σ.setProc s .finished)
    else some { σ.setProc s (.doneRelease (w - 1)) with sema := σ.sema + 1 }
  | _ => none

/-- One atomic move of the program; nothing moves after a panic. -/
def step (cfg : Config) (σ : State) (a : Action) : Option State :=
  if σ.panic ≠ none then none
  else
    match a with
    | .main => problem1 cfg σ
    | .procAdd s => printRandom1Add σ s
    | .procIter s => printRandom1Iter cfg σ s
    | .procDone s => printRandom1Done σ s
    | .procSend s => printRandom1Send cfg σ s
    | .procLog s => printRandom1Log σ s
    | .procWgDone s => printRandom1WgDone σ s

/-- The state an interleaving leads to from the call of `problem1`. -/
def exec (cfg : Config) (acts : List Action) : Option State :=
  runWith (step cfg) init acts

/-! ### Quantities the invariant of `problem1` speaks about -/

/-- Number of slots for which `go printRandom1(inx)` has been executed. -/
def spawned (cfg : Config) : Main → Nat
  | .spawn inx => inx
  | _ => cfg.MaxTotalGenerators

/-- Whether `problem1` has left its consumer loop. -/
def Main.pastLoop : Main → Bool
  | .spawn _ => false
  | .range => false
  | _ => true

/-- Whether `problem1` has executed `close(done)`. -/
def Main.hasClosed : Main → Bool
  | .spawn _ => false
  | .range => false
  | .closeDone => false
  | _ => true

/-- Whether `wg.Wait()` has returned. -/
def Main.waitOver : Main → Bool
  | .returning => true
  | .returned => true
  | _ => false

/-- Whether `problem1` is in `wg.Wait()` or past it and the counter of the
`WaitGroup` has been seen at zero since it called `wg.Wait()`: it read the zero
itself, or it is registered and the `wg.Done()` that releases it has made its
decrement. -/
def Main.drained (wg waiters : Nat) : Main → Bool
  | .waitSema => decide (waiters = 0 ∨ wg = 0)
  | .waitCheck => true
  | .returning => true
  | .returned => true
  | _ => false

/-- What a goroutine contributes to the `WaitGroup` counter: one from its
`wg.Add(1)` to the decrement of its `wg.Done()`. -/
def Proc.live : Proc → Nat
  | .loop _ => 1
  | .select _ => 1
  | .logging _ => 1
  | .leaving => 1
  | _ => 0

/-- The releases of the semaphore a goroutine inside `wg.Done()` still owes. -/
def Proc.owes : Proc → Nat
  | .doneCheck w => w
  | .doneStore w => w
  | .doneRelease w => w
  | _ => 0

/-- Whether the goroutine has left its loop. -/
def Proc.over : Proc → Bool
  | .leaving => true
  | .doneCheck _ => true
  | .doneStore _ => true
  | .doneRelease _ => true
  | .finished => true
  | _ => false

/-- The number of sends a goroutine inside its loop has completed. -/
def Proc.pos : Proc → Nat
  | .loop inx => inx
  | .select inx => inx
  | .logging inx => inx + 1
  | _ => 0

/-- The number of lines a goroutine still owes: one between its send and its line. -/
def Proc.pending : Proc → Nat
  | .logging _ => 1
  | _ => 0

/-- How many sends of goroutine `s` succeeded. -/
def sends (sent : List Nat) (s : Nat) : Nat :=
  sent.count s

/-- How many lines goroutine `s` has printed. -/
def printed (logs : List (Nat × Nat)) (s : Nat) : Nat :=
  (logs.map Prod.fst).count s

/-- The value of `total` at which the consumer loop breaks: the test
`total >= MaxTotalNumbers` comes after `total++`. -/
def quota (cfg : Config) : Nat :=
  max cfg.MaxTotalNumbers 1

/-- The goroutines that have executed `wg.Add(1)` and not yet the decrement of
`wg.Done()`. -/
def liveProcs (cfg : Config) (σ : State) : Nat :=
  sumTo cfg.MaxTotalGenerators (fun s => (σ.procs s).live)

/-- The releases of the semaphore that are still to come. -/
def owing (cfg : Config) (σ : State) : Nat :=
  sumTo cfg.MaxTotalGenerators (fun s => (σ.procs s).owes)

/-- The part of the invariant that concerns goroutine `s`: `m` is the control point
of `problem1`, `wg` and `wt` the counter and the waiters of the `WaitGroup`, `c` the
number of sends of `s` that succeeded and `lg` the number of lines it has printed. -/
structure ProcInv (cfg : Config) (m : Main) (wg wt c lg : Nat) (p : Proc) (s : Nat) :
    Prop where
  idle : p = .idle ↔ spawned cfg m ≤ s
  cLe : c ≤ cfg.loopBound
  posLe : p.pos ≤ cfg.loopBound
  sel : ∀ inx, p = .select inx → inx < cfg.loopBound
  pos : p.over = false → p.pos = c
  printed : lg + p.pending = c
  over : p.over = true → m.hasClosed = false → c = cfg.loopBound
  quiet : m.drained wg wt = true → p.pending = 0
  check : ∀ w, p = .doneCheck w ∨ p = .doneStore w → w = 1 ∧ wt = 1 ∧ wg = 0
  release : ∀ w, p = .doneRelease w → w ≠ 0 → wt = 0

/-- The invariant of `problem1`: what holds in every reachable state in which no
panic has occurred. -/
structure Inv (cfg : Config) (σ : State) : Prop where
  noPanic : σ.panic = none
  spawnBound : spawned cfg σ.main ≤ cfg.MaxTotalGenerators
  proc : ∀ s, ProcInv cfg σ.main σ.wg σ.waiters (sends σ.sent s) (printed σ.logs s)
    (σ.procs s) s
  wg : σ.wg = liveProcs cfg σ
  done : σ.done = if σ.main.hasClosed = true then 1 else 0
  total : σ.total = σ.sent.length
  slots : ∀ s, s ∈ σ.sent → s < cfg.MaxTotalGenerators
  logSlots : ∀ e, e ∈ σ.logs → e.1 < cfg.MaxTotalGenerators
  inLoop : σ.main.pastLoop = false → σ.total < quota cfg
  broke : σ.main.pastLoop = true → σ.total = quota cfg
  waitersLe : σ.waiters ≤ 1
  waitersMain : σ.waiters ≠ 0 → σ.main = .waitSema ∧ σ.sema = 0
  wake : σ.sema + owing cfg σ =
    if σ.main = .waitSema ∧ ¬ (σ.waiters = 1 ∧ σ.wg ≠ 0) then 1 else 0
  cas : ∀ v w, σ.main = .waitCas v w → v ≠ 0

/-- What holds of a state in which the program has panicked: the panic is one of
the two `sync.WaitGroup` raises for an `Add` that races with `Wait`, `problem1` is
inside `wg.Wait()`, and every notification has been received and its line printed. -/
structure Crashed (cfg : Config) (σ : State) : Prop where
  panic : σ.panic = some .waitGroupMisuse ∨ σ.panic = some .waitGroupReused
  inWait : σ.main = .waitSema ∨ σ.main = .waitCheck
  total : σ.total = σ.sent.length
  sent : σ.sent.length = quota cfg
  logs : σ.logs.length = quota cfg
  printed : ∀ s, printed σ.logs s = sends σ.sent s
  pending : ∀ s, (σ.procs s).pending = 0

/-- What holds of every reachable state. -/
def Good (cfg : Config) (σ : State) : Prop :=
  Inv cfg σ ∨ Crashed cfg σ

/-! ### A bound on the moves still possible -/

/-- Moves a goroutine can still make; a move that changes the counter or the
waiters of the `WaitGroup` counts three times, since it can make the compare-and-swap
of `wg.Wait()` fail and so cost `problem1` two more moves. -/
def Proc.fuel (bound : Nat) : Proc → Nat
  | .idle => 3 * bound + 13
  | .started => 3 * bound + 13
  | .loop inx => 3 * (bound - inx) + 10
  | .select inx => 3 * (bound - (inx + 1)) + 12
  | .logging inx => 3 * (bound - (inx + 1)) + 11
  | .leaving => 9
  | .doneCheck w => w + 5
  | .doneStore w => w + 4
  | .doneRelease w => w + 1
  | .finished => 0

/-- Moves `problem1` can still make by itself, given the counter and the waiters of
the `WaitGroup`. -/
def Main.fuel (n wg waiters : Nat) : Main → Nat
  | .spawn inx => (n - inx) + 9
  | .range => 8
  | .closeDone => 7
  | .waiting => 6
  | .waitCas v w => if wg = v ∧ waiters = w then 5 else 7
  | .waitSema => 3
  | .waitCheck => 2
  | .returning => 1
  | .returned => 0

/-- A bound on the number of moves the program can still make from `σ`. -/
def fuel (cfg : Config) (σ : State) : Nat :=
  (if σ.panic = none then 1 else 0) +
    σ.main.fuel cfg.MaxTotalGenerators σ.wg σ.waiters +
    sumTo cfg.MaxTotalGenerators (fun s => (σ.procs s).fuel cfg.loopBound)

/-- The bound at the call of `problem1`. -/
def maxSteps (cfg : Config) : Nat :=
  cfg.MaxTotalGenerators * (3 * cfg.loopBound + 14) + 10

/-! ### Enabled moves, terminal states -/

/-- The scheduler can choose `a` in `σ`. -/
def Enabled (cfg : Config) (σ : State) (a : Action) : Prop :=
  ∃ σ', step cfg σ a = some σ'

/-- No move is possible in `σ`. -/
def Terminal (cfg : Config) (σ : State) : Prop :=
  ∀ a, step cfg σ a = none

/-- Every goroutine is gone and `problem1` has returned. -/
def AllDone (cfg : Config) (σ : State) : Prop :=
  σ.main = .returned ∧ ∀ s, s < cfg.MaxTotalGenerators → σ.procs s = .finished

/-! ### Schedules -/

/-- The moves of `problem1` up to its consumer loop, for `n` goroutines. -/
def setup (n : Nat) : List Action :=
  List.replicate (n + 1) .main

/-- One turn of the loop of goroutine `s`: loop test, send, line. -/
def lap (s : Nat) : List Action :=
  [.procIter s, .procSend s, .procLog s]

/-- Goroutine `s` runs from its `wg.Add(1)` through `n` turns of its loop, with the
consumer receiving each time. -/
def turns (s n : Nat) : List Action :=
  [.procAdd s] ++ (List.replicate n (lap s)).flatten

/-- Goroutine `s` finds its loop exhausted and runs `wg.Done()`. -/
def retire (s : Nat) : List Action :=
  [.procIter s, .procWgDone s]

/-- Goroutine `s` runs only after `done` is closed: `wg.Add(1)`, loop test, `case
<-done`, `wg.Done()`. -/
def late (s : Nat) : List Action :=
  [.procAdd s, .procIter s, .procDone s, .procWgDone s]

/-- An interleaving of `problem1` in which goroutines 0 to 3 supply all 100
notifications and are gone before `problem1` closes `done`, while goroutines 4 to 9,
started by their `go` statements, have not been scheduled yet; `problem1` then closes
`done` and calls `wg.Wait()`, which returns at once. -/
def earlyWait : List Action :=
  setup 10 ++ turns 0 25 ++ retire 0 ++ turns 1 25 ++ retire 1 ++ turns 2 25 ++ retire 2 ++
    turns 3 25 ++ retire 3 ++ [.main, .main]

/-- The interleaving `earlyWait` continued to the end: `problem1` returns, then
goroutines 4 to 9 run. -/
def fullRun : List Action :=
  earlyWait ++ [.main] ++ late 4 ++ late 5 ++ late 6 ++ late 7 ++ late 8 ++ late 9

/-- An interleaving of `problem1` in which goroutines 0 to 3 supply all 100
notifications and goroutine 3 has printed its last line but is still inside its
loop when `problem1` closes `done` and calls `wg.Wait()`: the counter is one, so
`problem1` registers as a waiter and sleeps.  Goroutines 4 to 9 have not been
scheduled yet. -/
def asleep : List Action :=
  setup 10 ++ turns 0 25 ++ retire 0 ++ turns 1 25 ++ retire 1 ++ turns 2 25 ++ retire 2 ++
    turns 3 25 ++ [.main, .main, .main]

/-- The interleaving `asleep`, then goroutine 3 leaves its loop and makes the
decrement of its `wg.Done()`, and then goroutine 4 runs its `wg.Add(1)`. -/
def raceAdd : List Action :=
  asleep ++ [.procIter 3, .procWgDone 3, .procAdd 4]

/-- The interleaving `asleep`, then goroutine 3 leaves its loop and completes its
`wg.Done()`, which releases `problem1`; before `problem1` runs again, goroutine 4
runs its `wg.Add(1)`; then `problem1` wakes up and re-reads the state. -/
def raceWait : List Action :=
  asleep ++ [.procIter 3, .procWgDone 3, .procWgDone 3, .procWgDone 3, .procWgDone 3,
    .procWgDone 3, .procAdd 4, .main, .main]

end Problem1

/-! ## Lemmas on sums and runs -/

theorem upd_same {α : Type} (f : Nat → α) (i : Nat) (v : α) : upd f i v i = v := by
  simp [upd]

theorem upd_other {α : Type} (f : Nat → α) (i j : Nat) (v : α) (h : j ≠ i) :
    upd f i v j = f j := by
  simp [upd, h]

theorem sumTo_congr (n : Nat) (f g : Nat → Nat) (h : ∀ i, i < n → f i = g i) :
    sumTo n f = sumTo n g := by
  induction n with
  | zero => rfl
  | succ n ih =>
    simp only [sumTo]
    rw [ih (fun i hi => h i (Nat.lt_succ_of_lt hi)), h n (Nat.lt_succ_self n)]

theorem sumTo_upd {α : Type} (n s : Nat) (f : Nat → α) (x : α) (g : α → Nat) (hs : s < n) :
    sumTo n (fun j => g (upd f s x j)) + g (f s) = sumTo n (fun j => g (f j)) + g x := by
  induction n with
  | zero => omega
  | succ n ih =>
    simp only [sumTo]
    by_cases h : s = n
    · subst h
      have : sumTo s (fun j => g (upd f s x j)) = sumTo s (fun j => g (f j)) := by
        apply sumTo_congr
        intro i hi
        rw [upd_other f s i x (by omega)]
      rw [this, upd_same]
      omega
    · have h1 := ih (by omega)
      rw [upd_other f s n x (fun e => h e.symm)]
      omega

theorem sumTo_eq_zero (n : Nat) (f : Nat → Nat) (h : sumTo n f = 0) :
    ∀ i, i < n → f i = 0 := by
  induction n with
  | zero => intro i hi; omega
  | succ n ih =>
    simp only [sumTo] at h
    intro i hi
    by_cases e : i = n
    · subst e; omega
    · exact ih (by omega) i (by omega)

theorem sumTo_pos (n : Nat) (f : Nat → Nat) (i : Nat) (hi : i < n) (h : 0 < f i) :
    0 < sumTo n f := by
  by_contra hc
  have := sumTo_eq_zero n f (by omega) i hi
  omega

theorem sumTo_const (n c : Nat) (f : Nat → Nat) (h : ∀ i, i < n → f i = c) :
    sumTo n f = n * c := by
  induction n with
  | zero => simp [sumTo]
  | succ n ih =>
    simp only [sumTo]
    rw [ih (fun i hi => h i (by omega)), h n (by omega)]
    ring

theorem sumTo_le (n c : Nat) (f : Nat → Nat) (h : ∀ i, i < n → f i ≤ c) :
    sumTo n f ≤ n * c := by
  induction n with
  | zero => simp [sumTo]
  | succ n ih =>
    simp only [sumTo]
    have h1 := ih (fun i hi => h i (by omega))
    have h2 := h n (by omega)
    calc sumTo n f + f n ≤ n * c + c := by omega
      _ = (n + 1) * c := by ring

theorem runWith_inv {σ α : Type} (step : σ → α → Option σ) (P : σ → Prop)
    (hstep : ∀ s a t, P s → step s a = some t → P t) :
    ∀ (acts : List α) (s t : σ), P s → runWith step s acts = some t → P t := by
  intro acts
  induction acts with
  | nil =>
    intro s t hs h
    simp only [runWith, Option.some.injEq] at h
    exact h ▸ hs
  | cons a rest ih =>
    intro s t hs h
    simp only [runWith] at h
    cases hsa : step s a with
    | none => simp [hsa] at h
    | some u =>
      simp only [hsa] at h
      exact ih u t (hstep s a u hs hsa) h

theorem runWith_fuel {σ α : Type} (step : σ → α → Option σ) (P : σ → Prop) (f : σ → Nat)
    (hstep : ∀ s a t, P s → step s a = some t → P t)
    (hdec : ∀ s a t, P s → step s a = some t → f t < f s) :
    ∀ (acts : List α) (s t : σ), P s → runWith step s acts = some t →
      acts.length + f t ≤ f s := by
  intro acts
  induction acts with
  | nil =>
    intro s t _ h
    simp only [runWith, Option.some.injEq] at h
    subst h
    simp
  | cons a rest ih =>
    intro s t hs h
    simp only [runWith] at h
    cases hsa : step s a with
    | none => simp [hsa] at h
    | some u =>
      simp only [hsa] at h
      have h1 := ih u t (hstep s a u hs hsa) h
      have h2 := hdec s a u hs hsa
      simp only [List.length_cons]
      omega

theorem sumTo_exists_pos (n : Nat) (f : Nat → Nat) (h : sumTo n f ≠ 0) :
    ∃ i, i < n ∧ f i ≠ 0 := by
  by_contra hc
  apply h
  rw [sumTo_const n 0 f]
  · simp
  · intro i hi
    by_contra hne
    exact hc ⟨i, hi, hne⟩

theorem sumTo_add (n : Nat) (f g : Nat → Nat) :
    sumTo n (fun i => f i + g i) = sumTo n f + sumTo n g := by
  induction n with
  | zero => rfl
  | succ n ih => simp only [sumTo, ih]; omega

theorem sumTo_indicator (n k : Nat) (hk : k < n) :
    sumTo n (fun s => if k = s then 1 else 0) = 1 := by
  induction n with
  | zero => omega
  | succ n ih =>
    simp only [sumTo]
    by_cases h : k = n
    · subst h
      rw [sumTo_const k 0]
      · simp
      · intro i hi
        simp
        omega
    · rw [ih (by omega)]
      simp [h]

theorem length_eq_sum_count (n : Nat) (l : List Nat) (h : ∀ x, x ∈ l → x < n) :
    l.length = sumTo n (fun s => l.count s) := by
  induction l with
  | nil =>
    rw [sumTo_const n 0]
    · simp
    · intro i _
      simp
  | cons x l ih =>
    have h1 := ih (fun y hy => h y (List.mem_cons_of_mem _ hy))
    have h2 : (fun s => (x :: l).count s) = fun s => l.count s + (if x = s then 1 else 0) := by
      funext s
      by_cases e : x = s
      · subst e; simp
      · simp [List.count_cons, e]
    rw [h2, sumTo_add, sumTo_indicator n x (h x (List.mem_cons_self _ _)), ← h1]
    simp

theorem sumTo_ge_one (n : Nat) (f : Nat → Nat) (i : Nat) (hi : i < n) : f i ≤ sumTo n f := by
  induction n with
  | zero => omega
  | succ n ih =>
    simp only [sumTo]
    by_cases e : i = n
    · subst e; omega
    · have := ih (by omega)
      omega

theorem sumTo_ge_two (n : Nat) (f : Nat → Nat) (i j : Nat) (hi : i < n) (hj : j < n)
    (hij : i ≠ j) : f i + f j ≤ sumTo n f := by
  induction n with
  | zero => omega
  | succ n ih =>
    simp only [sumTo]
    by_cases e : i = n
    · subst e
      have := sumTo_ge_one i f j (by omega)
      omega
    · by_cases e' : j = n
      · subst e'
        have := sumTo_ge_one j f i (by omega)
        omega
      · have := ih (by omega) (by omega)
        omega

/-! ## problem2.go: proofs -/

namespace Problem2

/-! ### The invariant holds in every reachable state -/

theorem seen_append_same (rs : List Result) (r : Result) (s : Nat) (h : r.Slot = s) :
    seen (rs ++ [r]) s = seen rs s ++ [r.Index] := by
  simp [seen, List.filter_append, h]

theorem seen_append_other (rs : List Result) (r : Result) (s : Nat) (h : r.Slot ≠ s) :
    seen (rs ++ [r]) s = seen rs s := by
  simp [seen, List.filter_append, h]

theorem cnt_append_same (rs : List Result) (r : Result) (s : Nat) (h : r.Slot = s) :
    cnt (rs ++ [r]) s = cnt rs s + 1 := by
  simp [cnt, seen_append_same rs r s h]

theorem cnt_append_other (rs : List Result) (r : Result) (s : Nat) (h : r.Slot ≠ s) :
    cnt (rs ++ [r]) s = cnt rs s := by
  simp [cnt, seen_append_other rs r s h]

theorem liveWorkers_idle (cfg : Config) (σ : State) (h : ∀ s, (σ.lanes s).work = .idle) :
    liveWorkers cfg σ = cfg.MaxTotalGenerators := by
  unfold liveWorkers
  rw [sumTo_const _ 1]
  · simp
  · intro i _
    simp [h i, Work.live]

theorem liveWorkers_congr (cfg : Config) (σ τ : State)
    (h : ∀ j, (τ.lanes j).work.live = (σ.lanes j).work.live) :
    liveWorkers cfg τ = liveWorkers cfg σ := by
  unfold liveWorkers
  exact sumTo_congr _ _ _ (fun j _ => h j)

theorem liveWorkers_upd (cfg : Config) (σ τ : State) (s : Nat) (lane : Lane)
    (hs : s < cfg.MaxTotalGenerators) (h : τ.lanes = upd σ.lanes s lane) :
    liveWorkers cfg τ + (σ.lanes s).work.live = liveWorkers cfg σ + lane.work.live := by
  unfold liveWorkers
  rw [h]
  exact sumTo_upd cfg.MaxTotalGenerators s σ.lanes lane (fun l => l.work.live) hs

theorem inv_init (cfg : Config) : Inv cfg init := by
  constructor <;> try simp [init, gensStarted, worksStarted, Main.beforeFanIn, Main.inSetup,
    Main.hasClosed, Main.pastLoop, seen, cnt]
  intro s
  constructor <;> simp [init, gensStarted, worksStarted, Main.beforeFanIn, Main.inSetup,
    Main.hasClosed, Main.pastLoop, seen, cnt, Gen.pos, Work.gone, Work.held, Gen.over]

theorem step_eq (cfg : Config) (σ : State) (a : Action) (hp : σ.panic = none) :
    step cfg σ a = (match a with
    | .main => problem2 cfg σ
    | .genIter s v => generatorIter cfg σ s v
    | .genDone s => generatorDone σ s
    | .genSend s => generatorSend σ s
    | .genClose s => generatorClose σ s
    | .workEnd s => multiplexEnd σ s
    | .workDone s => multiplexDone σ s
    | .workSend s => multiplexSend cfg σ s
    | .workWgDone s => multiplexWgDone σ s
    | .supWait => fanInWait σ
    | .supClose => fanInClose σ) := by
  simp [step, hp]

theorem Inv.setLane {cfg : Config} {σ : State} (h : Inv cfg σ) (s : Nat) (lane : Lane)
    (hl : LaneInv cfg σ.main (cnt σ.received s) lane s)
    (hlive : lane.work.live = (σ.lanes s).work.live) : Inv cfg (σ.setLane s lane) := by
  obtain ⟨h1, h2, h3, h4, h5, h6, h7, h8, h9, h10, h11, h12, h13, h14, h15⟩ := h
  have hw : liveWorkers cfg (σ.setLane s lane) = liveWorkers cfg σ := by
    apply liveWorkers_congr
    intro j
    by_cases hj : j = s
    · subst hj; simp [State.setLane, upd, hlive]
    · simp [State.setLane, upd, hj]
  constructor <;> try assumption
  · intro j
    by_cases hj : j = s
    · subst hj; simpa [State.setLane, upd] using hl
    · simpa [State.setLane, upd, hj] using h4 j
  · rw [hw]; exact h5

theorem inv_genIter (cfg : Config) (σ σ' : State) (s v : Nat) (h : Inv cfg σ)
    (hs : generatorIter cfg σ s v = some σ') : Inv cfg σ' := by
  unfold generatorIter at hs
  split at hs
  · rename_i inx hgen
    obtain ⟨l1, l2, l3, l4, l5, l6, l7, l7', l8, l9, l10⟩ := h.lane s
    simp only [hgen, Gen.pos, Gen.over] at l1 l3 l5 l7 l7' l8 l9
    split at hs <;> simp only [Option.some.injEq] at hs <;> subst hs <;>
      refine h.setLane s _ ?_ rfl <;>
      constructor <;> (try simp [Gen.pos, Gen.over]) <;> (try intros) <;> (try simp_all) <;> omega
  · simp at hs

theorem inv_genDone (cfg : Config) (σ σ' : State) (s : Nat) (h : Inv cfg σ)
    (hs : generatorDone σ s = some σ') : Inv cfg σ' := by
  unfold generatorDone at hs
  split at hs
  · rename_i item hgen
    obtain ⟨l1, l2, l3, l4, l5, l6, l7, l7', l8, l9, l10⟩ := h.lane s
    simp only [hgen, Gen.pos, Gen.over] at l1 l3 l5 l7 l7' l8 l9
    have hd := h.done
    split at hs
    · simp at hs
    · simp only [Option.some.injEq] at hs
      subst hs
      refine h.setLane s _ ?_ rfl
      constructor <;> (try simp [Gen.pos, Gen.over]) <;> (try intros) <;> (try simp_all) <;> omega
  · simp at hs

theorem inv_genSend (cfg : Config) (σ σ' : State) (s : Nat) (h : Inv cfg σ)
    (hs : generatorSend σ s = some σ') : Inv cfg σ' := by
  unfold generatorSend at hs
  split at hs
  · rename_i item hgen
    obtain ⟨l1, l2, l3, l4, l5, l6, l7, l7', l8, l9, l10⟩ := h.lane s
    simp only [hgen, Gen.pos, Gen.over] at l1 l3 l5 l7 l7' l8 l9
    have l5 := l5 _ rfl
    split at hs
    · rename_i hne
      simp [l3] at hne
    · split at hs
      · rename_i hwork
        simp only [hwork, Work.gone, Work.held] at l2 l6 l7 l7' l8 l9 l10
        simp only [Option.some.injEq] at hs
        subst hs
        refine h.setLane s _ ?_ (by simp [hwork, Work.live])
        constructor <;> (try simp [Gen.pos, Gen.over, Work.gone, Work.held]) <;> (try intros) <;> (try simp_all) <;> omega
      · simp at hs
  · simp at hs

theorem setLane_panic (σ : State) (s : Nat) (lane : Lane) (hp : σ.panic = none) :
    { σ.setLane s lane with panic := none } = σ.setLane s lane := by
  obtain ⟨a1, a2, a3, a4, a5, a6, a7, a8, a9, a10⟩ := σ
  simp only at hp
  subst hp
  rfl

theorem inv_genClose (cfg : Config) (σ σ' : State) (s : Nat) (h : Inv cfg σ)
    (hs : generatorClose σ s = some σ') : Inv cfg σ' := by
  unfold generatorClose at hs
  split at hs
  · rename_i hgen
    obtain ⟨l1, l2, l3, l4, l5, l6, l7, l7', l8, l9, l10⟩ := h.lane s
    simp only [hgen, Gen.pos, Gen.over] at l1 l3 l5 l7 l7' l8 l9
    simp only [Option.some.injEq] at hs
    subst hs
    simp only [closeChan, l3, reduceCtorEq, if_false, if_true]
    rw [setLane_panic σ s _ h.noPanic]
    refine h.setLane s _ ?_ rfl
    constructor <;> (try simp [Gen.pos, Gen.over]) <;> (try intros) <;> (try simp_all) <;> omega
  · simp at hs

theorem inv_workEnd (cfg : Config) (σ σ' : State) (s : Nat) (h : Inv cfg σ)
    (hs : multiplexEnd σ s = some σ') : Inv cfg σ' := by
  unfold multiplexEnd at hs
  split at hs
  · rename_i hwork
    obtain ⟨l1, l2, l3, l4, l5, l6, l7, l7', l8, l9, l10⟩ := h.lane s
    simp only [hwork, Work.gone, Work.held] at l2 l6 l7 l7' l8 l9 l10
    split at hs
    · simp at hs
    · rename_i hne
      simp only [Option.some.injEq] at hs
      subst hs
      have hfin : (σ.lanes s).gen = .finished := by
        by_contra hc
        simp [hc] at l3
        exact hne l3
      simp only [hfin, Gen.pos, Gen.over] at l1 l3 l5 l7 l7' l8 l9
      refine h.setLane s _ ?_ (by simp [hwork, Work.live])
      constructor <;> (try simp [Work.gone, Work.held]) <;> (try intros) <;>
        (try simp_all [Gen.pos, Gen.over]) <;> omega
  · simp at hs

theorem inv_workDone (cfg : Config) (σ σ' : State) (s : Nat) (h : Inv cfg σ)
    (hs : multiplexDone σ s = some σ') : Inv cfg σ' := by
  unfold multiplexDone at hs
  split at hs
  · rename_i i hwork
    obtain ⟨l1, l2, l3, l4, l5, l6, l7, l7', l8, l9, l10⟩ := h.lane s
    simp only [hwork, Work.gone, Work.held] at l2 l6 l7 l7' l8 l9 l10
    have hd := h.done
    split at hs
    · simp at hs
    · rename_i hne
      simp only [Option.some.injEq] at hs
      subst hs
      have hcl : σ.main.hasClosed = true := by
        by_contra hc
        simp [hc] at hd
        exact hne hd
      refine h.setLane s _ ?_ (by simp [hwork, Work.live])
      constructor <;> (try simp [Work.gone, Work.held]) <;> (try intros) <;>
        (try simp_all) <;> omega
  · simp at hs

theorem LaneInv.reparam {cfg : Config} {m m' : Main} {c : Nat} {l : Lane} {s : Nat}
    (h : LaneInv cfg m c l s)
    (hg : gensStarted cfg m' ≤ s ↔ gensStarted cfg m ≤ s)
    (hw : worksStarted cfg m' ≤ s ↔ worksStarted cfg m ≤ s)
    (hc : m'.hasClosed = false → m.hasClosed = false) : LaneInv cfg m' c l s := by
  obtain ⟨l1, l2, l3, l4, l5, l6, l7, l7', l8, l9, l10⟩ := h
  exact ⟨by rw [hg]; exact l1, by rw [hw]; exact l2, l3, l4, l5, l6, l7, l7',
    fun a b => l8 a (hc b), fun a b => l9 a (hc b), l10⟩

theorem lane_started {cfg : Config} {σ : State} (h : Inv cfg σ) (s : Nat)
    (hw : (σ.lanes s).work ≠ .idle) :
    s < cfg.MaxTotalGenerators ∧ σ.main.beforeFanIn = false := by
  have h1 := (h.lane s).workIdle
  have h2 := h.workBound
  have h3 : ¬ worksStarted cfg σ.main ≤ s := fun hc => hw (h1.mpr hc)
  constructor
  · omega
  · cases hm : σ.main <;> simp [hm, worksStarted, Main.beforeFanIn] at h3 ⊢

theorem inv_workWgDone (cfg : Config) (σ σ' : State) (s : Nat) (h : Inv cfg σ)
    (hs : multiplexWgDone σ s = some σ') : Inv cfg σ' := by
  unfold multiplexWgDone at hs
  split at hs
  · rename_i hwork
    obtain ⟨hsN, hbf⟩ := lane_started h s (by simp [hwork])
    have hlive := liveWorkers_upd cfg σ (σ.setWork s .finished) s
      { σ.lanes s with work := .finished } hsN rfl
    simp only [hwork, Work.live] at hlive
    have hwg := h.wg
    simp only [hbf, Bool.false_eq_true, if_false] at hwg
    split at hs
    · omega
    · rename_i hne
      simp only [Option.some.injEq] at hs
      subst hs
      obtain ⟨l1, l2, l3, l4, l5, l6, l7, l7', l8, l9, l10⟩ := h.lane s
      simp only [hwork, Work.gone, Work.held] at l2 l6 l7 l7' l8 l9 l10
      obtain ⟨h1, h2, h3, h4, h5, h6, h7, h8, h9, h10, h11, h12, h13, h14, h15⟩ := h
      refine ⟨h1, h2, h3, ?_, ?_, h6, h7, ?_, h9, h10, h11, h12, h13, h14, h15⟩
      · intro j
        by_cases hj : j = s
        · subst hj
          simp only [State.setWork, State.setLane, upd_same]
          constructor <;> (try simp [Work.gone, Work.held]) <;> (try intros) <;>
            (try simp_all) <;> omega
        · simpa [State.setWork, State.setLane, upd, hj] using h4 j
      · show σ.wg - 1 = if σ.main.beforeFanIn = true then 0
          else liveWorkers cfg (σ.setWork s .finished)
        simp only [hbf, Bool.false_eq_true, if_false]
        omega
      · intro hsup
        have := h8 hsup
        show σ.wg - 1 = 0
        omega
  · simp at hs

theorem inv_supWait (cfg : Config) (σ σ' : State) (h : Inv cfg σ)
    (hs : fanInWait σ = some σ') : Inv cfg σ' := by
  unfold fanInWait at hs
  split at hs
  · rename_i hsup
    split at hs
    · rename_i hwg
      simp only [Option.some.injEq] at hs
      subst hs
      obtain ⟨h1, h2, h3, h4, h5, h6, h7, h8, h9, h10, h11, h12, h13, h14, h15⟩ := h
      simp only [hsup, reduceCtorEq, false_iff, if_false] at h6 h7
      refine ⟨h1, h2, h3, h4, h5, ?_, ?_, ?_, h9, h10, h11, h12, h13, h14, ?_⟩
      · simpa using h6
      · simpa using h7
      · intro _; exact hwg
      · exact h15
    · simp at hs
  · simp at hs

theorem inv_supClose (cfg : Config) (σ σ' : State) (h : Inv cfg σ)
    (hs : fanInClose σ = some σ') : Inv cfg σ' := by
  unfold fanInClose at hs
  split at hs
  · rename_i hsup
    simp only [Option.some.injEq] at hs
    subst hs
    obtain ⟨h1, h2, h3, h4, h5, h6, h7, h8, h9, h10, h11, h12, h13, h14, h15⟩ := h
    simp only [hsup, reduceCtorEq, false_iff, if_false] at h6 h7
    have hwg := h8 (Or.inl hsup)
    refine ⟨?_, h2, h3, h4, h5, ?_, ?_, ?_, h9, h10, h11, h12, h13, h14, ?_⟩
    · simp [closeChan, h7]
    · simpa using h6
    · simp [closeChan, h7]
    · intro _; exact hwg
    · intro a b
      have := h15 a b
      simp [h7] at this
  · simp at hs

theorem setup_of_beforeFanIn (m : Main) (h : m.inSetup = false) : m.beforeFanIn = false := by
  cases m <;> simp [Main.inSetup, Main.beforeFanIn] at h ⊢

theorem work_finished_of_live (w : Work) (h : w.live = 0) : w = .finished := by
  cases w <;> simp [Work.live] at h ⊢

theorem all_finished_of_sup {cfg : Config} {σ : State} (h : Inv cfg σ)
    (hsup : σ.sup = .closing ∨ σ.sup = .finished) :
    ∀ s, s < cfg.MaxTotalGenerators → (σ.lanes s).work = .finished := by
  intro s hs
  have hwg := h.supWg hsup
  have hset : σ.main.inSetup = false := by
    have := h.supIdle
    cases hi : σ.main.inSetup
    · rfl
    · rw [hi] at this
      have := this.mpr rfl
      rcases hsup with e | e <;> rw [e] at this <;> simp at this
  have h5 := h.wg
  rw [setup_of_beforeFanIn _ hset] at h5
  simp only [Bool.false_eq_true, if_false] at h5
  rw [hwg] at h5
  exact work_finished_of_live _ (sumTo_eq_zero _ _ h5.symm s hs)

theorem sup_finished_of_merged {cfg : Config} {σ : State} (h : Inv cfg σ)
    (hm : σ.merged ≠ 0) : σ.sup = .finished := by
  have := h.merged
  by_contra hc
  simp [hc] at this
  exact hm this

theorem inv_workSend (cfg : Config) (σ σ' : State) (s : Nat) (h : Inv cfg σ)
    (hs : multiplexSend cfg σ s = some σ') : Inv cfg σ' := by
  unfold multiplexSend at hs
  split at hs
  · rename_i i hwork
    obtain ⟨hsN, hbf⟩ := lane_started h s (by simp [hwork])
    split at hs
    · rename_i hm
      have := all_finished_of_sup h (Or.inr (sup_finished_of_merged h hm)) s hsN
      simp [hwork] at this
    · rename_i hm
      split at hs
      · rename_i hmain
        simp only [Option.some.injEq] at hs
        subst hs
        obtain ⟨l1, l2, l3, l4, l5, l6, l7, l7', l8, l9, l10⟩ := h.lane s
        simp only [hwork, Work.gone, Work.held] at l2 l6 l7 l7' l8 l9 l10
        obtain ⟨li1, li2, li3⟩ := l6 i rfl
        obtain ⟨h1, h2, h3, h4, h5, h6, h7, h8, h9, h10, h11, h12, h13, h14, h15⟩ := h
        simp only [hmain, Main.pastLoop, Main.beforeFanIn, Main.hasClosed, Main.inSetup,
          gensStarted, worksStarted] at h2 h3 h5 h6 h9 h13 h15
        have hmc : ∀ m' : Main, m' = (if σ.total + 1 > cfg.MaxTotalNumbers then Main.closeDone
            else Main.range) → gensStarted cfg m' = cfg.MaxTotalGenerators ∧
            worksStarted cfg m' = cfg.MaxTotalGenerators ∧ m'.hasClosed = false ∧
            m'.beforeFanIn = false ∧ m'.inSetup = false ∧
            (m'.pastLoop = true ↔ σ.total + 1 > cfg.MaxTotalNumbers) := by
          intro m' hm'
          subst hm'
          split <;> rename_i hq <;> simp [gensStarted, worksStarted, Main.hasClosed,
            Main.beforeFanIn, Main.inSetup, Main.pastLoop] <;> omega
        obtain ⟨m1, m2, m3, m4, m5, m6⟩ := hmc _ rfl
        refine ⟨h1, ?_, ?_, ?_, ?_, ?_, h7, h8, ?_, ?_, ?_, ?_, ?_, ?_, ?_⟩
        · show gensStarted cfg _ ≤ _
          rw [m1]
        · show worksStarted cfg _ ≤ _
          rw [m2]
        · intro j
          have hj4 := h4 j
          simp only [hmain] at hj4
          by_cases hj : j = s
          · subst hj
            show LaneInv cfg _ (cnt (σ.received ++ [i]) j) (upd σ.lanes j _ j) j
            rw [upd_same, cnt_append_same _ _ _ li1]
            have hnew : LaneInv cfg Main.range (cnt σ.received j + 1)
                { σ.lanes j with work := .range } j := by
              obtain ⟨k1, k2, k3, k4, k5, k6, k7, k7', k8, k9, k10⟩ := hj4
              simp only [hwork, Work.gone, Work.held] at k2 k6 k7 k7' k8 k9 k10
              constructor <;> (try simp [Work.gone, Work.held]) <;> (try intros) <;>
                (try simp_all) <;> omega
            exact hnew.reparam (by rw [m1]; simp [gensStarted]) (by rw [m2]; simp [worksStarted])
              (by simp [Main.hasClosed])
          · show LaneInv cfg _ (cnt (σ.received ++ [i]) j) (upd σ.lanes s _ j) j
            rw [upd_other _ _ _ _ hj, cnt_append_other _ _ _ (by omega)]
            exact hj4.reparam (by rw [m1]; simp [gensStarted]) (by rw [m2]; simp [worksStarted])
              (by simp [Main.hasClosed])
        · show σ.wg = if Main.beforeFanIn _ = true then 0 else liveWorkers cfg _
          rw [m4]
          simp only [Bool.false_eq_true, if_false] at h5 ⊢
          rw [h5]
          symm
          apply liveWorkers_congr
          intro j
          by_cases hj : j = s
          · subst hj; simp [State.setWork, State.setLane, upd, hwork, Work.live]
          · simp [State.setWork, State.setLane, upd, hj]
        · show σ.sup = .idle ↔ Main.inSetup _ = true
          rw [m5]
          simpa using h6
        · show σ.done = if Main.hasClosed _ = true then 1 else 0
          rw [m3]
          simpa using h9
        · intro r hr
          rcases List.mem_append.mp hr with hr | hr
          · exact h10 r hr
          · simp only [List.mem_singleton] at hr
            subst hr
            omega
        · intro j
          show seen (σ.received ++ [i]) j = List.range (cnt (σ.received ++ [i]) j)
          by_cases hj : j = s
          · subst hj
            rw [cnt_append_same _ _ _ li1, seen_append_same _ _ _ li1, List.range_succ, h11 j, li2]
          · rw [cnt_append_other _ _ _ (by omega), seen_append_other _ _ _ (by omega), h11 j]
        · show σ.total + 1 = (σ.received ++ [i]).length
          simp [h12]
        · show Main.pastLoop _ = false → σ.total + 1 ≤ _
          intro hp
          by_contra hc
          have := m6.mpr (by omega)
          rw [this] at hp
          simp at hp
        · show σ.total + 1 ≤ _
          have := h13 trivial
          omega
        · show Main.pastLoop _ = true → σ.total + 1 ≤ _ → _
          intro hp hq
          have := m6.mp hp
          omega
      · simp at hs
  · simp at hs

theorem inv_main (cfg : Config) (σ σ' : State) (h : Inv cfg σ)
    (hs : problem2 cfg σ = some σ') : Inv cfg σ' := by
  obtain ⟨h1, h2, h3, h4, h5, h6, h7, h8, h9, h10, h11, h12, h13, h14, h15⟩ := h
  unfold problem2 at hs
  split at hs
  · rename_i inx hmain
    simp only [hmain, Main.pastLoop, Main.beforeFanIn, Main.hasClosed, Main.inSetup,
      gensStarted, worksStarted, if_true] at h2 h3 h5 h6 h9 h13 h15
    split at hs
    · rename_i hlt
      simp only [Option.some.injEq] at hs
      subst hs
      refine ⟨h1, ?_, ?_, ?_, ?_, ?_, h7, h8, ?_, h10, h11, h12, ?_, h14, ?_⟩
      · show inx + 1 ≤ _
        omega
      · show 0 ≤ _
        omega
      · intro j
        have hj4 := h4 j
        simp only [hmain] at hj4
        by_cases hj : j = inx
        · subst hj
          have hnew : LaneInv cfg (Main.spawnGen (j + 1)) (cnt σ.received j)
              { σ.lanes j with gen := .loop 0 } j := by
            obtain ⟨k1, k2, k3, k4, k5, k6, k7, k7', k8, k9, k10⟩ := hj4
            simp only [gensStarted, worksStarted, Main.hasClosed] at k1 k2 k8 k9
            have hg : (σ.lanes j).gen = .idle := k1.mpr (Nat.le_refl _)
            have hw : (σ.lanes j).work = .idle := k2.mpr (Nat.zero_le _)
            simp [hg, hw, Gen.pos, Gen.over, Work.gone, Work.held] at k3 k5 k6 k7 k7' k8 k9
            constructor <;> (try simp [Gen.pos, Gen.over, Work.gone, Work.held, gensStarted,
              worksStarted, Main.hasClosed]) <;> (try intros) <;> (try simp_all) <;> omega
          show LaneInv cfg _ _ (upd σ.lanes j _ j) j
          rw [upd_same]
          exact hnew
        · show LaneInv cfg _ _ (upd σ.lanes inx _ j) j
          rw [upd_other _ _ _ _ hj]
          exact hj4.reparam (by simp only [gensStarted]; omega) (by simp [worksStarted])
            (by simp [Main.hasClosed])
      · exact h5
      · simpa [Main.inSetup] using h6
      · simpa [Main.hasClosed] using h9
      · simpa [Main.pastLoop] using h13
      · intro hp
        simp [Main.pastLoop] at hp
    · rename_i hlt
      simp only [Option.some.injEq] at hs
      subst hs
      have hN : inx = cfg.MaxTotalGenerators := by omega
      subst hN
      have hidle : ∀ j, (σ.lanes j).work = .idle := by
        intro j
        have := (h4 j).workIdle
        simp only [hmain, worksStarted] at this
        exact this.mpr (Nat.zero_le _)
      refine ⟨h1, ?_, ?_, ?_, ?_, ?_, h7, ?_, ?_, h10, h11, h12, ?_, h14, ?_⟩
      · show cfg.MaxTotalGenerators ≤ _
        omega
      · show 0 ≤ _
        omega
      · intro j
        have hj4 := h4 j
        simp only [hmain] at hj4
        exact hj4.reparam (by simp [gensStarted]) (by simp [worksStarted])
          (by simp [Main.hasClosed])
      · show σ.wg + cfg.MaxTotalGenerators = liveWorkers cfg σ
        rw [liveWorkers_idle cfg σ hidle, h5]
        omega
      · simpa [Main.inSetup] using h6
      · intro hsup
        simp only [iff_true] at h6
        rcases hsup with e | e <;> simp [h6] at e
      · simpa [Main.hasClosed] using h9
      · simpa [Main.pastLoop] using h13
      · intro hp
        simp [Main.pastLoop] at hp
  · rename_i k hmain
    simp only [hmain, Main.pastLoop, Main.beforeFanIn, Main.hasClosed, Main.inSetup,
      gensStarted, worksStarted, if_true] at h2 h3 h5 h6 h9 h13 h15
    split at hs
    · rename_i hlt
      simp only [Option.some.injEq] at hs
      subst hs
      have hw : (σ.lanes k).work = .idle := by
        have := (h4 k).workIdle
        simp only [hmain, worksStarted] at this
        exact this.mpr (Nat.le_refl _)
      refine ⟨h1, ?_, ?_, ?_, ?_, ?_, h7, h8, ?_, h10, h11, h12, ?_, h14, ?_⟩
      · show cfg.MaxTotalGenerators ≤ _
        omega
      · show k + 1 ≤ _
        omega
      · intro j
        have hj4 := h4 j
        simp only [hmain] at hj4
        by_cases hj : j = k
        · subst hj
          have hnew : LaneInv cfg (Main.spawnWork (j + 1)) (cnt σ.received j)
              { σ.lanes j with work := .range } j := by
            obtain ⟨k1, k2, k3, k4, k5, k6, k7, k7', k8, k9, k10⟩ := hj4
            simp only [gensStarted, worksStarted, Main.hasClosed] at k1 k2 k8 k9
            simp [hw, Work.gone, Work.held] at k6 k7 k7' k8 k9
            constructor <;> (try simp [Work.gone, Work.held, gensStarted,
              worksStarted, Main.hasClosed]) <;> (try intros) <;> (try simp_all) <;> omega
          show LaneInv cfg _ _ (upd σ.lanes j _ j) j
          rw [upd_same]
          exact hnew
        · show LaneInv cfg _ _ (upd σ.lanes k _ j) j
          rw [upd_other _ _ _ _ hj]
          exact hj4.reparam (by simp [gensStarted]) (by simp only [worksStarted]; omega)
            (by simp [Main.hasClosed])
      · show σ.wg = liveWorkers cfg _
        simp only [Bool.false_eq_true, if_false] at h5
        rw [h5]
        symm
        apply liveWorkers_congr
        intro j
        by_cases hj : j = k
        · subst hj; simp [State.setWork, State.setLane, upd, hw, Work.live]
        · simp [State.setWork, State.setLane, upd, hj]
      · simpa [Main.inSetup] using h6
      · simpa [Main.hasClosed] using h9
      · simpa [Main.pastLoop] using h13
      · intro hp
        simp [Main.pastLoop] at hp
    · rename_i hlt
      simp only [Option.some.injEq] at hs
      subst hs
      have hN : k = cfg.MaxTotalGenerators := by omega
      subst hN
      simp only [iff_true] at h6
      simp only [h6, reduceCtorEq, if_false] at h7 
      refine ⟨h1, ?_, ?_, ?_, ?_, ?_, ?_, ?_, ?_, h10, h11, h12, ?_, h14, ?_⟩
      · show cfg.MaxTotalGenerators ≤ _
        omega
      · show cfg.MaxTotalGenerators ≤ _
        omega
      · intro j
        have hj4 := h4 j
        simp only [hmain] at hj4
        exact hj4.reparam (by simp [gensStarted]) (by simp [worksStarted])
          (by simp [Main.hasClosed])
      · simpa using h5
      · simp [Main.inSetup]
      · simpa using h7
      · intro hsup
        simp at hsup
      · simpa [Main.hasClosed] using h9
      · simpa [Main.pastLoop] using h13
      · intro hp
        simp [Main.pastLoop] at hp
  · rename_i hmain
    split at hs
    · simp at hs
    · rename_i hm
      simp only [Option.some.injEq] at hs
      subst hs
      have hI : Inv cfg σ := ⟨h1, h2, h3, h4, h5, h6, h7, h8, h9, h10, h11, h12, h13, h14, h15⟩
      have hsup := sup_finished_of_merged hI hm
      have hfin := all_finished_of_sup hI (Or.inr hsup)
      simp only [hmain, Main.pastLoop, Main.beforeFanIn, Main.hasClosed, Main.inSetup,
        gensStarted, worksStarted, if_true] at h2 h3 h5 h6 h9 h13 h15
      refine ⟨h1, ?_, ?_, ?_, ?_, ?_, h7, h8, ?_, h10, h11, h12, ?_, h14, ?_⟩
      · show cfg.MaxTotalGenerators ≤ _
        omega
      · show cfg.MaxTotalGenerators ≤ _
        omega
      · intro j
        have hj4 := h4 j
        simp only [hmain] at hj4
        exact hj4.reparam (by simp [gensStarted]) (by simp [worksStarted])
          (by simp [Main.hasClosed])
      · simpa using h5
      · simpa [Main.inSetup] using h6
      · simpa [Main.hasClosed] using h9
      · intro hp
        simp [Main.pastLoop] at hp
      · intro _ _
        refine ⟨by simpa [hsup] using h7, ?_⟩
        intro j hj
        have hj4 := h4 j
        simp only [hmain] at hj4
        exact (hj4.gone (by simp [hfin j hj, Work.gone]) (by simp [Main.hasClosed])).2
  · rename_i hmain
    simp only [Option.some.injEq] at hs
    subst hs
    simp only [hmain, Main.pastLoop, Main.beforeFanIn, Main.hasClosed, Main.inSetup,
      gensStarted, worksStarted, if_true] at h2 h3 h5 h6 h9 h13 h15
    simp only [Bool.false_eq_true, if_false] at h9
    refine ⟨?_, ?_, ?_, ?_, ?_, ?_, h7, h8, ?_, h10, h11, h12, ?_, h14, ?_⟩
    · simp [closeDone, closeChan, h9]
    · show cfg.MaxTotalGenerators ≤ _
      omega
    · show cfg.MaxTotalGenerators ≤ _
      omega
    · intro j
      have hj4 := h4 j
      simp only [hmain] at hj4
      exact hj4.reparam (by simp [gensStarted]) (by simp [worksStarted])
        (by simp [Main.hasClosed])
    · simpa using h5
    · simpa [Main.inSetup] using h6
    · simp [closeDone, closeChan, h9, Main.hasClosed]
    · intro hp
      simp [Main.pastLoop] at hp
    · intro _ hq
      exact h15 trivial hq
  · rename_i hmain
    simp only [Option.some.injEq] at hs
    subst hs
    simp only [hmain, Main.pastLoop, Main.beforeFanIn, Main.hasClosed, Main.inSetup,
      gensStarted, worksStarted, if_true] at h2 h3 h5 h6 h9 h13 h15
    refine ⟨h1, ?_, ?_, ?_, ?_, ?_, h7, h8, ?_, h10, h11, h12, ?_, h14, ?_⟩
    · show cfg.MaxTotalGenerators ≤ _
      omega
    · show cfg.MaxTotalGenerators ≤ _
      omega
    · intro j
      have hj4 := h4 j
      simp only [hmain] at hj4
      exact hj4.reparam (by simp [gensStarted]) (by simp [worksStarted])
        (by simp [Main.hasClosed])
    · simpa using h5
    · simpa [Main.inSetup] using h6
    · simpa [Main.hasClosed] using h9
    · intro hp
      simp [Main.pastLoop] at hp
    · intro _ hq
      exact h15 trivial hq
  · simp at hs

theorem inv_step (cfg : Config) (σ : State) (a : Action) (σ' : State) (h : Inv cfg σ)
    (hs : step cfg σ a = some σ') : Inv cfg σ' := by
  rw [step_eq cfg σ a h.noPanic] at hs
  cases a with
  | main => exact inv_main cfg σ σ' h hs
  | genIter s v => exact inv_genIter cfg σ σ' s v h hs
  | genDone s => exact inv_genDone cfg σ σ' s h hs
  | genSend s => exact inv_genSend cfg σ σ' s h hs
  | genClose s => exact inv_genClose cfg σ σ' s h hs
  | workEnd s => exact inv_workEnd cfg σ σ' s h hs
  | workDone s => exact inv_workDone cfg σ σ' s h hs
  | workSend s => exact inv_workSend cfg σ σ' s h hs
  | workWgDone s => exact inv_workWgDone cfg σ σ' s h hs
  | supWait => exact inv_supWait cfg σ σ' h hs
  | supClose => exact inv_supClose cfg σ σ' h hs

theorem inv_exec (cfg : Config) (acts : List Action) (σ : State)
    (h : exec cfg acts = some σ) : Inv cfg σ :=
  runWith_inv (step cfg) (Inv cfg) (inv_step cfg) acts init σ (inv_init cfg) h

/-! ### Every interleaving is finite -/

theorem fuel_init (cfg : Config) : fuel cfg init = maxSteps cfg := by
  unfold fuel maxSteps
  rw [sumTo_const _ (3 * cfg.MaxNumbersPerGenerator + 4)]
  · simp [init, Main.fuel, Sup.fuel]
    ring
  · intro i _
    simp [init, Lane.fuel, Gen.fuel, Work.fuel]

theorem fuel_setLane (cfg : Config) (σ : State) (s : Nat) (lane : Lane)
    (hs : s < cfg.MaxTotalGenerators) :
    fuel cfg (σ.setLane s lane) + (σ.lanes s).fuel cfg = fuel cfg σ + lane.fuel cfg := by
  unfold fuel
  have h : sumTo cfg.MaxTotalGenerators (fun j => (upd σ.lanes s lane j).fuel cfg)
      + (σ.lanes s).fuel cfg
      = sumTo cfg.MaxTotalGenerators (fun j => (σ.lanes j).fuel cfg) + lane.fuel cfg :=
    sumTo_upd cfg.MaxTotalGenerators s σ.lanes lane (fun l => l.fuel cfg) hs
  simp only [State.setLane]
  omega

theorem gen_started {cfg : Config} {σ : State} (h : Inv cfg σ) (s : Nat)
    (hg : (σ.lanes s).gen ≠ .idle) : s < cfg.MaxTotalGenerators := by
  have h1 := (h.lane s).genIdle
  have h2 := h.genBound
  have h3 : ¬ gensStarted cfg σ.main ≤ s := fun hc => hg (h1.mpr hc)
  omega

theorem fuel_step (cfg : Config) (σ : State) (a : Action) (σ' : State) (h : Inv cfg σ)
    (hs : step cfg σ a = some σ') : fuel cfg σ' < fuel cfg σ := by
  have hp' := (inv_step cfg σ a σ' h hs).noPanic
  rw [step_eq cfg σ a h.noPanic] at hs
  cases a with
  | main =>
    simp only [problem2] at hs
    split at hs
    · rename_i inx hmain
      have hg : (σ.lanes inx).gen = .idle := by
        have := (h.lane inx).genIdle
        simp only [hmain, gensStarted] at this
        exact this.mpr (Nat.le_refl _)
      split at hs
      · rename_i hlt
        simp only [Option.some.injEq] at hs
        subst hs
        have := fuel_setLane cfg σ inx { σ.lanes inx with gen := .loop 0 } hlt
        simp only [fuel, State.setGen, State.setLane, hmain, Main.fuel, Lane.fuel, hg,
          Gen.fuel] at this ⊢
        omega
      · simp only [Option.some.injEq] at hs
        subst hs
        simp only [fuel, hmain, Main.fuel]
        omega
    · rename_i k hmain
      have hw : (σ.lanes k).work = .idle := by
        have := (h.lane k).workIdle
        simp only [hmain, worksStarted] at this
        exact this.mpr (Nat.le_refl _)
      split at hs
      · rename_i hlt
        simp only [Option.some.injEq] at hs
        subst hs
        have := fuel_setLane cfg σ k { σ.lanes k with work := .range } hlt
        simp only [fuel, State.setWork, State.setLane, hmain, Main.fuel, Lane.fuel, hw,
          Work.fuel] at this ⊢
        omega
      · simp only [Option.some.injEq] at hs
        subst hs
        have hsup : σ.sup = .idle := h.supIdle.mpr (by simp [hmain, Main.inSetup])
        simp only [fuel, hmain, Main.fuel, hsup, Sup.fuel]
        omega
    · rename_i hmain
      split at hs
      · simp at hs
      · simp only [Option.some.injEq] at hs
        subst hs
        simp only [fuel, hmain, Main.fuel]
        omega
    · rename_i hmain
      simp only [Option.some.injEq] at hs
      subst hs
      simp only [fuel, closeDone, hmain, Main.fuel]
      omega
    · rename_i hmain
      simp only [Option.some.injEq] at hs
      subst hs
      simp only [fuel, hmain, Main.fuel]
      omega
    · simp at hs
  | genIter s v =>
    simp only [generatorIter] at hs
    split at hs
    · rename_i inx hgen
      have hsN := gen_started h s (by simp [hgen])
      have hle := (h.lane s).posLe
      simp only [hgen, Gen.pos] at hle
      split at hs <;> simp only [Option.some.injEq] at hs <;> subst hs
      · have := fuel_setLane cfg σ s { σ.lanes s with gen := .select ⟨s, inx, v⟩ } hsN
        simp only [State.setGen, Lane.fuel, hgen, Gen.fuel] at this ⊢
        omega
      · have := fuel_setLane cfg σ s { σ.lanes s with gen := .closing } hsN
        simp only [State.setGen, Lane.fuel, hgen, Gen.fuel] at this ⊢
        omega
    · simp at hs
  | genDone s =>
    simp only [generatorDone] at hs
    split at hs
    · rename_i item hgen
      have hsN := gen_started h s (by simp [hgen])
      split at hs
      · simp at hs
      · simp only [Option.some.injEq] at hs
        subst hs
        have := fuel_setLane cfg σ s { σ.lanes s with gen := .closing } hsN
        simp only [State.setGen, Lane.fuel, hgen, Gen.fuel] at this ⊢
        omega
    · simp at hs
  | genSend s =>
    simp only [generatorSend] at hs
    split at hs
    · rename_i item hgen
      have hsN := gen_started h s (by simp [hgen])
      split at hs
      · simp only [Option.some.injEq] at hs
        subst hs
        simp [State.panicWith] at hp'
      · split at hs
        · rename_i hwork
          simp only [Option.some.injEq] at hs
          subst hs
          have := fuel_setLane cfg σ s
            ⟨.loop (item.Index + 1), (σ.lanes s).stream, .select item⟩ hsN
          simp only [Lane.fuel, hgen, hwork, Gen.fuel, Work.fuel] at this ⊢
          omega
        · simp at hs
    · simp at hs
  | genClose s =>
    simp only [generatorClose] at hs
    split at hs
    · rename_i hgen
      have hsN := gen_started h s (by simp [hgen])
      simp only [Option.some.injEq] at hs
      subst hs
      have := fuel_setLane cfg σ s
        ⟨.finished, (closeChan (σ.lanes s).stream).1, (σ.lanes s).work⟩ hsN
      simp only [Lane.fuel, hgen, Gen.fuel] at this
      show fuel cfg (σ.setLane s _) < _
      omega
    · simp at hs
  | workEnd s =>
    simp only [multiplexEnd] at hs
    split at hs
    · rename_i hwork
      obtain ⟨hsN, _⟩ := lane_started h s (by simp [hwork])
      split at hs
      · simp at hs
      · simp only [Option.some.injEq] at hs
        subst hs
        have := fuel_setLane cfg σ s { σ.lanes s with work := .leaving } hsN
        simp only [State.setWork, Lane.fuel, hwork, Work.fuel] at this ⊢
        omega
    · simp at hs
  | workDone s =>
    simp only [multiplexDone] at hs
    split at hs
    · rename_i i hwork
      obtain ⟨hsN, _⟩ := lane_started h s (by simp [hwork])
      split at hs
      · simp at hs
      · simp only [Option.some.injEq] at hs
        subst hs
        have := fuel_setLane cfg σ s { σ.lanes s with work := .leaving } hsN
        simp only [State.setWork, Lane.fuel, hwork, Work.fuel] at this ⊢
        omega
    · simp at hs
  | workSend s =>
    simp only [multiplexSend] at hs
    split at hs
    · rename_i i hwork
      obtain ⟨hsN, _⟩ := lane_started h s (by simp [hwork])
      split at hs
      · simp only [Option.some.injEq] at hs
        subst hs
        simp [State.panicWith] at hp'
      · split at hs
        · rename_i hmain
          simp only [Option.some.injEq] at hs
          subst hs
          have := fuel_setLane cfg σ s { σ.lanes s with work := .range } hsN
          simp only [Lane.fuel, hwork, Work.fuel] at this
          have hm : Main.fuel cfg.MaxTotalGenerators
              (if σ.total + 1 > cfg.MaxTotalNumbers then Main.closeDone else Main.range)
              ≤ 3 := by
            split <;> simp [Main.fuel]
          have h3 : Main.fuel cfg.MaxTotalGenerators Main.range = 3 := rfl
          simp only [fuel, State.setWork, State.setLane, hmain] at this ⊢
          omega
        · simp at hs
    · simp at hs
  | workWgDone s =>
    simp only [multiplexWgDone] at hs
    split at hs
    · rename_i hwork
      obtain ⟨hsN, _⟩ := lane_started h s (by simp [hwork])
      split at hs
      · simp only [Option.some.injEq] at hs
        subst hs
        simp [State.panicWith] at hp'
      · simp only [Option.some.injEq] at hs
        subst hs
        have := fuel_setLane cfg σ s { σ.lanes s with work := .finished } hsN
        simp only [Lane.fuel, hwork, Work.fuel] at this
        simp only [fuel, State.setWork, State.setLane] at this ⊢
        omega
    · simp at hs
  | supWait =>
    simp only [fanInWait] at hs
    split at hs
    · rename_i hsup
      split at hs
      · simp only [Option.some.injEq] at hs
        subst hs
        simp only [fuel, hsup, Sup.fuel]
        omega
      · simp at hs
    · simp at hs
  | supClose =>
    simp only [fanInClose] at hs
    split at hs
    · rename_i hsup
      simp only [Option.some.injEq] at hs
      subst hs
      simp only [fuel, hsup, Sup.fuel]
      omega
    · simp at hs

theorem exec_bounded (cfg : Config) (acts : List Action) (σ : State)
    (h : exec cfg acts = some σ) : acts.length + fuel cfg σ ≤ maxSteps cfg := by
  rw [← fuel_init cfg]
  exact runWith_fuel (step cfg) (Inv cfg) (fuel cfg) (inv_step cfg) (fuel_step cfg)
    acts init σ (inv_init cfg) h

/-! ### Progress: the program stops only when every task is gone -/

theorem enabled_iff (cfg : Config) (σ : State) (a : Action) :
    Enabled cfg σ a ↔ step cfg σ a ≠ none := by
  unfold Enabled
  cases step cfg σ a <;> simp

theorem gen_canMove {cfg : Config} {σ : State} (h : Inv cfg σ) (s : Nat)
    (hs : s < cfg.MaxTotalGenerators) (hm : σ.main.inSetup = false)
    (hg : (σ.lanes s).gen ≠ .finished) :
    GenCanMove cfg σ s ∨
      (σ.done = 0 ∧ ∃ item, (σ.lanes s).gen = .select item ∧ (σ.lanes s).work ≠ .range) := by
  have hp := h.noPanic
  obtain ⟨l1, l2, l3, l4, l5, l6, l7, l7', l8, l9, l10⟩ := h.lane s
  cases hgen : (σ.lanes s).gen with
  | idle =>
    exfalso
    have := l1.mp hgen
    cases hmm : σ.main <;> simp [hmm, Main.inSetup, gensStarted] at hm this <;> omega
  | loop inx =>
    left; left
    refine ⟨0, ?_⟩
    simp only [Enabled, step_eq cfg σ _ hp, generatorIter, hgen]
    split <;> exact ⟨_, rfl⟩
  | select item =>
    by_cases hd : σ.done = 0
    · by_cases hw : (σ.lanes s).work = .range
      · left; right; right; left
        simp only [Enabled, step_eq cfg σ _ hp, generatorSend, hgen, hw]
        split <;> exact ⟨_, rfl⟩
      · right
        exact ⟨hd, item, rfl, hw⟩
    · left; right; left
      simp only [Enabled, step_eq cfg σ _ hp, generatorDone, hgen, hd, if_false]
      exact ⟨_, rfl⟩
  | closing =>
    left; right; right; right
    simp only [Enabled, step_eq cfg σ _ hp, generatorClose, hgen]
    exact ⟨_, rfl⟩
  | finished => exact absurd hgen hg

theorem work_not_idle {cfg : Config} {σ : State} (h : Inv cfg σ) (s : Nat)
    (hs : s < cfg.MaxTotalGenerators) (hm : σ.main.inSetup = false) :
    (σ.lanes s).work ≠ .idle ∧ (σ.lanes s).gen ≠ .idle := by
  have l1 := (h.lane s).genIdle
  have l2 := (h.lane s).workIdle
  constructor
  · intro hc
    have := l2.mp hc
    cases hmm : σ.main <;> simp [hmm, Main.inSetup, worksStarted] at hm this <;> omega
  · intro hc
    have := l1.mp hc
    cases hmm : σ.main <;> simp [hmm, Main.inSetup, gensStarted] at hm this <;> omega

theorem main_of_open {cfg : Config} {σ : State} (h : Inv cfg σ)
    (hm : σ.main.inSetup = false) (hd : σ.done = 0) :
    σ.main = .range ∨ σ.main = .closeDone := by
  have := h.done
  cases hmm : σ.main <;> simp [hmm, Main.inSetup, Main.hasClosed] at hm this ⊢ <;> omega

theorem work_canMove {cfg : Config} {σ : State} (h : Inv cfg σ) (s : Nat)
    (hs : s < cfg.MaxTotalGenerators) (hm : σ.main.inSetup = false)
    (hw : (σ.lanes s).work ≠ .finished) :
    WorkCanMove cfg σ s ∨
      ((σ.lanes s).work = .range ∧
        ((∃ inx, (σ.lanes s).gen = .loop inx) ∨ (σ.lanes s).gen = .closing)) ∨
      (σ.done = 0 ∧ σ.main = .closeDone ∧ ∃ i, (σ.lanes s).work = .select i) := by
  have hp := h.noPanic
  obtain ⟨hwi, hgi⟩ := work_not_idle h s hs hm
  obtain ⟨l1, l2, l3, l4, l5, l6, l7, l7', l8, l9, l10⟩ := h.lane s
  cases hwork : (σ.lanes s).work with
  | idle => exact absurd hwork hwi
  | range =>
    by_cases hst : (σ.lanes s).stream = 0
    · cases hgen : (σ.lanes s).gen with
      | idle => exact absurd hgen hgi
      | loop inx => right; left; exact ⟨rfl, Or.inl ⟨inx, rfl⟩⟩
      | select item =>
        left; left
        simp only [Enabled, step_eq cfg σ _ hp, generatorSend, hgen, hwork]
        split <;> exact ⟨_, rfl⟩
      | closing => right; left; exact ⟨rfl, Or.inr rfl⟩
      | finished => simp [hgen] at l3; omega
    · left; right; left
      simp only [Enabled, step_eq cfg σ _ hp, multiplexEnd, hwork, hst, if_false]
      exact ⟨_, rfl⟩
  | select i =>
    by_cases hd : σ.done = 0
    · rcases main_of_open h hm hd with hmm | hmm
      · left; right; right; right; left
        simp only [Enabled, step_eq cfg σ _ hp, multiplexSend, hwork, hmm]
        split <;> exact ⟨_, rfl⟩
      · right; right
        exact ⟨hd, hmm, i, rfl⟩
    · left; right; right; left
      simp only [Enabled, step_eq cfg σ _ hp, multiplexDone, hwork, hd, if_false]
      exact ⟨_, rfl⟩
  | leaving =>
    left; right; right; right; right
    simp only [Enabled, step_eq cfg σ _ hp, multiplexWgDone, hwork]
    split <;> exact ⟨_, rfl⟩
  | finished => exact absurd hwork hw

theorem sup_canMove {cfg : Config} {σ : State} (h : Inv cfg σ)
    (hm : σ.main.inSetup = false) (hsup : σ.sup ≠ .finished) :
    SupCanMove cfg σ ∨
      ∃ s, s < cfg.MaxTotalGenerators ∧ (σ.lanes s).work ≠ .finished := by
  have hp := h.noPanic
  cases hs : σ.sup with
  | idle =>
    have := h.supIdle.mp hs
    simp [hm] at this
  | waiting =>
    by_cases hwg : σ.wg = 0
    · left; left
      simp only [Enabled, step_eq cfg σ _ hp, fanInWait, hs, hwg, if_true]
      exact ⟨_, rfl⟩
    · right
      have h5 := h.wg
      rw [setup_of_beforeFanIn _ hm] at h5
      simp only [Bool.false_eq_true, if_false] at h5
      have h5' : sumTo cfg.MaxTotalGenerators (fun s => (σ.lanes s).work.live) ≠ 0 := by
        unfold liveWorkers at h5
        omega
      obtain ⟨i, hi, hne⟩ := sumTo_exists_pos _ _ h5'
      refine ⟨i, hi, ?_⟩
      intro hc
      simp [hc, Work.live] at hne
  | closing =>
    left; right
    simp only [Enabled, step_eq cfg σ _ hp, fanInClose, hs]
    exact ⟨_, rfl⟩
  | finished => exact absurd hs hsup

theorem main_canMove {cfg : Config} {σ : State} (h : Inv cfg σ) :
    Enabled cfg σ .main ∨ (σ.main = .range ∧ σ.merged = 0) ∨ σ.main = .returned := by
  have hp := h.noPanic
  cases hm : σ.main with
  | spawnGen inx =>
    left
    simp only [Enabled, step_eq cfg σ _ hp, problem2, hm]
    split <;> exact ⟨_, rfl⟩
  | spawnWork k =>
    left
    simp only [Enabled, step_eq cfg σ _ hp, problem2, hm]
    split <;> exact ⟨_, rfl⟩
  | range =>
    by_cases hmg : σ.merged = 0
    · right; left; exact ⟨rfl, hmg⟩
    · left
      simp only [Enabled, step_eq cfg σ _ hp, problem2, hm, hmg, if_false]
      exact ⟨_, rfl⟩
  | closeDone =>
    left
    simp only [Enabled, step_eq cfg σ _ hp, problem2, hm]
    exact ⟨_, rfl⟩
  | returning =>
    left
    simp only [Enabled, step_eq cfg σ _ hp, problem2, hm]
    exact ⟨_, rfl⟩
  | returned => right; right; rfl

theorem terminal_not_enabled {cfg : Config} {σ : State} (ht : Terminal cfg σ) (a : Action) :
    ¬ Enabled cfg σ a := by
  rintro ⟨σ', h⟩
  rw [ht a] at h
  simp at h

theorem terminal_allDone {cfg : Config} {σ : State} (h : Inv cfg σ)
    (ht : Terminal cfg σ) : AllDone cfg σ := by
  have hne := terminal_not_enabled ht
  have hmain : (σ.main = .range ∧ σ.merged = 0) ∨ σ.main = .returned := by
    rcases main_canMove h with hm | hm
    · exact absurd hm (hne _)
    · exact hm
  have hset : σ.main.inSetup = false := by
    rcases hmain with ⟨hm, _⟩ | hm <;> simp [hm, Main.inSetup]
  have hwork : ∀ s, s < cfg.MaxTotalGenerators → (σ.lanes s).work = .finished := by
    intro s hs
    by_contra hw
    rcases work_canMove h s hs hset hw with hc | ⟨_, hc⟩ | ⟨_, hc, _⟩
    · rcases hc with hc | hc | hc | hc | hc <;> exact hne _ hc
    · have hp := h.noPanic
      rcases hc with ⟨inx, hgen⟩ | hgen
      · apply hne (.genIter s 0)
        simp only [Enabled, step_eq cfg σ _ hp, generatorIter, hgen]
        split <;> exact ⟨_, rfl⟩
      · apply hne (.genClose s)
        simp only [Enabled, step_eq cfg σ _ hp, generatorClose, hgen]
        exact ⟨_, rfl⟩
    · rcases hmain with ⟨hm, _⟩ | hm <;> simp [hm] at hc
  have hgen : ∀ s, s < cfg.MaxTotalGenerators → (σ.lanes s).gen = .finished := by
    intro s hs
    by_contra hg
    rcases gen_canMove h s hs hset hg with hc | ⟨hd, _⟩
    · rcases hc with ⟨v, hc⟩ | hc | hc | hc <;> exact hne _ hc
    · have hcl : σ.main.hasClosed = false := by
        have := h.done
        cases hh : σ.main.hasClosed
        · rfl
        · simp [hh] at this; omega
      exact hg ((h.lane s).gone (by simp [hwork s hs, Work.gone]) hcl).1
  have hsup : σ.sup = .finished := by
    by_contra hs
    rcases sup_canMove h hset hs with hc | ⟨s, hs, hw⟩
    · rcases hc with hc | hc <;> exact hne _ hc
    · exact hw (hwork s hs)
  refine ⟨?_, hsup, fun s hs => ⟨hgen s hs, hwork s hs⟩⟩
  rcases hmain with ⟨_, hm⟩ | hm
  · have := h.merged
    simp [hsup] at this
    omega
  · exact hm

/-! ### What the consumer has received -/

theorem cnt_cons (r : Result) (rs : List Result) (s : Nat) :
    cnt (r :: rs) s = cnt rs s + (if r.Slot = s then 1 else 0) := by
  unfold cnt seen
  by_cases h : r.Slot = s <;> simp [List.filter_cons, h]

theorem length_eq_sum_cnt (n : Nat) (rs : List Result) (h : ∀ r, r ∈ rs → r.Slot < n) :
    rs.length = sumTo n (cnt rs) := by
  induction rs with
  | nil =>
    rw [sumTo_const n 0]
    · simp
    · intro i _
      simp [cnt, seen]
  | cons r rs ih =>
    have h1 := ih (fun x hx => h x (List.mem_cons_of_mem _ hx))
    have h2 : sumTo n (cnt (r :: rs)) = sumTo n (cnt rs) + 1 := by
      have : cnt (r :: rs) = fun s => cnt rs s + (if r.Slot = s then 1 else 0) := by
        funext s
        exact cnt_cons r rs s
      rw [this, sumTo_add, sumTo_indicator n r.Slot (h r (List.mem_cons_self _ _))]
    rw [h2, ← h1]
    simp

theorem count_pair (rs : List Result) (s i : Nat) :
    (rs.map (fun r => (r.Slot, r.Index))).count (s, i) = (seen rs s).count i := by
  induction rs with
  | nil => simp [seen]
  | cons r rs ih =>
    unfold seen at ih ⊢
    by_cases h : r.Slot = s
    · by_cases h' : r.Index = i
      · simp [List.filter_cons, h, h', ih]
      · have : ¬ ((r.Slot, r.Index) = (s, i)) := by
          intro e
          exact h' (Prod.mk.inj e).2
        simp [List.filter_cons, h, h', ih, List.count_cons, this]
    · have : ¬ ((r.Slot, r.Index) = (s, i)) := by
        intro e
        exact h (Prod.mk.inj e).1
      simp [List.filter_cons, h, ih, List.count_cons, this]

theorem count_range (n i : Nat) (h : i < n) : (List.range n).count i = 1 :=
  List.count_eq_one_of_mem (List.nodup_range n) (List.mem_range.mpr h)

theorem index_mem_seen (rs : List Result) (r : Result) (h : r ∈ rs) :
    r.Index ∈ seen rs r.Slot := by
  unfold seen
  exact List.mem_map.mpr ⟨r, List.mem_filter.mpr ⟨h, by simp⟩, rfl⟩

/-- Once the merged stream has ended with `done` still open, or the consumer loop
was left without the quota `break`, the consumer holds `count` items of each slot. -/
theorem all_received {cfg : Config} {σ : State} (h : Inv cfg σ)
    (hc : (σ.merged ≠ 0 ∧ σ.main.hasClosed = false) ∨
      (σ.main.pastLoop = true ∧ σ.total ≤ cfg.MaxTotalNumbers)) :
    ∀ s, s < cfg.MaxTotalGenerators → cnt σ.received s = cfg.MaxNumbersPerGenerator := by
  rcases hc with ⟨hm, hcl⟩ | ⟨hp, ht⟩
  · intro s hs
    have hfin := all_finished_of_sup h (Or.inr (sup_finished_of_merged h hm)) s hs
    exact ((h.lane s).gone (by simp [hfin, Work.gone]) hcl).2
  · exact (h.eos hp ht).2

theorem received_full {cfg : Config} {σ : State} (h : Inv cfg σ)
    (hc : ∀ s, s < cfg.MaxTotalGenerators → cnt σ.received s = cfg.MaxNumbersPerGenerator) :
    σ.received.length = cfg.MaxTotalGenerators * cfg.MaxNumbersPerGenerator ∧
    (∀ r, r ∈ σ.received →
      r.Slot < cfg.MaxTotalGenerators ∧ r.Index < cfg.MaxNumbersPerGenerator) ∧
    ∀ s i, s < cfg.MaxTotalGenerators → i < cfg.MaxNumbersPerGenerator →
      (σ.received.map (fun r => (r.Slot, r.Index))).count (s, i) = 1 := by
  refine ⟨?_, ?_, ?_⟩
  · rw [length_eq_sum_cnt _ _ h.slots]
    exact sumTo_const _ _ _ hc
  · intro r hr
    have hs := h.slots r hr
    refine ⟨hs, ?_⟩
    have := index_mem_seen _ r hr
    rw [h.seen, hc _ hs] at this
    exact List.mem_range.mp this
  · intro s i hs hi
    rw [count_pair, h.seen, hc s hs]
    exact count_range _ _ hi

theorem total_le {cfg : Config} {σ : State} (h : Inv cfg σ) :
    σ.total ≤ cfg.MaxTotalGenerators * cfg.MaxNumbersPerGenerator := by
  rw [h.total, length_eq_sum_cnt _ _ h.slots]
  exact sumTo_le _ _ _ (fun s _ => (h.lane s).cntLe)

theorem hasClosed_pastLoop (m : Main) (h : m.hasClosed = true) : m.pastLoop = true := by
  cases m <;> simp [Main.hasClosed, Main.pastLoop] at h ⊢

theorem done_iff {cfg : Config} {σ : State} (h : Inv cfg σ) :
    σ.done ≠ 0 ↔ σ.main.hasClosed = true := by
  have := h.done
  cases hc : σ.main.hasClosed <;> simp [hc] at this ⊢ <;> omega

/-! ### The claims about `problem2.go` -/

/-- C1. With a quota of at least `N * L` every interleaving of the pipeline is finite
and can only stop once `problem2` has returned; the quota `break` is never taken
(`total` never exceeds the quota); `done` is open while the consumer loop runs and
still when it has just ended; the merged stream ends only after all `N * L` results
were received; and once the loop is over the merged stream is closed and the consumer
holds exactly `N * L` results, each pair `(Slot, Index)` of `{0..N-1} x {0..L-1}`
exactly once. -/
theorem natural_completion (cfg : Config) (acts : List Action) (σ : State)
    (hq : cfg.MaxTotalGenerators * cfg.MaxNumbersPerGenerator ≤ cfg.MaxTotalNumbers)
    (hrun : exec cfg acts = some σ) :
    acts.length ≤ maxSteps cfg ∧
    (Terminal cfg σ → σ.main = .returned) ∧
    σ.total ≤ cfg.MaxTotalNumbers ∧
    (σ.done ≠ 0 → σ.main.pastLoop = true) ∧
    (σ.main = .range ∨ σ.main = .closeDone → σ.done = 0) ∧
    (σ.merged ≠ 0 ∨ σ.main.pastLoop = true →
      σ.merged = 1 ∧
      σ.received.length = cfg.MaxTotalGenerators * cfg.MaxNumbersPerGenerator ∧
      (∀ r, r ∈ σ.received →
        r.Slot < cfg.MaxTotalGenerators ∧ r.Index < cfg.MaxNumbersPerGenerator) ∧
      ∀ s i, s < cfg.MaxTotalGenerators → i < cfg.MaxNumbersPerGenerator →
        (σ.received.map (fun r => (r.Slot, r.Index))).count (s, i) = 1) := by
  have h := inv_exec cfg acts σ hrun
  have htot : σ.total ≤ cfg.MaxTotalNumbers := Nat.le_trans (total_le h) hq
  refine ⟨?_, fun ht => (terminal_allDone h ht).1, htot, ?_, ?_, ?_⟩
  · have := exec_bounded cfg acts σ hrun
    omega
  · intro hd
    exact hasClosed_pastLoop _ ((done_iff h).mp hd)
  · intro hm
    have hd := h.done
    rcases hm with hm | hm <;> simpa [hm, Main.hasClosed] using hd
  · intro hc
    have hall : ∀ s, s < cfg.MaxTotalGenerators →
        cnt σ.received s = cfg.MaxNumbersPerGenerator := by
      by_cases hp : σ.main.pastLoop = true
      · exact all_received h (Or.inr ⟨hp, htot⟩)
      · rcases hc with hm | hm
        · by_cases hcl : σ.main.hasClosed = true
          · exact absurd (hasClosed_pastLoop _ hcl) hp
          · exact all_received h (Or.inl ⟨hm, by simpa using hcl⟩)
        · exact absurd hm hp
    refine ⟨?_, received_full h hall⟩
    rcases hc with hm | hp
    · have := h.merged
      by_cases e : σ.sup = .finished <;> simp [e] at this <;> omega
    · exact (h.eos hp htot).1

/-- C1, witness: one generator, five items, quota 100.  The run `fiveItems` ends
with `problem2` returned, the consumer holding exactly the five results of slot 0
in order, and `total = 5`. -/
theorem natural_completion_witness :
    ∃ σ, exec ⟨100, 1, 5⟩ fiveItems = some σ ∧ σ.main = .returned ∧
      σ.received.length = 1 * 5 ∧ σ.total ≤ 100 ∧
      σ.received.map (fun r => (r.Slot, r.Index)) = [(0, 0), (0, 1), (0, 2), (0, 3), (0, 4)] := by
  have hs : (exec ⟨100, 1, 5⟩ fiveItems).isSome = true := by decide
  obtain ⟨σ, hσ⟩ := Option.isSome_iff_exists.mp hs
  have h1 : (exec ⟨100, 1, 5⟩ fiveItems).map (fun σ => (σ.main,
      σ.received.map (fun r => (r.Slot, r.Index)))) =
      some (.returned, [(0, 0), (0, 1), (0, 2), (0, 3), (0, 4)]) := by decide
  rw [hσ] at h1
  simp only [Option.map_some', Option.some.injEq, Prod.mk.injEq] at h1
  have h := natural_completion ⟨100, 1, 5⟩ fiveItems σ (by decide) hσ
  exact ⟨σ, hσ, h1.1, (h.2.2.2.2.2 (Or.inr (by simp [h1.1, Main.pastLoop]))).2.1, h.2.2.1,
    h1.2⟩

/-- C2. In every interleaving and for every slot `s`, the `Index` values of the
results of slot `s`, in the order the consumer received them, are `0, 1, 2, ...`
without gaps, hence strictly increasing; this holds in every reachable state, before
and after `done` is closed. -/
theorem per_slot_order (cfg : Config) (acts : List Action) (σ : State) (s : Nat)
    (hrun : exec cfg acts = some σ) :
    seen σ.received s = List.range (cnt σ.received s) ∧
    (seen σ.received s).Pairwise (fun i j => i < j) := by
  have h := inv_exec cfg acts σ hrun
  refine ⟨h.seen s, ?_⟩
  rw [h.seen s]
  exact List.pairwise_lt_range _

/-- C2, witness: in the run `twoSlots` the consumer receives `(0,0), (1,0), (0,1)`
and `done` is closed; slot 0 shows the indices `0, 1`. -/
theorem per_slot_order_witness :
    ∃ σ, exec ⟨2, 2, 3⟩ twoSlots = some σ ∧ σ.done = 1 ∧
      seen σ.received 0 = [0, 1] ∧
      seen σ.received 0 = List.range (cnt σ.received 0) ∧
      (seen σ.received 0).Pairwise (fun i j => i < j) := by
  have hs : (exec ⟨2, 2, 3⟩ twoSlots).isSome = true := by decide
  obtain ⟨σ, hσ⟩ := Option.isSome_iff_exists.mp hs
  have h1 : (exec ⟨2, 2, 3⟩ twoSlots).map (fun σ => (σ.done, seen σ.received 0)) =
      some (1, [0, 1]) := by decide
  rw [hσ] at h1
  simp only [Option.map_some', Option.some.injEq, Prod.mk.injEq] at h1
  have h := per_slot_order ⟨2, 2, 3⟩ twoSlots σ 0 hσ
  exact ⟨σ, hσ, h1.1, h1.2, h.1, h.2⟩

/-- C3. With a quota `Q < N * L` every interleaving is finite and can only stop once
`problem2` has returned, which it does only after closing `done`; while the consumer
loop runs `done` is open and at most `Q` items are received; from the moment the loop is
over, and so whenever `done` is closed, the number `k` of items received satisfies
`Q ≤ k ≤ Q + 1`: it is exactly `Q + 1`, the item that trips the quota test included. -/
theorem quota_reached (cfg : Config) (acts : List Action) (σ : State)
    (hq : cfg.MaxTotalNumbers < cfg.MaxTotalGenerators * cfg.MaxNumbersPerGenerator)
    (hrun : exec cfg acts = some σ) :
    acts.length ≤ maxSteps cfg ∧
    (Terminal cfg σ → σ.main = .returned ∧ σ.done = 1) ∧
    (σ.main.pastLoop = false → σ.done = 0 ∧ σ.received.length ≤ cfg.MaxTotalNumbers) ∧
    (σ.main.pastLoop = true ∨ σ.done ≠ 0 →
      cfg.MaxTotalNumbers ≤ σ.received.length ∧
      σ.received.length ≤ cfg.MaxTotalNumbers + 1 ∧
      σ.received.length = cfg.MaxTotalNumbers + 1) := by
  have h := inv_exec cfg acts σ hrun
  refine ⟨?_, ?_, ?_, ?_⟩
  · have := exec_bounded cfg acts σ hrun
    omega
  · intro ht
    have hm := (terminal_allDone h ht).1
    refine ⟨hm, ?_⟩
    have := h.done
    simpa [hm, Main.hasClosed] using this
  · intro hp
    refine ⟨?_, ?_⟩
    · by_contra hd
      have := hasClosed_pastLoop _ ((done_iff h).mp hd)
      rw [hp] at this
      simp at this
    · rw [← h.total]
      exact h.inLoop hp
  · intro hc
    have hp : σ.main.pastLoop = true := by
      rcases hc with hp | hd
      · exact hp
      · exact hasClosed_pastLoop _ ((done_iff h).mp hd)
    have hb := h.broke
    have ht := h.total
    have : ¬ σ.total ≤ cfg.MaxTotalNumbers := by
      intro hle
      have hall := all_received h (Or.inr ⟨hp, hle⟩)
      have := (received_full h hall).1
      omega
    omega

/-- C3, witness: the constants of `problem2` (10 generators, 25 items each, quota
100) and the run `quotaRun`: `done` is closed and the consumer has received 101 items. -/
theorem quota_reached_witness :
    ∃ σ, exec problem2Config quotaRun = some σ ∧ σ.done = 1 ∧
      100 ≤ σ.received.length ∧ σ.received.length ≤ 100 + 1 ∧ σ.received.length = 101 := by
  have hs : (exec problem2Config quotaRun).isSome = true := by decide
  obtain ⟨σ, hσ⟩ := Option.isSome_iff_exists.mp hs
  have h1 : (exec problem2Config quotaRun).map (fun σ => σ.done) = some 1 := by decide
  rw [hσ] at h1
  simp only [Option.map_some', Option.some.injEq] at h1
  have h := (quota_reached problem2Config quotaRun σ (by decide) hσ).2.2.2
    (Or.inr (by omega))
  exact ⟨σ, hσ, h1, h.1, h.2.1, h.2.2⟩

theorem continuation_bounded (cfg : Config) (σ : State) (h : Inv cfg σ)
    (more : List Action) (τ : State) (hrun : runWith (step cfg) σ more = some τ) :
    more.length ≤ fuel cfg σ ∧ Inv cfg τ := by
  have h1 := runWith_fuel (step cfg) (Inv cfg) (fuel cfg) (inv_step cfg) (fuel_step cfg)
    more σ τ h hrun
  have h2 := runWith_inv (step cfg) (Inv cfg) (inv_step cfg) more σ τ h hrun
  exact ⟨by omega, h2⟩

theorem allDone_of_eos {cfg : Config} {σ : State} (h : Inv cfg σ)
    (hm : σ.main = .returned) (ht : σ.total ≤ cfg.MaxTotalNumbers) : AllDone cfg σ := by
  have hp : σ.main.pastLoop = true := by simp [hm, Main.pastLoop]
  obtain ⟨hmg, hc⟩ := h.eos hp ht
  have hsup := sup_finished_of_merged h (by omega)
  have hfin := all_finished_of_sup h (Or.inr hsup)
  refine ⟨hm, hsup, fun s hs => ⟨?_, hfin s hs⟩⟩
  exact (h.lane s).goneAll (by simp [hfin s hs, Work.gone]) (hc s hs)

/-- C4, counterexample: with the constants of `problem2`, after the run `quotaRun`
the function has returned while generator 4 is inside its loop, generator 9 has not
made a move, their workers wait in `range c` and the supervisor of `fanIn` is still
in `wg.Wait()`. -/
theorem returns_before_shutdown :
    ∃ σ, exec problem2Config quotaRun = some σ ∧ σ.main = .returned ∧
      (σ.lanes 4).gen = .loop 1 ∧ (σ.lanes 4).work = .range ∧
      (σ.lanes 9).gen = .loop 0 ∧ (σ.lanes 9).work = .range ∧ σ.sup = .waiting := by
  have hs : (exec problem2Config quotaRun).isSome = true := by decide
  obtain ⟨σ, hσ⟩ := Option.isSome_iff_exists.mp hs
  have h1 : (exec problem2Config quotaRun).map (fun σ => (σ.main, (σ.lanes 4).gen,
      (σ.lanes 4).work, (σ.lanes 9).gen, (σ.lanes 9).work, σ.sup)) =
      some (.returned, .loop 1, .range, .loop 0, .range, .waiting) := by decide
  rw [hσ] at h1
  simp only [Option.map_some', Option.some.injEq, Prod.mk.injEq] at h1
  exact ⟨σ, hσ, h1⟩

/-- A quota break does not decide whether goroutines outlive the call: with a quota
of five, two generators and three items each, after the run `lastItemBreaks` the loop
was left by `break` at `total = 6` and every goroutine is gone when `problem2`
returns. -/
theorem returns_after_shutdown_on_break :
    ∃ σ, exec ⟨5, 2, 3⟩ lastItemBreaks = some σ ∧ σ.total = 6 ∧ AllDone ⟨5, 2, 3⟩ σ := by
  have hs : (exec ⟨5, 2, 3⟩ lastItemBreaks).isSome = true := by decide
  obtain ⟨σ, hσ⟩ := Option.isSome_iff_exists.mp hs
  have h1 : (exec ⟨5, 2, 3⟩ lastItemBreaks).map (fun σ => (σ.main, σ.total, σ.sup)) =
      some (.returned, 6, .finished) := by decide
  have h2 : (exec ⟨5, 2, 3⟩ lastItemBreaks).map (fun σ => ((σ.lanes 0).gen, (σ.lanes 0).work,
      (σ.lanes 1).gen, (σ.lanes 1).work)) =
      some (.finished, .finished, .finished, .finished) := by decide
  rw [hσ] at h1 h2
  simp only [Option.map_some', Option.some.injEq, Prod.mk.injEq] at h1 h2
  refine ⟨σ, hσ, h1.2.1, h1.1, h1.2.2, ?_⟩
  intro s hs
  have hs2 : s < 2 := hs
  interval_cases s
  · exact ⟨h2.1, h2.2.1⟩
  · exact ⟨h2.2.2.1, h2.2.2.2⟩

/-- Once its consumer loop is over, `problem2` needs nobody to return: `close(done)`
and the return are two moves of its own, and they leave every generator, every worker
and the supervisor where they are. -/
theorem returns_without_waiting {cfg : Config} {σ : State} (h : Inv cfg σ)
    (hm : σ.main = .closeDone) :
    ∃ τ, runWith (step cfg) σ [.main, .main] = some τ ∧ τ.main = .returned ∧ τ.done = 1 ∧
      τ.lanes = σ.lanes ∧ τ.sup = σ.sup := by
  have hp := h.noPanic
  have hd : σ.done = 0 := by
    have := h.done
    simpa [hm, Main.hasClosed] using this
  have e1 : step cfg σ .main = some { closeDone σ with main := .returning } := by
    rw [step_eq cfg σ _ hp]
    simp [problem2, hm]
  have hp2 : ({ closeDone σ with main := .returning } : State).panic = none := by
    simp [closeDone, closeChan, hd]
  have e2 : step cfg { closeDone σ with main := .returning } .main =
      some { closeDone σ with main := .returned } := by
    rw [step_eq cfg _ _ hp2]
    simp [problem2]
  refine ⟨{ closeDone σ with main := .returned }, ?_, rfl, ?_, rfl, rfl⟩
  · simp [runWith, e1, e2]
  · simp [closeDone, closeChan, hd]

/-- C4, amended. `problem2` returns only after it has closed `done`, but it does not
wait for the shutdown: once its consumer loop is over, `close(done)` and the return are
two moves of its own that are possible at once and leave every generator, every worker
and the supervisor where they are, so these may still be running when it returns.
When the consumer loop ended by end-of-stream (the quota test never fired), every
goroutine is gone when `problem2` returns.  In every case the shutdown completes by
itself: from any reachable state every continuation has at most `fuel` further moves,
and it can stop only when every generator, every worker and the supervisor are gone
and `problem2` has returned. -/
theorem shutdown_after_return (cfg : Config) (acts : List Action) (σ : State)
    (hrun : exec cfg acts = some σ) :
    (σ.main = .returned → σ.done = 1) ∧
    (σ.main = .closeDone →
      ∃ τ, runWith (step cfg) σ [.main, .main] = some τ ∧ τ.main = .returned ∧ τ.done = 1 ∧
        τ.lanes = σ.lanes ∧ τ.sup = σ.sup) ∧
    (σ.main = .returned → σ.total ≤ cfg.MaxTotalNumbers → AllDone cfg σ) ∧
    (∀ more τ, runWith (step cfg) σ more = some τ →
      more.length ≤ fuel cfg σ ∧ (Terminal cfg τ → AllDone cfg τ)) := by
  have h := inv_exec cfg acts σ hrun
  refine ⟨?_, returns_without_waiting h, allDone_of_eos h, ?_⟩
  · intro hm
    have := h.done
    simpa [hm, Main.hasClosed] using this
  · intro more τ hmore
    obtain ⟨h1, h2⟩ := continuation_bounded cfg σ h more τ hmore
    exact ⟨h1, terminal_allDone h2⟩

/-- C4, witness of the amended claim: the complete run `fiveItems`, whose consumer
loop ends with the merged stream; `problem2` has returned, `done` is closed and every
goroutine is gone. -/
theorem shutdown_after_return_witness :
    ∃ σ, exec ⟨100, 1, 5⟩ fiveItems = some σ ∧ σ.main = .returned ∧ σ.done = 1 ∧
      AllDone ⟨100, 1, 5⟩ σ := by
  have hs : (exec ⟨100, 1, 5⟩ fiveItems).isSome = true := by decide
  obtain ⟨σ, hσ⟩ := Option.isSome_iff_exists.mp hs
  have h1 : (exec ⟨100, 1, 5⟩ fiveItems).map (fun σ => (σ.main, σ.total)) =
      some (.returned, 5) := by decide
  rw [hσ] at h1
  simp only [Option.map_some', Option.some.injEq, Prod.mk.injEq] at h1
  have h := shutdown_after_return ⟨100, 1, 5⟩ fiveItems σ hσ
  exact ⟨σ, hσ, h1.1, h.1 h1.1, h.2.2.1 h1.1 (by rw [h1.2]; decide)⟩

/-- C5, counterexample: `close(done)` executed twice from the initial state: the
first leaves no panic, the second raises "close of closed channel". -/
theorem double_cancel_panics :
    (closeDone init).panic = none ∧
      (closeDone (closeDone init)).panic = some Panic.closeOfClosedChannel := by
  decide

/-- C5, amended. The cancel operation `close(done)` never blocks (it is a total
function of the state).  On an open token it raises nothing and leaves the token
cancelled.  On a token that is already cancelled it is not a no-op: it panics with
"close of closed channel" (the token stays cancelled).  The pipeline is safe because
`problem2` cancels at most once: in every reachable state `done` has seen at most one
close, there is no panic, and `close(done)` is the next statement only while `done` is
still open. -/
theorem cancel_once (cfg : Config) :
    (∀ σ : State, σ.done = 0 → (closeDone σ).panic = none ∧ (closeDone σ).done = 1) ∧
    (∀ σ : State, σ.done ≠ 0 →
      (closeDone σ).panic = some Panic.closeOfClosedChannel ∧ (closeDone σ).done ≠ 0) ∧
    (∀ acts σ, exec cfg acts = some σ →
      σ.done ≤ 1 ∧ σ.panic = none ∧ (σ.main = .closeDone → σ.done = 0)) := by
  refine ⟨?_, ?_, ?_⟩
  · intro σ h
    simp [closeDone, closeChan, h]
  · intro σ h
    simp [closeDone, closeChan, h]
  · intro acts σ hrun
    have h := inv_exec cfg acts σ hrun
    have hd := h.done
    refine ⟨?_, h.noPanic, ?_⟩
    · by_cases e : σ.main.hasClosed = true <;> simp [e] at hd <;> omega
    · intro hm
      simpa [hm, Main.hasClosed] using hd

/-- C5, witness of the amended claim: after the run `quotaRun` of `problem2` the
token is cancelled, once and without a panic; executing `close(done)` again in that
state panics. -/
theorem cancel_once_witness :
    ∃ σ, exec problem2Config quotaRun = some σ ∧ σ.done = 1 ∧ σ.panic = none ∧
      (closeDone σ).panic = some Panic.closeOfClosedChannel := by
  have hs : (exec problem2Config quotaRun).isSome = true := by decide
  obtain ⟨σ, hσ⟩ := Option.isSome_iff_exists.mp hs
  have h1 : (exec problem2Config quotaRun).map (fun σ => σ.done) = some 1 := by decide
  rw [hσ] at h1
  simp only [Option.map_some', Option.some.injEq] at h1
  have h := cancel_once problem2Config
  exact ⟨σ, hσ, h1, (h.2.2 quotaRun σ hσ).2.1, (h.2.1 σ (by omega)).1⟩

/-- C6. Once `done` is closed the consumer receives nothing more, and no task of the
pipeline is stuck: every generator that is not gone takes part in an enabled move;
every worker that is not gone takes part in an enabled move or waits (in `range c`)
for its generator, which is not gone and has one; the supervisor, unless gone, has an
enabled move or waits (in `wg.Wait`) for workers that are not gone.  The program can
only stop when all of them are gone, and every continuation is finite. -/
theorem no_task_blocked_after_cancel (cfg : Config) (acts : List Action) (σ : State)
    (hrun : exec cfg acts = some σ) (hdone : σ.done ≠ 0) :
    (∀ s, ¬ Enabled cfg σ (.workSend s)) ∧
    (∀ s, s < cfg.MaxTotalGenerators →
      ((σ.lanes s).gen ≠ .finished → GenCanMove cfg σ s) ∧
      ((σ.lanes s).work ≠ .finished →
        WorkCanMove cfg σ s ∨ ((σ.lanes s).gen ≠ .finished ∧ GenCanMove cfg σ s))) ∧
    (σ.sup ≠ .finished →
      SupCanMove cfg σ ∨
        ((∃ s, s < cfg.MaxTotalGenerators ∧ (σ.lanes s).work ≠ .finished) ∧
          ∀ s, s < cfg.MaxTotalGenerators → (σ.lanes s).work ≠ .finished →
            WorkCanMove cfg σ s ∨ ((σ.lanes s).gen ≠ .finished ∧ GenCanMove cfg σ s))) ∧
    (Terminal cfg σ → AllDone cfg σ) ∧
    (∀ more τ, runWith (step cfg) σ more = some τ →
      more.length ≤ fuel cfg σ ∧ (Terminal cfg τ → AllDone cfg τ)) := by
  have h := inv_exec cfg acts σ hrun
  have hcl := (done_iff h).mp hdone
  have hset : σ.main.inSetup = false := by
    cases hm : σ.main <;> simp [hm, Main.hasClosed, Main.inSetup] at hcl ⊢
  have hgen : ∀ s, s < cfg.MaxTotalGenerators → (σ.lanes s).gen ≠ .finished →
      GenCanMove cfg σ s := by
    intro s hs hg
    rcases gen_canMove h s hs hset hg with hc | ⟨hd, _⟩
    · exact hc
    · exact absurd hd hdone
  have hwork : ∀ s, s < cfg.MaxTotalGenerators → (σ.lanes s).work ≠ .finished →
      WorkCanMove cfg σ s ∨ ((σ.lanes s).gen ≠ .finished ∧ GenCanMove cfg σ s) := by
    intro s hs hw
    rcases work_canMove h s hs hset hw with hc | ⟨_, hc⟩ | ⟨hd, _⟩
    · exact Or.inl hc
    · right
      have hg : (σ.lanes s).gen ≠ .finished := by
        rcases hc with ⟨inx, e⟩ | e <;> simp [e]
      exact ⟨hg, hgen s hs hg⟩
    · exact absurd hd hdone
  refine ⟨?_, fun s hs => ⟨hgen s hs, hwork s hs⟩, ?_, terminal_allDone h, ?_⟩
  · rintro s ⟨τ, hτ⟩
    have hτ' := (inv_step cfg σ _ τ h hτ).noPanic
    rw [step_eq cfg σ _ h.noPanic] at hτ
    simp only [multiplexSend] at hτ
    split at hτ
    · split at hτ
      · simp only [Option.some.injEq] at hτ
        subst hτ
        simp [State.panicWith] at hτ'
      · split at hτ
        · rename_i hm
          simp [hm, Main.hasClosed] at hcl
        · simp at hτ
    · simp at hτ
  · intro hsup
    rcases sup_canMove h hset hsup with hc | hc
    · exact Or.inl hc
    · exact Or.inr ⟨hc, hwork⟩
  · intro more τ hmore
    obtain ⟨h1, h2⟩ := continuation_bounded cfg σ h more τ hmore
    exact ⟨h1, terminal_allDone h2⟩

/-- C6, witness: after the run `quotaRun` of `problem2`, `done` is closed; generator
4 (inside its loop) and generator 9 (not yet run) have an enabled move, and worker 4
waits for generator 4. -/
theorem no_task_blocked_after_cancel_witness :
    ∃ σ, exec problem2Config quotaRun = some σ ∧ σ.done ≠ 0 ∧
      GenCanMove problem2Config σ 4 ∧ GenCanMove problem2Config σ 9 ∧
      (WorkCanMove problem2Config σ 4 ∨
        ((σ.lanes 4).gen ≠ .finished ∧ GenCanMove problem2Config σ 4)) := by
  have hs : (exec problem2Config quotaRun).isSome = true := by decide
  obtain ⟨σ, hσ⟩ := Option.isSome_iff_exists.mp hs
  have h1 : (exec problem2Config quotaRun).map (fun σ => (σ.done, (σ.lanes 4).gen,
      (σ.lanes 4).work, (σ.lanes 9).gen)) = some (1, .loop 1, .range, .loop 0) := by decide
  rw [hσ] at h1
  simp only [Option.map_some', Option.some.injEq, Prod.mk.injEq] at h1
  obtain ⟨d, g4, w4, g9⟩ := h1
  have hd : σ.done ≠ 0 := by omega
  have h := no_task_blocked_after_cancel problem2Config quotaRun σ hσ hd
  exact ⟨σ, hσ, hd, (h.2.1 4 (by decide)).1 (by simp [g4]),
    (h.2.1 9 (by decide)).1 (by simp [g9]), (h.2.1 4 (by decide)).2 (by simp [w4])⟩

/-- C7, counterexample: with the constants of `problem2`, after the run `earlyClose`
the merged stream is closed and every worker is gone, but the input stream of slot 4
is still open: its generator is inside its loop, at `inx = 2`. -/
theorem merged_closed_before_input :
    ∃ σ, exec problem2Config earlyClose = some σ ∧ σ.merged = 1 ∧ σ.sup = .finished ∧
      (σ.lanes 4).work = .finished ∧ (σ.lanes 4).stream = 0 ∧
      (σ.lanes 4).gen = .loop 2 := by
  have hs : (exec problem2Config earlyClose).isSome = true := by decide
  obtain ⟨σ, hσ⟩ := Option.isSome_iff_exists.mp hs
  have h1 : (exec problem2Config earlyClose).map (fun σ => (σ.merged, σ.sup,
      (σ.lanes 4).work, (σ.lanes 4).stream, (σ.lanes 4).gen)) =
      some (1, .finished, .finished, 0, .loop 2) := by decide
  rw [hσ] at h1
  simp only [Option.map_some', Option.some.injEq, Prod.mk.injEq] at h1
  exact ⟨σ, hσ, h1⟩

/-- C7, amended. For every `N` and every interleaving, `fanIn` closes the merged
output at most once and only after every one of the `N` multiplex workers has exited.
If `done` is still open then (natural exhaustion), every one of the `N` input streams
has been closed by its generator.  If `done` was closed early an input stream may
still be open when the merged output is closed; a stream that is open then belongs to
a worker that left through `case <-done`, which happens only once `done` is closed. -/
theorem merged_closed_after_workers (cfg : Config) (acts : List Action) (σ : State)
    (hrun : exec cfg acts = some σ) (hm : σ.merged ≠ 0) :
    σ.merged = 1 ∧
    (∀ s, s < cfg.MaxTotalGenerators → (σ.lanes s).work = .finished) ∧
    (σ.done = 0 → ∀ s, s < cfg.MaxTotalGenerators →
      (σ.lanes s).gen = .finished ∧ (σ.lanes s).stream = 1) ∧
    (∀ s, s < cfg.MaxTotalGenerators → (σ.lanes s).stream = 0 → σ.done ≠ 0) := by
  have h := inv_exec cfg acts σ hrun
  have hsup := sup_finished_of_merged h hm
  have hfin := all_finished_of_sup h (Or.inr hsup)
  have hopen : σ.done = 0 → ∀ s, s < cfg.MaxTotalGenerators →
      (σ.lanes s).gen = .finished ∧ (σ.lanes s).stream = 1 := by
    intro hd s hs
    have hcl : σ.main.hasClosed = false := by
      cases e : σ.main.hasClosed
      · rfl
      · exact absurd hd ((done_iff h).mpr e)
    have hg := ((h.lane s).gone (by simp [hfin s hs, Work.gone]) hcl).1
    refine ⟨hg, ?_⟩
    have := (h.lane s).stream
    simpa [hg] using this
  refine ⟨?_, hfin, hopen, ?_⟩
  · have := h.merged
    simpa [hsup] using this
  · intro s hs hst hd
    have := (hopen hd s hs).2
    omega

/-- C7, witness of the amended claim: after the run `fiveItemsMerged` the merged
stream is closed while `done` is still open; the worker is gone and the input stream
has been closed by its generator. -/
theorem merged_closed_after_workers_witness :
    ∃ σ, exec ⟨100, 1, 5⟩ fiveItemsMerged = some σ ∧ σ.merged = 1 ∧ σ.done = 0 ∧
      (σ.lanes 0).work = .finished ∧ (σ.lanes 0).gen = .finished ∧
      (σ.lanes 0).stream = 1 := by
  have hs : (exec ⟨100, 1, 5⟩ fiveItemsMerged).isSome = true := by decide
  obtain ⟨σ, hσ⟩ := Option.isSome_iff_exists.mp hs
  have h1 : (exec ⟨100, 1, 5⟩ fiveItemsMerged).map (fun σ => (σ.merged, σ.done)) =
      some (1, 0) := by decide
  rw [hσ] at h1
  simp only [Option.map_some', Option.some.injEq, Prod.mk.injEq] at h1
  have h := merged_closed_after_workers ⟨100, 1, 5⟩ fiveItemsMerged σ hσ (by omega)
  exact ⟨σ, hσ, h.1, h1.2, h.2.1 0 (by decide), (h.2.2.1 h1.2 0 (by decide)).1,
    (h.2.2.1 h1.2 0 (by decide)).2⟩

/-- C8. In every interleaving no channel operation panics: there is no panic in any
reachable state and none in any state a move leads to; `done` and the merged channel
are closed at most once; each generator's output channel is closed at most once, and
exactly once when its goroutine is gone, however it left its loop; no generator is
ever in its send on a closed `randomStream` and no worker in its send on a closed
`multiplexedStream`.  Every generator does end: the program can only stop with every
generator gone and its channel closed once. -/
theorem no_channel_panic (cfg : Config) (acts : List Action) (σ : State)
    (hrun : exec cfg acts = some σ) :
    σ.panic = none ∧
    (∀ a τ, step cfg σ a = some τ → τ.panic = none) ∧
    σ.done ≤ 1 ∧ σ.merged ≤ 1 ∧
    (∀ s, (σ.lanes s).stream ≤ 1 ∧
      ((σ.lanes s).gen = .finished → (σ.lanes s).stream = 1) ∧
      (∀ item, (σ.lanes s).gen = .select item → (σ.lanes s).stream = 0) ∧
      (∀ i, (σ.lanes s).work = .select i → σ.merged = 0)) ∧
    (Terminal cfg σ → ∀ s, s < cfg.MaxTotalGenerators →
      (σ.lanes s).gen = .finished ∧ (σ.lanes s).stream = 1) := by
  have h := inv_exec cfg acts σ hrun
  have hd := h.done
  have hm := h.merged
  refine ⟨h.noPanic, fun a τ hτ => (inv_step cfg σ a τ h hτ).noPanic, ?_, ?_, ?_, ?_⟩
  · by_cases e : σ.main.hasClosed = true <;> simp [e] at hd <;> omega
  · by_cases e : σ.sup = .finished <;> simp [e] at hm <;> omega
  · intro s
    have hst := (h.lane s).stream
    refine ⟨?_, ?_, ?_, ?_⟩
    · by_cases e : (σ.lanes s).gen = .finished <;> simp [e] at hst <;> omega
    · intro e
      simpa [e] using hst
    · intro item e
      simpa [e] using hst
    · intro i e
      by_contra hc
      obtain ⟨hs, _⟩ := lane_started h s (by simp [e])
      have := all_finished_of_sup h (Or.inr (sup_finished_of_merged h hc)) s hs
      simp [e] at this
  · intro ht s hs
    have hg := ((terminal_allDone h ht).2.2 s hs).1
    refine ⟨hg, ?_⟩
    have hst := (h.lane s).stream
    simpa [hg] using hst

/-- C8, witness: the complete run `fiveItems`: no panic, every channel closed once. -/
theorem no_channel_panic_witness :
    ∃ σ, exec ⟨100, 1, 5⟩ fiveItems = some σ ∧ σ.panic = none ∧ σ.done = 1 ∧
      σ.merged = 1 ∧ (σ.lanes 0).gen = .finished ∧ (σ.lanes 0).stream = 1 := by
  have hs : (exec ⟨100, 1, 5⟩ fiveItems).isSome = true := by decide
  obtain ⟨σ, hσ⟩ := Option.isSome_iff_exists.mp hs
  have h1 : (exec ⟨100, 1, 5⟩ fiveItems).map (fun σ => (σ.done, σ.merged,
      (σ.lanes 0).gen)) = some (1, 1, .finished) := by decide
  rw [hσ] at h1
  simp only [Option.map_some', Option.some.injEq, Prod.mk.injEq] at h1
  have h := no_channel_panic ⟨100, 1, 5⟩ fiveItems σ hσ
  exact ⟨σ, hσ, h.1, h1.1, h1.2.1, h1.2.2, (h.2.2.2.2.1 0).2.1 h1.2.2⟩

end Problem2

/-! ## problem1.go: proofs -/

namespace Problem1

/-! ### The invariant holds in every reachable state -/

theorem p1_inv_init (cfg : Config) : Inv cfg init := by
  have h0 : liveProcs cfg init = 0 := by
    unfold liveProcs
    rw [sumTo_const _ 0]
    · simp
    · intro i _
      simp [init, Proc.live]
  have h1 : owing cfg init = 0 := by
    unfold owing
    rw [sumTo_const _ 0]
    · simp
    · intro i _
      simp [init, Proc.owes]
  refine ⟨rfl, by simp [init, spawned], ?_, by rw [h0]; rfl, by simp [init, Main.hasClosed],
    rfl, by simp [init], by simp [init], by simp [init, quota], by simp [init, Main.pastLoop],
    by simp [init], by simp [init], by rw [h1]; simp [init], by simp [init]⟩
  intro s
  constructor <;> simp [init, spawned, Main.hasClosed, Main.drained, Proc.pos,
    Proc.over, Proc.pending, sends, printed]

theorem p1_step_eq (cfg : Config) (σ : State) (a : Action) (hp : σ.panic = none) :
    step cfg σ a = (match a with
    | .main => problem1 cfg σ
    | .procAdd s => printRandom1Add σ s
    | .procIter s => printRandom1Iter cfg σ s
    | .procDone s => printRandom1Done σ s
    | .procSend s => printRandom1Send cfg σ s
    | .procLog s => printRandom1Log σ s
    | .procWgDone s => printRandom1WgDone σ s) := by
  cases a <;> simp [step, hp]

theorem liveProcs_upd (cfg : Config) (σ τ : State) (s : Nat) (p : Proc)
    (hs : s < cfg.MaxTotalGenerators) (h : τ.procs = upd σ.procs s p) :
    liveProcs cfg τ + (σ.procs s).live = liveProcs cfg σ + p.live := by
  unfold liveProcs
  rw [h]
  exact sumTo_upd cfg.MaxTotalGenerators s σ.procs p (fun q => q.live) hs

theorem owing_upd (cfg : Config) (σ τ : State) (s : Nat) (p : Proc)
    (hs : s < cfg.MaxTotalGenerators) (h : τ.procs = upd σ.procs s p) :
    owing cfg τ + (σ.procs s).owes = owing cfg σ + p.owes := by
  unfold owing
  rw [h]
  exact sumTo_upd cfg.MaxTotalGenerators s σ.procs p (fun q => q.owes) hs

theorem proc_started {cfg : Config} {σ : State} (h : Inv cfg σ) (s : Nat)
    (hp : σ.procs s ≠ .idle) : s < cfg.MaxTotalGenerators := by
  have h1 := (h.proc s).idle
  have h2 := h.spawnBound
  have h3 : ¬ spawned cfg σ.main ≤ s := fun hc => hp (h1.mpr hc)
  omega

/-- The invariant of a goroutine that does not move, when `problem1` or the
`WaitGroup` changes. -/
theorem ProcInv.reparamProc {cfg : Config} {m m' : Main} {wg wg' wt wt' c lg : Nat}
    {p : Proc} {s : Nat} (h : ProcInv cfg m wg wt c lg p s)
    (hg : spawned cfg m' ≤ s ↔ spawned cfg m ≤ s)
    (hc : m'.hasClosed = false → m.hasClosed = false)
    (hq : m'.drained wg' wt' = true → p.pending = 0)
    (hk : ∀ w, p = .doneCheck w ∨ p = .doneStore w → wt' = 1 ∧ wg' = 0)
    (hr : ∀ w, p = .doneRelease w → w ≠ 0 → wt' = 0) :
    ProcInv cfg m' wg' wt' c lg p s := by
  obtain ⟨l1, l2, l3, l4, l5, l6, l7, l8, l9, l10⟩ := h
  exact ⟨by rw [hg]; exact l1, l2, l3, l4, l5, l6, fun a b => l7 a (hc b), hq,
    fun w hw => ⟨(l9 w hw).1, hk w hw⟩, hr⟩

/-- A goroutine outside the slots of the program is not inside `wg.Done()`. -/
theorem owes_zero_of_owing {cfg : Config} {σ : State} (h : Inv cfg σ)
    (h0 : owing cfg σ = 0) (j : Nat) : (σ.procs j).owes = 0 := by
  by_cases hj : j < cfg.MaxTotalGenerators
  · exact sumTo_eq_zero _ _ h0 j hj
  · have h1 := (h.proc j).idle
    have h2 := h.spawnBound
    rw [h1.mpr (by omega)]
    rfl

theorem proc_quiet_of_live (p : Proc) (h : p.live = 0) : p.pending = 0 := by
  cases p <;> simp [Proc.live, Proc.pending] at h ⊢

/-- When the counter is zero no goroutine owes a line. -/
theorem quiet_of_wg_zero {cfg : Config} {σ : State} (h : Inv cfg σ) (h0 : σ.wg = 0)
    (j : Nat) : (σ.procs j).pending = 0 := by
  by_cases hj : j < cfg.MaxTotalGenerators
  · apply proc_quiet_of_live
    have := h.wg
    rw [h0] at this
    exact sumTo_eq_zero _ _ this.symm j hj
  · have h1 := (h.proc j).idle
    have h2 := h.spawnBound
    rw [h1.mpr (by omega)]
    rfl

/-- A move that changes goroutine `s` only, and neither the counter nor what the
goroutine owes. -/
theorem Inv.setProc {cfg : Config} {σ : State} (h : Inv cfg σ) (s : Nat) (p : Proc)
    (hl : ProcInv cfg σ.main σ.wg σ.waiters (sends σ.sent s) (printed σ.logs s) p s)
    (hlive : p.live = (σ.procs s).live) (howes : p.owes = (σ.procs s).owes) :
    Inv cfg (σ.setProc s p) := by
  obtain ⟨h1, h2, h3, h4, h5, h6, h7, h8, h9, h10, h11, h12, h13, h14⟩ := h
  refine ⟨h1, h2, ?_, ?_, h5, h6, h7, h8, h9, h10, h11, h12, ?_, h14⟩
  · intro j
    by_cases hj : j = s
    · subst hj; simpa [State.setProc, upd] using hl
    · simpa [State.setProc, upd, hj] using h3 j
  · show σ.wg = liveProcs cfg (σ.setProc s p)
    rw [h4]
    unfold liveProcs
    apply sumTo_congr
    intro j _
    by_cases hj : j = s
    · subst hj; simp [State.setProc, upd, hlive]
    · simp [State.setProc, upd, hj]
  · have : owing cfg (σ.setProc s p) = owing cfg σ := by
      unfold owing
      apply sumTo_congr
      intro j _
      by_cases hj : j = s
      · subst hj; simp [State.setProc, upd, howes]
      · simp [State.setProc, upd, hj]
    show σ.sema + owing cfg (σ.setProc s p) = _
    rw [this]
    exact h13

theorem p1_done_iff {cfg : Config} {σ : State} (h : Inv cfg σ) :
    σ.done ≠ 0 ↔ σ.main.hasClosed = true := by
  have := h.done
  cases hc : σ.main.hasClosed <;> simp [hc] at this ⊢ <;> omega

theorem sends_append_same (sent : List Nat) (s : Nat) :
    sends (sent ++ [s]) s = sends sent s + 1 := by
  simp [sends, List.count_append]

theorem sends_append_other (sent : List Nat) (s j : Nat) (h : j ≠ s) :
    sends (sent ++ [s]) j = sends sent j := by
  have : ¬ s = j := fun e => h e.symm
  simp [sends, List.count_append, List.count_cons, this]

theorem printed_append_same (logs : List (Nat × Nat)) (s inx : Nat) :
    printed (logs ++ [(s, inx)]) s = printed logs s + 1 := by
  simp [printed, List.count_append]

theorem printed_append_other (logs : List (Nat × Nat)) (s inx j : Nat) (h : j ≠ s) :
    printed (logs ++ [(s, inx)]) j = printed logs j := by
  have : ¬ s = j := fun e => h e.symm
  simp [printed, List.count_append, List.count_cons, this]

theorem sent_length {cfg : Config} {σ : State} (h : Inv cfg σ) :
    σ.sent.length = sumTo cfg.MaxTotalGenerators (sends σ.sent) :=
  length_eq_sum_count _ _ h.slots

theorem logs_length {cfg : Config} {σ : State} (h : Inv cfg σ) :
    σ.logs.length = sumTo cfg.MaxTotalGenerators (printed σ.logs) := by
  have := length_eq_sum_count cfg.MaxTotalGenerators (σ.logs.map Prod.fst) (by
    intro x hx
    obtain ⟨e, he, rfl⟩ := List.mem_map.mp hx
    exact h.logSlots e he)
  simpa [printed] using this

theorem drained_pastLoop (m : Main) (wg wt : Nat) (h : m.drained wg wt = true) :
    m.pastLoop = true := by
  cases m <;> simp [Main.drained, Main.pastLoop] at h ⊢

/-- Once the counter has been seen at zero from inside `wg.Wait()`, every
notification has been received and every line printed. -/
theorem drained_facts {cfg : Config} {σ : State} (h : Inv cfg σ)
    (hd : σ.main.drained σ.wg σ.waiters = true) :
    σ.sent.length = quota cfg ∧ σ.logs.length = quota cfg ∧
      (∀ s, printed σ.logs s = sends σ.sent s) ∧ ∀ s, (σ.procs s).pending = 0 := by
  have hp := drained_pastLoop _ _ _ hd
  have heq : ∀ s, printed σ.logs s = sends σ.sent s := by
    intro s
    have h1 := (h.proc s).printed
    have h2 := (h.proc s).quiet hd
    omega
  have hsent : σ.sent.length = quota cfg := by
    rw [← h.total]
    exact h.broke hp
  refine ⟨hsent, ?_, heq, fun s => (h.proc s).quiet hd⟩
  rw [logs_length h, sumTo_congr _ _ _ (fun s _ => heq s), ← sent_length h]
  exact hsent

/-! ### Moves of one goroutine and its part of the invariant -/

theorem over_facts (q : Proc) (hq : q.over = true) :
    q ≠ .idle ∧ q.pos = 0 ∧ q.pending = 0 ∧ ∀ inx, q ≠ .select inx := by
  cases q <;> simp [Proc.over, Proc.pos, Proc.pending] at hq ⊢

/-- A move between two control points after the loop, whatever happens to the
`WaitGroup`. -/
theorem ProcInv.overTo {cfg : Config} {m : Main} {wg wt wg' wt' c lg : Nat} {p : Proc}
    {s : Nat} (h : ProcInv cfg m wg wt c lg p s) (hp : p.over = true) (q : Proc)
    (hq : q.over = true)
    (hk : ∀ w, q = .doneCheck w ∨ q = .doneStore w → w = 1 ∧ wt' = 1 ∧ wg' = 0)
    (hr : ∀ w, q = .doneRelease w → w ≠ 0 → wt' = 0) : ProcInv cfg m wg' wt' c lg q s := by
  obtain ⟨l1, l2, l3, l4, l5, l6, l7, l8, l9, l10⟩ := h
  obtain ⟨p1, p2, p3, p4⟩ := over_facts p hp
  obtain ⟨q1, q2, q3, q4⟩ := over_facts q hq
  refine ⟨⟨fun e => absurd e q1, fun e => absurd (l1.mpr e) p1⟩, l2, by omega,
    fun inx e => absurd e (q4 inx), fun e => ?_, by omega, fun _ b => l7 hp b,
    fun _ => q3, hk, hr⟩
  rw [hq] at e
  exact absurd e (by simp)

theorem ProcInv.start {cfg : Config} {m : Main} {wg wt c lg s : Nat}
    (h : ProcInv cfg m wg wt c lg .started s) : ProcInv cfg m wg wt c lg (.loop 0) s := by
  obtain ⟨l1, l2, l3, l4, l5, l6, l7, l8, l9, l10⟩ := h
  simp only [Proc.pos, Proc.over, Proc.pending] at l1 l3 l4 l5 l6 l7 l8
  constructor <;> (try simp [Proc.pos, Proc.over, Proc.pending]) <;> (try intros) <;>
    (try simp_all) <;> omega

theorem ProcInv.iterIn {cfg : Config} {m : Main} {wg wt c lg s inx : Nat}
    (h : ProcInv cfg m wg wt c lg (.loop inx) s) (hlt : inx < cfg.loopBound) :
    ProcInv cfg m wg wt c lg (.select inx) s := by
  obtain ⟨l1, l2, l3, l4, l5, l6, l7, l8, l9, l10⟩ := h
  simp only [Proc.pos, Proc.over, Proc.pending] at l1 l3 l4 l5 l6 l7 l8
  constructor <;> (try simp [Proc.pos, Proc.over, Proc.pending]) <;> (try intros) <;>
    (try simp_all) <;> omega

theorem ProcInv.iterOut {cfg : Config} {m : Main} {wg wt c lg s inx : Nat}
    (h : ProcInv cfg m wg wt c lg (.loop inx) s) (hlt : ¬ inx < cfg.loopBound) :
    ProcInv cfg m wg wt c lg .leaving s := by
  obtain ⟨l1, l2, l3, l4, l5, l6, l7, l8, l9, l10⟩ := h
  simp only [Proc.pos, Proc.over, Proc.pending] at l1 l3 l4 l5 l6 l7 l8
  constructor <;> (try simp [Proc.pos, Proc.over, Proc.pending]) <;> (try intros) <;>
    (try simp_all) <;> omega

theorem ProcInv.quit {cfg : Config} {m : Main} {wg wt c lg s inx : Nat}
    (h : ProcInv cfg m wg wt c lg (.select inx) s) (hcl : m.hasClosed = true) :
    ProcInv cfg m wg wt c lg .leaving s := by
  obtain ⟨l1, l2, l3, l4, l5, l6, l7, l8, l9, l10⟩ := h
  simp only [Proc.pos, Proc.over, Proc.pending] at l1 l3 l4 l5 l6 l7 l8
  constructor <;> (try simp [Proc.pos, Proc.over, Proc.pending]) <;> (try intros) <;>
    (try simp_all) <;> omega

theorem ProcInv.send {cfg : Config} {m : Main} {wg wt c lg s inx : Nat}
    (h : ProcInv cfg m wg wt c lg (.select inx) s) (hd : m.drained wg wt = false) :
    ProcInv cfg m wg wt (c + 1) lg (.logging inx) s := by
  obtain ⟨l1, l2, l3, l4, l5, l6, l7, l8, l9, l10⟩ := h
  simp only [Proc.pos, Proc.over, Proc.pending] at l1 l3 l4 l5 l6 l7 l8
  have := l4 inx rfl
  constructor <;> (try simp [Proc.pos, Proc.over, Proc.pending]) <;> (try intros) <;>
    (try simp_all) <;> omega

theorem ProcInv.log {cfg : Config} {m : Main} {wg wt c lg s inx : Nat}
    (h : ProcInv cfg m wg wt c lg (.logging inx) s) :
    ProcInv cfg m wg wt c (lg + 1) (.loop (inx + 1)) s := by
  obtain ⟨l1, l2, l3, l4, l5, l6, l7, l8, l9, l10⟩ := h
  simp only [Proc.pos, Proc.over, Proc.pending] at l1 l3 l4 l5 l6 l7 l8
  constructor <;> (try simp [Proc.pos, Proc.over, Proc.pending]) <;> (try intros) <;>
    (try simp_all) <;> omega

theorem ProcInv.spawn {cfg : Config} {wg wt c lg s : Nat}
    (h : ProcInv cfg (.spawn s) wg wt c lg .idle s) :
    ProcInv cfg (.spawn (s + 1)) wg wt c lg .started s := by
  obtain ⟨l1, l2, l3, l4, l5, l6, l7, l8, l9, l10⟩ := h
  have h5 : 0 = c := l5 rfl
  have h6 : lg + 0 = c := l6
  refine ⟨⟨fun e => absurd e (by simp), fun e => ?_⟩, l2, Nat.zero_le _,
    fun inx e => absurd e (by simp), fun _ => h5, h6, fun e => absurd e (by simp [Proc.over]),
    fun _ => rfl, fun w e => absurd e (by simp), fun w e => absurd e (by simp)⟩
  simp only [spawned] at e
  omega

/-! ### Every move keeps the invariant, or ends in a panic of the `WaitGroup` -/

theorem drained_of {m : Main} {wg wt wg' wt' : Nat} (h : m.drained wg' wt' = true)
    (hi : wt' = 0 ∨ wg' = 0 → wt = 0 ∨ wg = 0) : m.drained wg wt = true := by
  cases m <;> simp [Main.drained] at h ⊢
  exact hi h

theorem inv_procIter (cfg : Config) (σ σ' : State) (s : Nat) (h : Inv cfg σ)
    (hs : printRandom1Iter cfg σ s = some σ') : Inv cfg σ' := by
  unfold printRandom1Iter at hs
  split at hs
  · rename_i inx hp
    have hl := h.proc s
    rw [hp] at hl
    split at hs <;> rename_i hlt <;> simp only [Option.some.injEq] at hs <;> subst hs
    · exact h.setProc s _ (hl.iterIn hlt) (by simp [hp, Proc.live]) (by simp [hp, Proc.owes])
    · exact h.setProc s _ (hl.iterOut hlt) (by simp [hp, Proc.live]) (by simp [hp, Proc.owes])
  · simp at hs

theorem inv_procDone (cfg : Config) (σ σ' : State) (s : Nat) (h : Inv cfg σ)
    (hs : printRandom1Done σ s = some σ') : Inv cfg σ' := by
  unfold printRandom1Done at hs
  split at hs
  · rename_i inx hp
    have hl := h.proc s
    rw [hp] at hl
    split at hs
    · simp at hs
    · rename_i hne
      simp only [Option.some.injEq] at hs
      subst hs
      exact h.setProc s _ (hl.quit ((p1_done_iff h).mp hne)) (by simp [hp, Proc.live])
        (by simp [hp, Proc.owes])
  · simp at hs

theorem inv_procAdd (cfg : Config) (σ σ' : State) (s : Nat) (h : Inv cfg σ)
    (hs : printRandom1Add σ s = some σ') : Good cfg σ' := by
  unfold printRandom1Add at hs
  split at hs
  · rename_i hp
    have hsN := proc_started h s (by simp [hp])
    have hl := h.proc s
    rw [hp] at hl
    split at hs
    · rename_i hc
      simp only [Option.some.injEq] at hs
      subst hs
      right
      have hm := (h.waitersMain hc.1).1
      have hwg : σ.wg = 0 := by omega
      have hd : σ.main.drained σ.wg σ.waiters = true := by simp [hm, Main.drained, hwg]
      obtain ⟨f1, f2, f3, f4⟩ := drained_facts h hd
      exact ⟨Or.inl rfl, Or.inl hm, h.total, f1, f2, f3, f4⟩
    · rename_i hc
      simp only [Option.some.injEq] at hs
      subst hs
      left
      have hlive := liveProcs_upd cfg σ (σ.setProc s (.loop 0)) s (.loop 0) hsN rfl
      have howe := owing_upd cfg σ (σ.setProc s (.loop 0)) s (.loop 0) hsN rfl
      simp only [hp, Proc.live, Proc.owes] at hlive howe
      have hnew : ProcInv cfg σ.main (σ.wg + 1) σ.waiters (sends σ.sent s) (printed σ.logs s)
          (.loop 0) s :=
        (hl.reparamProc Iff.rfl id (fun _ => rfl) (fun w e => absurd e (by simp))
          (fun w e => absurd e (by simp))).start
      obtain ⟨h1, h2, h3, h4, h5, h6, h7, h8, h9, h10, h11, h12, h13, h14⟩ := h
      refine ⟨h1, h2, ?_, ?_, h5, h6, h7, h8, h9, h10, h11, h12, ?_, h14⟩
      · intro j
        by_cases hj : j = s
        · subst hj
          show ProcInv cfg σ.main (σ.wg + 1) σ.waiters (sends σ.sent j) (printed σ.logs j)
            (upd σ.procs j (.loop 0) j) j
          rw [upd_same]
          exact hnew
        · show ProcInv cfg σ.main (σ.wg + 1) σ.waiters (sends σ.sent j) (printed σ.logs j)
            (upd σ.procs s (.loop 0) j) j
          rw [upd_other _ _ _ _ hj]
          refine (h3 j).reparamProc Iff.rfl id ?_ ?_ (h3 j).release
          · intro hd
            exact (h3 j).quiet (drained_of hd (by omega))
          · intro w hw
            have := (h3 j).check w hw
            omega
      · show σ.wg + 1 = liveProcs cfg (σ.setProc s (.loop 0))
        omega
      · show σ.sema + owing cfg (σ.setProc s (.loop 0)) =
          if σ.main = .waitSema ∧ ¬ (σ.waiters = 1 ∧ σ.wg + 1 ≠ 0) then 1 else 0
        by_cases hm : σ.main = .waitSema <;>
          simp only [hm, true_and, false_and, if_false] at h13 ⊢
        · split_ifs at h13 ⊢ <;> omega
        · omega
  · simp at hs

/-- The decrement of `wg.Done()` that does not release a waiter. -/
theorem inv_wgDone_plain (cfg : Config) (σ : State) (s : Nat) (h : Inv cfg σ)
    (hp : σ.procs s = .leaving) (hc : 0 < σ.wg - 1 ∨ σ.waiters = 0) (hwg0 : σ.wg ≠ 0) :
    Inv cfg { σ.setProc s .finished with wg := σ.wg - 1 } := by
  have hsN := proc_started h s (by simp [hp])
  have hl := h.proc s
  rw [hp] at hl
  have hlive := liveProcs_upd cfg σ (σ.setProc s .finished) s .finished hsN rfl
  have howe := owing_upd cfg σ (σ.setProc s .finished) s .finished hsN rfl
  simp only [hp, Proc.live, Proc.owes] at hlive howe
  have hnew : ProcInv cfg σ.main (σ.wg - 1) σ.waiters (sends σ.sent s) (printed σ.logs s)
      .finished s :=
    hl.overTo rfl .finished rfl (fun w e => absurd e (by simp))
      (fun w e => absurd e (by simp))
  obtain ⟨h1, h2, h3, h4, h5, h6, h7, h8, h9, h10, h11, h12, h13, h14⟩ := h
  refine ⟨h1, h2, ?_, ?_, h5, h6, h7, h8, h9, h10, h11, h12, ?_, h14⟩
  · intro j
    by_cases hj : j = s
    · subst hj
      show ProcInv cfg σ.main (σ.wg - 1) σ.waiters (sends σ.sent j) (printed σ.logs j)
        (upd σ.procs j .finished j) j
      rw [upd_same]
      exact hnew
    · show ProcInv cfg σ.main (σ.wg - 1) σ.waiters (sends σ.sent j) (printed σ.logs j)
        (upd σ.procs s .finished j) j
      rw [upd_other _ _ _ _ hj]
      refine (h3 j).reparamProc Iff.rfl id ?_ ?_ (h3 j).release
      · intro hd
        exact (h3 j).quiet (drained_of hd (by omega))
      · intro w hw
        have := (h3 j).check w hw
        omega
  · show σ.wg - 1 = liveProcs cfg (σ.setProc s .finished)
    omega
  · show σ.sema + owing cfg (σ.setProc s .finished) =
      if σ.main = .waitSema ∧ ¬ (σ.waiters = 1 ∧ σ.wg - 1 ≠ 0) then 1 else 0
    by_cases hm : σ.main = .waitSema <;>
      simp only [hm, true_and, false_and, if_false] at h13 ⊢
    · split_ifs at h13 ⊢ <;> omega
    · omega

/-- The decrement of `wg.Done()` that brings the counter to zero while `problem1`
is registered in `wg.Wait()`. -/
theorem inv_wgDone_last (cfg : Config) (σ : State) (s : Nat) (h : Inv cfg σ)
    (hp : σ.procs s = .leaving) (hc : ¬ (0 < σ.wg - 1 ∨ σ.waiters = 0)) (hwg0 : σ.wg ≠ 0) :
    Inv cfg { σ.setProc s (.doneCheck σ.waiters) with wg := σ.wg - 1 } := by
  have hsN := proc_started h s (by simp [hp])
  have hl := h.proc s
  rw [hp] at hl
  have hwg := h.wg
  have hlive := liveProcs_upd cfg σ (σ.setProc s (.doneCheck σ.waiters)) s
    (.doneCheck σ.waiters) hsN rfl
  have howe := owing_upd cfg σ (σ.setProc s (.doneCheck σ.waiters)) s
    (.doneCheck σ.waiters) hsN rfl
  simp only [hp, Proc.live, Proc.owes] at hlive howe
  have hw1 : σ.waiters = 1 := by
    have := h.waitersLe
    omega
  have hwg1 : σ.wg = 1 := by omega
  have hm := (h.waitersMain (by omega)).1
  have hsema := (h.waitersMain (by omega)).2
  have hothers : ∀ j, j ≠ s → (σ.procs j).pending = 0 := by
    intro j hj
    by_cases hjN : j < cfg.MaxTotalGenerators
    · apply proc_quiet_of_live
      have h2 : (σ.procs s).live + (σ.procs j).live ≤ liveProcs cfg σ :=
        sumTo_ge_two cfg.MaxTotalGenerators (fun j => (σ.procs j).live) s j hsN hjN
          (fun e => hj e.symm)
      have h3 : (σ.procs s).live = 1 := by rw [hp]; rfl
      omega
    · have h1 := (h.proc j).idle
      have h2 := h.spawnBound
      rw [h1.mpr (by omega)]
      rfl
  have hnew : ProcInv cfg σ.main (σ.wg - 1) σ.waiters (sends σ.sent s) (printed σ.logs s)
      (.doneCheck σ.waiters) s := by
    refine hl.overTo rfl _ rfl ?_ (fun w e => absurd e (by simp))
    intro w e
    rcases e with e | e
    · injection e with e
      omega
    · exact absurd e (by simp)
  obtain ⟨h1, h2, h3, h4, h5, h6, h7, h8, h9, h10, h11, h12, h13, h14⟩ := h
  refine ⟨h1, h2, ?_, ?_, h5, h6, h7, h8, h9, h10, h11, h12, ?_, h14⟩
  · intro j
    by_cases hj : j = s
    · subst hj
      show ProcInv cfg σ.main (σ.wg - 1) σ.waiters (sends σ.sent j) (printed σ.logs j)
        (upd σ.procs j (.doneCheck σ.waiters) j) j
      rw [upd_same]
      exact hnew
    · show ProcInv cfg σ.main (σ.wg - 1) σ.waiters (sends σ.sent j) (printed σ.logs j)
        (upd σ.procs s (.doneCheck σ.waiters) j) j
      rw [upd_other _ _ _ _ hj]
      refine (h3 j).reparamProc Iff.rfl id (fun _ => hothers j hj) ?_ (h3 j).release
      intro w hw
      have := (h3 j).check w hw
      omega
  · show σ.wg - 1 = liveProcs cfg (σ.setProc s (.doneCheck σ.waiters))
    omega
  · show σ.sema + owing cfg (σ.setProc s (.doneCheck σ.waiters)) =
      if σ.main = .waitSema ∧ ¬ (σ.waiters = 1 ∧ σ.wg - 1 ≠ 0) then 1 else 0
    simp only [hm, true_and] at h13 ⊢
    split_ifs at h13 ⊢ <;> omega

/-- The store of `wg.Done()` that resets the state of the `WaitGroup`. -/
theorem inv_wgDone_store (cfg : Config) (σ : State) (s w : Nat) (h : Inv cfg σ)
    (hp : σ.procs s = .doneStore w) :
    Inv cfg { σ.setProc s (.doneRelease w) with wg := 0, waiters := 0 } := by
  have hsN := proc_started h s (by simp [hp])
  have hl := h.proc s
  rw [hp] at hl
  obtain ⟨hw, hwt, hwg0⟩ := hl.check w (Or.inr rfl)
  have hm := (h.waitersMain (by omega)).1
  have hsema := (h.waitersMain (by omega)).2
  have hlive := liveProcs_upd cfg σ (σ.setProc s (.doneRelease w)) s (.doneRelease w) hsN rfl
  have howe := owing_upd cfg σ (σ.setProc s (.doneRelease w)) s (.doneRelease w) hsN rfl
  simp only [hp, Proc.live, Proc.owes] at hlive howe
  have hwake := h.wake
  simp only [hm, true_and] at hwake
  rw [if_pos (by omega)] at hwake
  have hothers : ∀ j, j ≠ s → ∀ w',
      ¬ (σ.procs j = .doneCheck w' ∨ σ.procs j = .doneStore w') := by
    intro j hj w' hw'
    have hjN : j < cfg.MaxTotalGenerators := by
      apply proc_started h j
      rcases hw' with e | e <;> simp [e]
    have hk := (h.proc j).check w' hw'
    have h2 : (σ.procs s).owes + (σ.procs j).owes ≤ owing cfg σ :=
      sumTo_ge_two cfg.MaxTotalGenerators (fun j => (σ.procs j).owes) s j hsN hjN
        (fun e => hj e.symm)
    have hoj : (σ.procs j).owes = w' := by
      rcases hw' with e | e <;> simp [e, Proc.owes]
    have hos : (σ.procs s).owes = w := by rw [hp]; rfl
    omega
  have hnew : ProcInv cfg σ.main 0 0 (sends σ.sent s) (printed σ.logs s)
      (.doneRelease w) s := by
    exact hl.overTo rfl (.doneRelease w) rfl (fun w e => absurd e (by simp))
      (fun _ _ _ => rfl)
  obtain ⟨h1, h2, h3, h4, h5, h6, h7, h8, h9, h10, h11, h12, h13, h14⟩ := h
  refine ⟨h1, h2, ?_, ?_, h5, h6, h7, h8, h9, h10, ?_, ?_, ?_, h14⟩
  · intro j
    by_cases hj : j = s
    · subst hj
      show ProcInv cfg σ.main 0 0 (sends σ.sent j) (printed σ.logs j)
        (upd σ.procs j (.doneRelease w) j) j
      rw [upd_same]
      exact hnew
    · show ProcInv cfg σ.main 0 0 (sends σ.sent j) (printed σ.logs j)
        (upd σ.procs s (.doneRelease w) j) j
      rw [upd_other _ _ _ _ hj]
      refine (h3 j).reparamProc Iff.rfl id ?_ ?_ (fun _ _ _ => rfl)
      · intro _
        exact (h3 j).quiet (by simp [hm, Main.drained, hwg0])
      · intro w' hw'
        exact absurd hw' (hothers j hj w')
  · show 0 = liveProcs cfg (σ.setProc s (.doneRelease w))
    omega
  · show 0 ≤ 1
    omega
  · intro hc
    exact absurd rfl hc
  · show σ.sema + owing cfg (σ.setProc s (.doneRelease w)) =
      if σ.main = .waitSema ∧ ¬ ((0 : Nat) = 1 ∧ (0 : Nat) ≠ 0) then 1 else 0
    simp only [hm, true_and]
    rw [if_pos (by omega)]
    omega

/-- One release of the semaphore by `wg.Done()`. -/
theorem inv_wgDone_release (cfg : Config) (σ : State) (s w : Nat) (h : Inv cfg σ)
    (hp : σ.procs s = .doneRelease w) (hw0 : w ≠ 0) :
    Inv cfg { σ.setProc s (.doneRelease (w - 1)) with sema := σ.sema + 1 } := by
  have hsN := proc_started h s (by simp [hp])
  have hl := h.proc s
  rw [hp] at hl
  have hwt := hl.release w rfl hw0
  have hlive := liveProcs_upd cfg σ (σ.setProc s (.doneRelease (w - 1))) s
    (.doneRelease (w - 1)) hsN rfl
  have howe := owing_upd cfg σ (σ.setProc s (.doneRelease (w - 1))) s
    (.doneRelease (w - 1)) hsN rfl
  simp only [hp, Proc.live, Proc.owes] at hlive howe
  have hnew : ProcInv cfg σ.main σ.wg σ.waiters (sends σ.sent s) (printed σ.logs s)
      (.doneRelease (w - 1)) s :=
    hl.overTo rfl _ rfl (fun w e => absurd e (by simp)) (fun _ _ _ => hwt)
  obtain ⟨h1, h2, h3, h4, h5, h6, h7, h8, h9, h10, h11, h12, h13, h14⟩ := h
  refine ⟨h1, h2, ?_, ?_, h5, h6, h7, h8, h9, h10, h11, ?_, ?_, h14⟩
  · intro j
    by_cases hj : j = s
    · subst hj
      show ProcInv cfg σ.main σ.wg σ.waiters (sends σ.sent j) (printed σ.logs j)
        (upd σ.procs j (.doneRelease (w - 1)) j) j
      rw [upd_same]
      exact hnew
    · show ProcInv cfg σ.main σ.wg σ.waiters (sends σ.sent j) (printed σ.logs j)
        (upd σ.procs s (.doneRelease (w - 1)) j) j
      rw [upd_other _ _ _ _ hj]
      exact h3 j
  · show σ.wg = liveProcs cfg (σ.setProc s (.doneRelease (w - 1)))
    omega
  · intro hc
    exact absurd hwt hc
  · show σ.sema + 1 + owing cfg (σ.setProc s (.doneRelease (w - 1))) =
      if σ.main = .waitSema ∧ ¬ (σ.waiters = 1 ∧ σ.wg ≠ 0) then 1 else 0
    omega

theorem inv_procWgDone (cfg : Config) (σ σ' : State) (s : Nat) (h : Inv cfg σ)
    (hs : printRandom1WgDone σ s = some σ') : Inv cfg σ' := by
  unfold printRandom1WgDone at hs
  split at hs
  · rename_i hp
    have hsN := proc_started h s (by simp [hp])
    have hwg := h.wg
    have hone : 1 ≤ liveProcs cfg σ := by
      have h2 : (σ.procs s).live ≤ liveProcs cfg σ :=
        sumTo_ge_one cfg.MaxTotalGenerators (fun j => (σ.procs j).live) s hsN
      have h3 : (σ.procs s).live = 1 := by rw [hp]; rfl
      omega
    split at hs
    · omega
    · rename_i hwg0
      split at hs
      · rename_i hc
        simp only [Option.some.injEq] at hs
        subst hs
        exact inv_wgDone_plain cfg σ s h hp hc hwg0
      · rename_i hc
        simp only [Option.some.injEq] at hs
        subst hs
        exact inv_wgDone_last cfg σ s h hp hc hwg0
  · rename_i w hp
    have hl := h.proc s
    rw [hp] at hl
    have hk := hl.check w (Or.inl rfl)
    split at hs
    · simp only [Option.some.injEq] at hs
      subst hs
      refine h.setProc s _ ?_ (by simp [hp, Proc.live]) (by simp [hp, Proc.owes])
      refine hl.overTo rfl _ rfl ?_ (fun w e => absurd e (by simp))
      intro w' e
      rcases e with e | e
      · exact absurd e (by simp)
      · injection e with e
        subst e
        exact hk
    · rename_i hc
      exact absurd ⟨hk.2.2, by omega⟩ hc
  · rename_i w hp
    simp only [Option.some.injEq] at hs
    subst hs
    exact inv_wgDone_store cfg σ s w h hp
  · rename_i w hp
    have hl := h.proc s
    rw [hp] at hl
    split at hs
    · rename_i hw0
      simp only [Option.some.injEq] at hs
      subst hs
      refine h.setProc s _ ?_ (by simp [hp, Proc.live]) (by simp [hp, Proc.owes, hw0])
      exact hl.overTo rfl _ rfl (fun w e => absurd e (by simp)) (fun w e => absurd e (by simp))
    · rename_i hw0
      simp only [Option.some.injEq] at hs
      subst hs
      exact inv_wgDone_release cfg σ s w h hp hw0
  · simp at hs

theorem inv_procSend (cfg : Config) (σ σ' : State) (s : Nat) (h : Inv cfg σ)
    (hs : printRandom1Send cfg σ s = some σ') : Inv cfg σ' := by
  unfold printRandom1Send at hs
  split at hs
  · rename_i inx hp
    have hsN := proc_started h s (by simp [hp])
    split at hs
    · rename_i hmain
      simp only [Option.some.injEq] at hs
      subst hs
      have hlive := liveProcs_upd cfg σ (σ.setProc s (.logging inx)) s (.logging inx) hsN rfl
      have howe := owing_upd cfg σ (σ.setProc s (.logging inx)) s (.logging inx) hsN rfl
      simp only [hp, Proc.live, Proc.owes] at hlive howe
      have hl := h.proc s
      rw [hp, hmain] at hl
      have hmc : ∀ m' : Main, m' = (if σ.total + 1 ≥ cfg.MaxTotalNumbers then Main.closeDone
          else Main.range) → spawned cfg m' = cfg.MaxTotalGenerators ∧
          m'.hasClosed = false ∧ (∀ a b, m'.drained a b = false) ∧
          (m'.pastLoop = true ↔ σ.total + 1 ≥ cfg.MaxTotalNumbers) ∧ m' ≠ .waitSema ∧
          ∀ v w, m' ≠ .waitCas v w := by
        intro m' hm'
        subst hm'
        split <;> rename_i hq <;> simp [spawned, Main.hasClosed, Main.drained,
          Main.pastLoop] <;> omega
      obtain ⟨m1, m2, m3, m4, m5, m6⟩ := hmc _ rfl
      have hnew : ProcInv cfg
          (if σ.total + 1 ≥ cfg.MaxTotalNumbers then Main.closeDone else Main.range)
          σ.wg σ.waiters (sends σ.sent s + 1) (printed σ.logs s) (.logging inx) s :=
        (hl.send (by simp [Main.drained])).reparamProc
          (by rw [m1]; simp [spawned]) (by simp [Main.hasClosed])
          (by rw [m3]; simp) (fun w e => absurd e (by simp)) (fun w e => absurd e (by simp))
      obtain ⟨h1, h2, h3, h4, h5, h6, h7, h8, h9, h10, h11, h12, h13, h14⟩ := h
      simp only [hmain, Main.pastLoop, Main.hasClosed, spawned] at h2 h5 h9 h10
      have hwt : σ.waiters = 0 := by
        by_contra hc
        have := (h12 hc).1
        rw [hmain] at this
        exact absurd this (by simp)
      refine ⟨h1, ?_, ?_, ?_, ?_, ?_, ?_, h8, ?_, ?_, h11, ?_, ?_, ?_⟩
      · show spawned cfg _ ≤ _
        rw [m1]
      · intro j
        have hj3 := h3 j
        simp only [hmain] at hj3
        by_cases hj : j = s
        · subst hj
          show ProcInv cfg _ σ.wg σ.waiters (sends (σ.sent ++ [j]) j) (printed σ.logs j)
            (upd σ.procs j _ j) j
          rw [upd_same, sends_append_same]
          exact hnew
        · show ProcInv cfg _ σ.wg σ.waiters (sends (σ.sent ++ [s]) j) (printed σ.logs j)
            (upd σ.procs s _ j) j
          rw [upd_other _ _ _ _ hj, sends_append_other _ _ _ hj]
          exact hj3.reparamProc (by rw [m1]; simp [spawned]) (by simp [Main.hasClosed])
            (by rw [m3]; simp) (fun w e => (hj3.check w e).2) hj3.release
      · show σ.wg = liveProcs cfg (σ.setProc s (.logging inx))
        omega
      · show σ.done = if Main.hasClosed _ = true then 1 else 0
        rw [m2]
        simpa using h5
      · show σ.total + 1 = (σ.sent ++ [s]).length
        simp [h6]
      · intro j hj
        rcases List.mem_append.mp hj with hj | hj
        · exact h7 j hj
        · simp only [List.mem_singleton] at hj
          subst hj
          exact hsN
      · show Main.pastLoop _ = false → σ.total + 1 < quota cfg
        intro hpl
        have : ¬ σ.total + 1 ≥ cfg.MaxTotalNumbers := by
          intro hc
          rw [m4.mpr hc] at hpl
          simp at hpl
        unfold quota
        omega
      · show Main.pastLoop _ = true → σ.total + 1 = quota cfg
        intro hpl
        have := m4.mp hpl
        have := h9 trivial
        unfold quota at this ⊢
        omega
      · intro hc
        exact absurd hwt hc
      · show σ.sema + owing cfg (σ.setProc s (.logging inx)) = if _ = Main.waitSema ∧ _ then 1 else 0
        rw [if_neg (fun hc => m5 hc.1)]
        simp only [hmain, false_and, if_false, reduceCtorEq] at h13
        omega
      · intro v w e
        exact absurd e (m6 v w)
    · simp at hs
  · simp at hs

theorem inv_procLog (cfg : Config) (σ σ' : State) (s : Nat) (h : Inv cfg σ)
    (hs : printRandom1Log σ s = some σ') : Inv cfg σ' := by
  unfold printRandom1Log at hs
  split at hs
  · rename_i inx hp
    have hsN := proc_started h s (by simp [hp])
    simp only [Option.some.injEq] at hs
    subst hs
    have hlive := liveProcs_upd cfg σ (σ.setProc s (.loop (inx + 1))) s (.loop (inx + 1))
      hsN rfl
    have howe := owing_upd cfg σ (σ.setProc s (.loop (inx + 1))) s (.loop (inx + 1))
      hsN rfl
    simp only [hp, Proc.live, Proc.owes] at hlive howe
    have hl := h.proc s
    rw [hp] at hl
    have hnew := hl.log
    obtain ⟨h1, h2, h3, h4, h5, h6, h7, h8, h9, h10, h11, h12, h13, h14⟩ := h
    refine ⟨h1, h2, ?_, ?_, h5, h6, h7, ?_, h9, h10, h11, h12, ?_, h14⟩
    · intro j
      have hj3 := h3 j
      by_cases hj : j = s
      · subst hj
        show ProcInv cfg σ.main σ.wg σ.waiters (sends σ.sent j)
          (printed (σ.logs ++ [(j, inx)]) j) (upd σ.procs j _ j) j
        rw [upd_same, printed_append_same]
        exact hnew
      · show ProcInv cfg σ.main σ.wg σ.waiters (sends σ.sent j)
          (printed (σ.logs ++ [(s, inx)]) j) (upd σ.procs s _ j) j
        rw [upd_other _ _ _ _ hj, printed_append_other _ _ _ _ hj]
        exact hj3
    · show σ.wg = liveProcs cfg (σ.setProc s (.loop (inx + 1)))
      omega
    · intro e he
      rcases List.mem_append.mp he with he | he
      · exact h8 e he
      · simp only [List.mem_singleton] at he
        subst he
        exact hsN
    · show σ.sema + owing cfg (σ.setProc s (.loop (inx + 1))) =
        if σ.main = .waitSema ∧ ¬ (σ.waiters = 1 ∧ σ.wg ≠ 0) then 1 else 0
      omega
  · simp at hs

/-- A move of `problem1` that changes its control point only, to one outside
`wg.Wait()` or to the head of `wg.Wait()`. -/
theorem Inv.setMain {cfg : Config} {σ : State} (h : Inv cfg σ) (m : Main)
    (hns : σ.main ≠ .waitSema) (hg : spawned cfg m = spawned cfg σ.main)
    (hc : m.hasClosed = σ.main.hasClosed) (hp : m.pastLoop = σ.main.pastLoop)
    (hd : ∀ a b, m.drained a b = true → ∀ j, (σ.procs j).pending = 0)
    (hm : m ≠ .waitSema) (hcas : ∀ v w, m = .waitCas v w → v ≠ 0) :
    Inv cfg { σ with main := m } := by
  obtain ⟨h1, h2, h3, h4, h5, h6, h7, h8, h9, h10, h11, h12, h13, h14⟩ := h
  refine ⟨h1, ?_, ?_, h4, ?_, h6, h7, h8, ?_, ?_, h11, ?_, ?_, hcas⟩
  · show spawned cfg m ≤ _
    rw [hg]
    exact h2
  · intro j
    exact (h3 j).reparamProc (by rw [hg]) (by rw [hc]; exact id) (fun e => hd _ _ e j)
      (fun w e => ((h3 j).check w e).2) (h3 j).release
  · show σ.done = if m.hasClosed = true then 1 else 0
    rw [hc]
    exact h5
  · show m.pastLoop = false → _
    rw [hp]
    exact h9
  · show m.pastLoop = true → _
    rw [hp]
    exact h10
  · intro hw
    exact absurd (h12 hw).1 hns
  · show σ.sema + owing cfg σ = if m = .waitSema ∧ ¬ (σ.waiters = 1 ∧ σ.wg ≠ 0) then 1 else 0
    rw [if_neg (fun e => hm e.1)]
    rw [if_neg (fun e => hns e.1)] at h13
    exact h13

theorem p1_inv_main (cfg : Config) (σ σ' : State) (h : Inv cfg σ)
    (hs : problem1 cfg σ = some σ') : Good cfg σ' := by
  unfold problem1 at hs
  split at hs
  · -- the go statements
    rename_i inx hmain
    left
    split at hs
    · rename_i hlt
      simp only [Option.some.injEq] at hs
      subst hs
      have hl := h.proc inx
      rw [hmain] at hl
      have hidle : σ.procs inx = .idle := hl.idle.mpr (Nat.le_refl _)
      rw [hidle] at hl
      have hnew := hl.spawn
      have hlive := liveProcs_upd cfg σ (σ.setProc inx .started) inx .started hlt rfl
      have howe := owing_upd cfg σ (σ.setProc inx .started) inx .started hlt rfl
      simp only [hidle, Proc.live, Proc.owes] at hlive howe
      obtain ⟨h1, h2, h3, h4, h5, h6, h7, h8, h9, h10, h11, h12, h13, h14⟩ := h
      simp only [hmain, Main.pastLoop, Main.hasClosed, spawned] at h2 h5 h9 h10
      refine ⟨h1, ?_, ?_, ?_, ?_, h6, h7, h8, ?_, ?_, h11, ?_, ?_, ?_⟩
      · show inx + 1 ≤ _
        omega
      · intro j
        have hj3 := h3 j
        simp only [hmain] at hj3
        by_cases hj : j = inx
        · subst hj
          show ProcInv cfg _ _ _ _ _ (upd σ.procs j _ j) j
          rw [upd_same]
          exact hnew
        · show ProcInv cfg _ _ _ _ _ (upd σ.procs inx _ j) j
          rw [upd_other _ _ _ _ hj]
          exact hj3.reparamProc (by simp only [spawned]; omega) (by simp [Main.hasClosed])
            (by simp [Main.drained]) (fun w e => (hj3.check w e).2) hj3.release
      · show σ.wg = liveProcs cfg (σ.setProc inx .started)
        omega
      · simpa [Main.hasClosed] using h5
      · simpa [Main.pastLoop] using h9
      · intro hp
        simp [Main.pastLoop] at hp
      · intro hw
        have := (h12 hw).1
        rw [hmain] at this
        exact absurd this (by simp)
      · show σ.sema + owing cfg (σ.setProc inx .started) =
          if Main.spawn (inx + 1) = .waitSema ∧ _ then 1 else 0
        simp only [hmain, false_and, if_false, reduceCtorEq] at h13
        simp only [false_and, if_false, reduceCtorEq]
        omega
      · intro v w e
        exact absurd e (by simp)
    · rename_i hge
      simp only [Option.some.injEq] at hs
      subst hs
      have h2 := h.spawnBound
      simp only [hmain, spawned] at h2
      exact h.setMain .range (by simp [hmain]) (by simp only [hmain, spawned]; omega)
        (by simp [hmain, Main.hasClosed]) (by simp [hmain, Main.pastLoop])
        (by simp [Main.drained]) (by simp) (by simp)
  · simp at hs
  · -- close(done)
    rename_i hmain
    left
    simp only [Option.some.injEq] at hs
    subst hs
    obtain ⟨h1, h2, h3, h4, h5, h6, h7, h8, h9, h10, h11, h12, h13, h14⟩ := h
    simp only [hmain, Main.pastLoop, Main.hasClosed, spawned] at h2 h5 h9 h10
    simp only [Bool.false_eq_true, if_false] at h5
    refine ⟨?_, ?_, ?_, h4, ?_, h6, h7, h8, ?_, ?_, h11, ?_, ?_, ?_⟩
    · simp [closeChan, h5]
    · show cfg.MaxTotalGenerators ≤ _
      omega
    · intro j
      have hj3 := h3 j
      simp only [hmain] at hj3
      exact hj3.reparamProc (by simp [spawned]) (by simp [Main.hasClosed])
        (by simp [Main.drained]) (fun w e => (hj3.check w e).2) hj3.release
    · simp [closeChan, h5, Main.hasClosed]
    · intro hp
      simp [Main.pastLoop] at hp
    · intro _
      exact h10 trivial
    · intro hw
      have := (h12 hw).1
      rw [hmain] at this
      exact absurd this (by simp)
    · show σ.sema + owing cfg σ = if Main.waiting = .waitSema ∧ _ then 1 else 0
      simp only [hmain, false_and, if_false, reduceCtorEq] at h13
      simp only [false_and, if_false, reduceCtorEq]
      exact h13
    · intro v w e
      exact absurd e (by simp)
  · -- wg.Wait(): the load of the state
    rename_i hmain
    left
    split at hs
    · rename_i hwg
      simp only [Option.some.injEq] at hs
      subst hs
      exact h.setMain .returning (by simp [hmain]) (by simp [hmain, spawned])
        (by simp [hmain, Main.hasClosed]) (by simp [hmain, Main.pastLoop])
        (fun _ _ _ j => quiet_of_wg_zero h hwg j) (by simp) (by simp)
    · rename_i hwg
      simp only [Option.some.injEq] at hs
      subst hs
      refine h.setMain _ (by simp [hmain]) (by simp [hmain, spawned])
        (by simp [hmain, Main.hasClosed]) (by simp [hmain, Main.pastLoop])
        (by simp [Main.drained]) (by simp) ?_
      intro v w e
      injection e with e1 e2
      omega
  · -- wg.Wait(): the compare-and-swap
    rename_i v w hmain
    left
    split at hs
    · rename_i hc
      simp only [Option.some.injEq] at hs
      subst hs
      have hv := h.cas v w hmain
      have hwt : σ.waiters = 0 := by
        by_contra hc
        have := (h.waitersMain hc).1
        rw [hmain] at this
        exact absurd this (by simp)
      have hwake := h.wake
      simp only [hmain, false_and, if_false, reduceCtorEq] at hwake
      have hquiet : ∀ j, (σ.procs j).owes = 0 := owes_zero_of_owing h (by omega)
      obtain ⟨h1, h2, h3, h4, h5, h6, h7, h8, h9, h10, h11, h12, h13, h14⟩ := h
      simp only [hmain, Main.pastLoop, Main.hasClosed, spawned] at h2 h5 h9 h10
      refine ⟨h1, ?_, ?_, h4, ?_, h6, h7, h8, ?_, ?_, ?_, ?_, ?_, ?_⟩
      · show cfg.MaxTotalGenerators ≤ _
        omega
      · intro j
        have hj3 := h3 j
        simp only [hmain] at hj3
        refine hj3.reparamProc (by simp [spawned]) (by simp [Main.hasClosed]) ?_ ?_ ?_
        · intro hd
          simp only [Main.drained, decide_eq_true_eq] at hd
          omega
        · intro w' e
          have := hj3.check w' e
          omega
        · intro w' e hw'
          have := hquiet j
          rw [e] at this
          simp only [Proc.owes] at this
          omega
      · simpa [Main.hasClosed] using h5
      · intro hp
        simp [Main.pastLoop] at hp
      · intro _
        exact h10 trivial
      · show σ.waiters + 1 ≤ 1
        omega
      · intro _
        refine ⟨rfl, ?_⟩
        show σ.sema = 0
        omega
      · show σ.sema + owing cfg σ =
          if Main.waitSema = .waitSema ∧ ¬ (σ.waiters + 1 = 1 ∧ σ.wg ≠ 0) then 1 else 0
        rw [if_neg (by omega)]
        exact hwake
      · intro v' w' e
        exact absurd e (by simp)
    · simp only [Option.some.injEq] at hs
      subst hs
      exact h.setMain .waiting (by simp [hmain]) (by simp [hmain, spawned])
        (by simp [hmain, Main.hasClosed]) (by simp [hmain, Main.pastLoop])
        (by simp [Main.drained]) (by simp) (by simp)
  · -- wg.Wait(): the semaphore
    rename_i hmain
    left
    split at hs
    · simp at hs
    · rename_i hsema
      simp only [Option.some.injEq] at hs
      subst hs
      have hwt : σ.waiters = 0 := by
        by_contra hc
        exact hsema (h.waitersMain hc).2
      have hwake := h.wake
      simp only [hmain, true_and] at hwake
      rw [if_pos (by omega)] at hwake
      obtain ⟨h1, h2, h3, h4, h5, h6, h7, h8, h9, h10, h11, h12, h13, h14⟩ := h
      simp only [hmain, Main.pastLoop, Main.hasClosed, spawned] at h2 h5 h9 h10
      refine ⟨h1, ?_, ?_, h4, ?_, h6, h7, h8, ?_, ?_, h11, ?_, ?_, ?_⟩
      · show cfg.MaxTotalGenerators ≤ _
        omega
      · intro j
        have hj3 := h3 j
        simp only [hmain] at hj3
        refine hj3.reparamProc (by simp [spawned]) (by simp [Main.hasClosed]) ?_
          (fun w e => (hj3.check w e).2) hj3.release
        intro _
        exact hj3.quiet (by simp [Main.drained, hwt])
      · simpa [Main.hasClosed] using h5
      · intro hp
        simp [Main.pastLoop] at hp
      · intro _
        exact h10 trivial
      · intro hw
        exact absurd hwt hw
      · show σ.sema - 1 + owing cfg σ = if Main.waitCheck = .waitSema ∧ _ then 1 else 0
        simp only [false_and, if_false, reduceCtorEq]
        omega
      · intro v w e
        exact absurd e (by simp)
  · -- wg.Wait(): the re-read of the state
    rename_i hmain
    have hd : σ.main.drained σ.wg σ.waiters = true := by simp [hmain, Main.drained]
    split at hs
    · simp only [Option.some.injEq] at hs
      subst hs
      left
      exact h.setMain .returning (by simp [hmain]) (by simp [hmain, spawned])
        (by simp [hmain, Main.hasClosed]) (by simp [hmain, Main.pastLoop])
        (fun _ _ _ j => (h.proc j).quiet hd) (by simp) (by simp)
    · simp only [Option.some.injEq] at hs
      subst hs
      right
      obtain ⟨f1, f2, f3, f4⟩ := drained_facts h hd
      exact ⟨Or.inr rfl, Or.inr hmain, h.total, f1, f2, f3, f4⟩
  · -- the return
    rename_i hmain
    left
    simp only [Option.some.injEq] at hs
    subst hs
    have hd : σ.main.drained σ.wg σ.waiters = true := by simp [hmain, Main.drained]
    exact h.setMain .returned (by simp [hmain]) (by simp [hmain, spawned])
      (by simp [hmain, Main.hasClosed]) (by simp [hmain, Main.pastLoop])
      (fun _ _ _ j => (h.proc j).quiet hd) (by simp) (by simp)
  · simp at hs

theorem crashed_no_step {cfg : Config} {σ : State} (h : Crashed cfg σ) (a : Action) :
    step cfg σ a = none := by
  have : σ.panic ≠ none := by
    rcases h.panic with e | e <;> simp [e]
  simp [step, this]

theorem p1_inv_step (cfg : Config) (σ : State) (a : Action) (σ' : State) (h : Inv cfg σ)
    (hs : step cfg σ a = some σ') : Good cfg σ' := by
  rw [p1_step_eq cfg σ a h.noPanic] at hs
  cases a with
  | main => exact p1_inv_main cfg σ σ' h hs
  | procAdd s => exact inv_procAdd cfg σ σ' s h hs
  | procIter s => exact Or.inl (inv_procIter cfg σ σ' s h hs)
  | procDone s => exact Or.inl (inv_procDone cfg σ σ' s h hs)
  | procSend s => exact Or.inl (inv_procSend cfg σ σ' s h hs)
  | procLog s => exact Or.inl (inv_procLog cfg σ σ' s h hs)
  | procWgDone s => exact Or.inl (inv_procWgDone cfg σ σ' s h hs)

theorem good_step (cfg : Config) (σ : State) (a : Action) (σ' : State) (h : Good cfg σ)
    (hs : step cfg σ a = some σ') : Good cfg σ' := by
  rcases h with h | h
  · exact p1_inv_step cfg σ a σ' h hs
  · rw [crashed_no_step h a] at hs
    simp at hs

theorem good_exec (cfg : Config) (acts : List Action) (σ : State)
    (h : exec cfg acts = some σ) : Good cfg σ :=
  runWith_inv (step cfg) (Good cfg) (good_step cfg) acts init σ (Or.inl (p1_inv_init cfg)) h

/-! ### Every interleaving is finite -/

theorem p1_fuel_init (cfg : Config) : fuel cfg init = maxSteps cfg := by
  unfold fuel maxSteps
  rw [sumTo_const _ (3 * cfg.loopBound + 13)]
  · simp [init, Main.fuel]
    ring
  · intro i _
    simp [init, Proc.fuel]

/-- A move on the `WaitGroup` costs `problem1` at most two more moves. -/
theorem mainFuel_change (n wg wt wg' wt' : Nat) (m : Main) :
    m.fuel n wg' wt' ≤ m.fuel n wg wt + 2 := by
  cases m <;> simp only [Main.fuel] <;> (try split_ifs) <;> omega

theorem mainFuel_parked (n wg wt wg' wt' : Nat) (m : Main) (h : ∀ v w, m ≠ .waitCas v w) :
    m.fuel n wg' wt' = m.fuel n wg wt := by
  cases m <;> simp only [Main.fuel]
  exact absurd rfl (h _ _)

/-- The bound after a move that changes goroutine `s`. -/
theorem fuel_lt_proc (cfg : Config) (σ σ' : State) (s : Nat) (p : Proc)
    (hs : s < cfg.MaxTotalGenerators) (hprocs : σ'.procs = upd σ.procs s p)
    (hpanic : σ.panic = none)
    (hlt : σ'.main.fuel cfg.MaxTotalGenerators σ'.wg σ'.waiters + p.fuel cfg.loopBound <
      σ.main.fuel cfg.MaxTotalGenerators σ.wg σ.waiters + (σ.procs s).fuel cfg.loopBound) :
    fuel cfg σ' < fuel cfg σ := by
  unfold fuel
  rw [hprocs, hpanic]
  have h : sumTo cfg.MaxTotalGenerators (fun j => (upd σ.procs s p j).fuel cfg.loopBound)
      + (σ.procs s).fuel cfg.loopBound
      = sumTo cfg.MaxTotalGenerators (fun j => (σ.procs j).fuel cfg.loopBound)
        + p.fuel cfg.loopBound :=
    sumTo_upd cfg.MaxTotalGenerators s σ.procs p (fun q => q.fuel cfg.loopBound) hs
  have hb : (if σ'.panic = none then 1 else 0) ≤ 1 := by split <;> omega
  simp only [if_true]
  omega

/-- The bound after a move that changes no goroutine. -/
theorem fuel_lt_same (cfg : Config) (σ σ' : State) (hprocs : σ'.procs = σ.procs)
    (hpanic : σ.panic = none)
    (hlt : (if σ'.panic = none then 1 else 0) +
        σ'.main.fuel cfg.MaxTotalGenerators σ'.wg σ'.waiters <
      1 + σ.main.fuel cfg.MaxTotalGenerators σ.wg σ.waiters) :
    fuel cfg σ' < fuel cfg σ := by
  unfold fuel
  rw [hprocs, hpanic]
  simp only [if_true]
  omega

theorem p1_fuel_step (cfg : Config) (σ : State) (a : Action) (σ' : State) (h : Inv cfg σ)
    (hs : step cfg σ a = some σ') : fuel cfg σ' < fuel cfg σ := by
  have hpn := h.noPanic
  rw [p1_step_eq cfg σ a h.noPanic] at hs
  cases a with
  | main =>
    simp only [problem1] at hs
    split at hs
    · rename_i inx hmain
      have hidle : σ.procs inx = .idle := by
        have := (h.proc inx).idle
        simp only [hmain, spawned] at this
        exact this.mpr (Nat.le_refl _)
      split at hs
      · rename_i hlt
        simp only [Option.some.injEq] at hs
        subst hs
        refine fuel_lt_proc cfg σ _ inx .started hlt rfl hpn ?_
        simp only [hmain, hidle, State.setProc, Main.fuel, Proc.fuel]
        omega
      · simp only [Option.some.injEq] at hs
        subst hs
        refine fuel_lt_same cfg σ _ rfl hpn ?_
        simp only [hmain, hpn, Main.fuel, if_true]
        omega
    · simp at hs
    · rename_i hmain
      simp only [Option.some.injEq] at hs
      subst hs
      refine fuel_lt_same cfg σ _ rfl hpn ?_
      simp only [hmain, Main.fuel]
      split <;> omega
    · rename_i hmain
      split at hs <;> simp only [Option.some.injEq] at hs <;> subst hs <;>
        refine fuel_lt_same cfg σ _ rfl hpn ?_ <;>
        simp [hmain, hpn, Main.fuel]
    · rename_i v w hmain
      split at hs <;> rename_i hc <;> simp only [Option.some.injEq] at hs <;> subst hs <;>
        refine fuel_lt_same cfg σ _ rfl hpn ?_ <;>
        simp [hmain, hpn, Main.fuel, hc]
    · rename_i hmain
      split at hs
      · simp at hs
      · simp only [Option.some.injEq] at hs
        subst hs
        refine fuel_lt_same cfg σ _ rfl hpn ?_
        simp [hmain, hpn, Main.fuel]
    · rename_i hmain
      split at hs <;> simp only [Option.some.injEq] at hs <;> subst hs <;>
        refine fuel_lt_same cfg σ _ rfl hpn ?_ <;>
        simp [hmain, hpn, Main.fuel]
    · rename_i hmain
      simp only [Option.some.injEq] at hs
      subst hs
      refine fuel_lt_same cfg σ _ rfl hpn ?_
      simp [hmain, hpn, Main.fuel]
    · simp at hs
  | procAdd s =>
    simp only [printRandom1Add] at hs
    split at hs
    · rename_i hp
      have hsN := proc_started h s (by simp [hp])
      split at hs
      · rename_i hc
        simp only [Option.some.injEq] at hs
        subst hs
        have hm := (h.waitersMain hc.1).1
        refine fuel_lt_same cfg σ _ rfl hpn ?_
        simp [hm, Main.fuel]
      · simp only [Option.some.injEq] at hs
        subst hs
        refine fuel_lt_proc cfg σ _ s (.loop 0) hsN rfl hpn ?_
        have := mainFuel_change cfg.MaxTotalGenerators σ.wg σ.waiters (σ.wg + 1) σ.waiters σ.main
        simp only [hp, State.setProc, Proc.fuel]
        omega
    · simp at hs
  | procIter s =>
    simp only [printRandom1Iter] at hs
    split at hs
    · rename_i inx hp
      have hsN := proc_started h s (by simp [hp])
      split at hs <;> simp only [Option.some.injEq] at hs <;> subst hs
      · refine fuel_lt_proc cfg σ _ s (.select inx) hsN rfl hpn ?_
        simp only [hp, State.setProc, Proc.fuel]
        omega
      · refine fuel_lt_proc cfg σ _ s .leaving hsN rfl hpn ?_
        simp only [hp, State.setProc, Proc.fuel]
        omega
    · simp at hs
  | procDone s =>
    simp only [printRandom1Done] at hs
    split at hs
    · rename_i inx hp
      have hsN := proc_started h s (by simp [hp])
      split at hs
      · simp at hs
      · simp only [Option.some.injEq] at hs
        subst hs
        refine fuel_lt_proc cfg σ _ s .leaving hsN rfl hpn ?_
        simp only [hp, State.setProc, Proc.fuel]
        omega
    · simp at hs
  | procSend s =>
    simp only [printRandom1Send] at hs
    split at hs
    · rename_i inx hp
      have hsN := proc_started h s (by simp [hp])
      split at hs
      · rename_i hmain
        simp only [Option.some.injEq] at hs
        subst hs
        refine fuel_lt_proc cfg σ _ s (.logging inx) hsN rfl hpn ?_
        have hm : Main.fuel cfg.MaxTotalGenerators σ.wg σ.waiters
            (if σ.total + 1 ≥ cfg.MaxTotalNumbers then Main.closeDone else Main.range)
            ≤ 8 := by
          split <;> simp [Main.fuel]
        have h8 : Main.fuel cfg.MaxTotalGenerators σ.wg σ.waiters Main.range = 8 := rfl
        simp only [hp, hmain, State.setProc, Proc.fuel]
        omega
      · simp at hs
    · simp at hs
  | procLog s =>
    simp only [printRandom1Log] at hs
    split at hs
    · rename_i inx hp
      have hsN := proc_started h s (by simp [hp])
      simp only [Option.some.injEq] at hs
      subst hs
      refine fuel_lt_proc cfg σ _ s (.loop (inx + 1)) hsN rfl hpn ?_
      simp only [hp, State.setProc, Proc.fuel]
      omega
    · simp at hs
  | procWgDone s =>
    simp only [printRandom1WgDone] at hs
    have hwl := h.waitersLe
    split at hs
    · rename_i hp
      have hsN := proc_started h s (by simp [hp])
      split at hs
      · simp only [Option.some.injEq] at hs
        subst hs
        refine fuel_lt_same cfg σ _ rfl hpn ?_
        simp
      · split at hs <;> simp only [Option.some.injEq] at hs <;> subst hs
        · refine fuel_lt_proc cfg σ _ s .finished hsN rfl hpn ?_
          have := mainFuel_change cfg.MaxTotalGenerators σ.wg σ.waiters (σ.wg - 1) σ.waiters
            σ.main
          simp only [hp, State.setProc, Proc.fuel]
          omega
        · refine fuel_lt_proc cfg σ _ s (.doneCheck σ.waiters) hsN rfl hpn ?_
          have := mainFuel_change cfg.MaxTotalGenerators σ.wg σ.waiters (σ.wg - 1) σ.waiters
            σ.main
          simp only [hp, State.setProc, Proc.fuel]
          omega
    · rename_i w hp
      have hsN := proc_started h s (by simp [hp])
      split at hs <;> simp only [Option.some.injEq] at hs <;> subst hs
      · refine fuel_lt_proc cfg σ _ s (.doneStore w) hsN rfl hpn ?_
        simp only [hp, State.setProc, Proc.fuel]
        omega
      · refine fuel_lt_same cfg σ _ rfl hpn ?_
        simp
    · rename_i w hp
      have hsN := proc_started h s (by simp [hp])
      simp only [Option.some.injEq] at hs
      subst hs
      refine fuel_lt_proc cfg σ _ s (.doneRelease w) hsN rfl hpn ?_
      have := mainFuel_change cfg.MaxTotalGenerators σ.wg σ.waiters 0 0 σ.main
      simp only [hp, State.setProc, Proc.fuel]
      omega
    · rename_i w hp
      have hsN := proc_started h s (by simp [hp])
      split at hs <;> simp only [Option.some.injEq] at hs <;> subst hs
      · refine fuel_lt_proc cfg σ _ s .finished hsN rfl hpn ?_
        simp only [hp, State.setProc, Proc.fuel]
        omega
      · refine fuel_lt_proc cfg σ _ s (.doneRelease (w - 1)) hsN rfl hpn ?_
        simp only [hp, State.setProc, Proc.fuel]
        omega
    · simp at hs

theorem good_fuel_step (cfg : Config) (σ : State) (a : Action) (σ' : State)
    (h : Good cfg σ) (hs : step cfg σ a = some σ') : fuel cfg σ' < fuel cfg σ := by
  rcases h with h | h
  · exact p1_fuel_step cfg σ a σ' h hs
  · rw [crashed_no_step h a] at hs
    simp at hs

theorem p1_exec_bounded (cfg : Config) (acts : List Action) (σ : State)
    (h : exec cfg acts = some σ) : acts.length + fuel cfg σ ≤ maxSteps cfg := by
  rw [← p1_fuel_init cfg]
  exact runWith_fuel (step cfg) (Good cfg) (fuel cfg) (good_step cfg) (good_fuel_step cfg)
    acts init σ (Or.inl (p1_inv_init cfg)) h

/-! ### Progress -/

theorem p1_main_canMove {cfg : Config} {σ : State} (h : Inv cfg σ) :
    Enabled cfg σ .main ∨ σ.main = .range ∨ (σ.main = .waitSema ∧ σ.sema = 0) ∨
      σ.main = .returned := by
  have hp := h.noPanic
  cases hm : σ.main with
  | spawn inx =>
    left
    simp only [Enabled, p1_step_eq cfg σ _ hp, problem1, hm]
    split <;> exact ⟨_, rfl⟩
  | range => right; left; rfl
  | closeDone =>
    left
    simp only [Enabled, p1_step_eq cfg σ _ hp, problem1, hm]
    exact ⟨_, rfl⟩
  | waiting =>
    left
    simp only [Enabled, p1_step_eq cfg σ _ hp, problem1, hm]
    split <;> exact ⟨_, rfl⟩
  | waitCas v w =>
    left
    simp only [Enabled, p1_step_eq cfg σ _ hp, problem1, hm]
    split <;> exact ⟨_, rfl⟩
  | waitSema =>
    by_cases hsema : σ.sema = 0
    · right; right; left; exact ⟨rfl, hsema⟩
    · left
      simp only [Enabled, p1_step_eq cfg σ _ hp, problem1, hm, hsema, if_false]
      exact ⟨_, rfl⟩
  | waitCheck =>
    left
    simp only [Enabled, p1_step_eq cfg σ _ hp, problem1, hm]
    split <;> exact ⟨_, rfl⟩
  | returning =>
    left
    simp only [Enabled, p1_step_eq cfg σ _ hp, problem1, hm]
    exact ⟨_, rfl⟩
  | returned => right; right; right; rfl

/-- A goroutine that exists and is not gone takes part in an enabled move, unless it
is in its `select` with `done` open and the consumer not receiving. -/
theorem proc_canMove {cfg : Config} {σ : State} (h : Inv cfg σ) (s : Nat)
    (hi : σ.procs s ≠ .idle) (hf : σ.procs s ≠ .finished) :
    (Enabled cfg σ (.procAdd s) ∨ Enabled cfg σ (.procIter s) ∨ Enabled cfg σ (.procDone s) ∨
      Enabled cfg σ (.procSend s) ∨ Enabled cfg σ (.procLog s) ∨
      Enabled cfg σ (.procWgDone s)) ∨
    (σ.done = 0 ∧ σ.main ≠ .range ∧ ∃ inx, σ.procs s = .select inx) := by
  have hp := h.noPanic
  cases hproc : σ.procs s with
  | idle => exact absurd hproc hi
  | started =>
    left; left
    simp only [Enabled, p1_step_eq cfg σ _ hp, printRandom1Add, hproc]
    split <;> exact ⟨_, rfl⟩
  | loop inx =>
    left; right; left
    simp only [Enabled, p1_step_eq cfg σ _ hp, printRandom1Iter, hproc]
    split <;> exact ⟨_, rfl⟩
  | select inx =>
    by_cases hd : σ.done = 0
    · by_cases hm : σ.main = .range
      · left; right; right; right; left
        simp only [Enabled, p1_step_eq cfg σ _ hp, printRandom1Send, hproc, hm]
        exact ⟨_, rfl⟩
      · right
        exact ⟨hd, hm, inx, rfl⟩
    · left; right; right; left
      simp only [Enabled, p1_step_eq cfg σ _ hp, printRandom1Done, hproc, hd, if_false]
      exact ⟨_, rfl⟩
  | logging inx =>
    left; right; right; right; right; left
    simp only [Enabled, p1_step_eq cfg σ _ hp, printRandom1Log, hproc]
    exact ⟨_, rfl⟩
  | leaving =>
    left; right; right; right; right; right
    simp only [Enabled, p1_step_eq cfg σ _ hp, printRandom1WgDone, hproc]
    split
    · exact ⟨_, rfl⟩
    · split <;> exact ⟨_, rfl⟩
  | doneCheck w =>
    left; right; right; right; right; right
    simp only [Enabled, p1_step_eq cfg σ _ hp, printRandom1WgDone, hproc]
    split <;> exact ⟨_, rfl⟩
  | doneStore w =>
    left; right; right; right; right; right
    simp only [Enabled, p1_step_eq cfg σ _ hp, printRandom1WgDone, hproc]
    exact ⟨_, rfl⟩
  | doneRelease w =>
    left; right; right; right; right; right
    simp only [Enabled, p1_step_eq cfg σ _ hp, printRandom1WgDone, hproc]
    split <;> exact ⟨_, rfl⟩
  | finished => exact absurd hproc hf

theorem p1_terminal_not_enabled {cfg : Config} {σ : State} (ht : Terminal cfg σ) (a : Action) :
    ¬ Enabled cfg σ a := by
  rintro ⟨σ', h⟩
  rw [ht a] at h
  simp at h

/-- When the goroutines can send at least as many notifications as the consumer
wants, the program can stop without a panic only with `problem1` returned and every
goroutine gone. -/
theorem p1_terminal_allDone {cfg : Config} {σ : State} (h : Inv cfg σ)
    (hq : quota cfg ≤ cfg.MaxTotalGenerators * cfg.loopBound)
    (ht : Terminal cfg σ) : AllDone cfg σ := by
  have hne := p1_terminal_not_enabled ht
  have hmain : σ.main = .range ∨ (σ.main = .waitSema ∧ σ.sema = 0) ∨ σ.main = .returned := by
    rcases p1_main_canMove h with hm | hm
    · exact absurd hm (hne _)
    · exact hm
  have hsp : spawned cfg σ.main = cfg.MaxTotalGenerators := by
    rcases hmain with hm | ⟨hm, _⟩ | hm <;> simp [hm, spawned]
  have hproc : ∀ s, s < cfg.MaxTotalGenerators → σ.procs s = .finished := by
    intro s hs
    by_contra hf
    have hi : σ.procs s ≠ .idle := by
      intro hc
      have := (h.proc s).idle.mp hc
      omega
    rcases proc_canMove h s hi hf with hc | ⟨hd, hm, _⟩
    · rcases hc with hc | hc | hc | hc | hc | hc <;> exact hne _ hc
    · have hcl : σ.main.hasClosed = false := by
        cases e : σ.main.hasClosed
        · rfl
        · exact absurd hd ((p1_done_iff h).mpr e)
      rcases hmain with hm' | ⟨hm', _⟩ | hm'
      · exact hm hm'
      · simp [hm', Main.hasClosed] at hcl
      · simp [hm', Main.hasClosed] at hcl
  have hwg : σ.wg = 0 := by
    rw [h.wg, liveProcs, sumTo_const _ 0]
    · simp
    · intro i hi
      simp [hproc i hi, Proc.live]
  have howe : owing cfg σ = 0 := by
    rw [owing, sumTo_const _ 0]
    · simp
    · intro i hi
      simp [hproc i hi, Proc.owes]
  refine ⟨?_, hproc⟩
  rcases hmain with hm | ⟨hm, hsema⟩ | hm
  · exfalso
    have hall : ∀ s, s < cfg.MaxTotalGenerators → sends σ.sent s = cfg.loopBound := by
      intro s hs
      exact (h.proc s).over (by simp [hproc s hs, Proc.over]) (by simp [hm, Main.hasClosed])
    have h1 := h.inLoop (by simp [hm, Main.pastLoop])
    have h2 := h.total
    have h3 := sent_length h
    rw [sumTo_const _ _ _ hall] at h3
    omega
  · exfalso
    have hwake := h.wake
    simp only [hm, true_and] at hwake
    rw [if_pos (by omega)] at hwake
    omega
  · exact hm

/-! ### The claims about `problem1.go` -/

/-- C9. With a quota of at least one that the goroutines can supply (`1 ≤ Q ≤ N * L`,
as for the constants of `problem1`: 100 ≤ 10 * 25), every interleaving of `problem1` is
finite, and it can stop in two ways only: with `problem1` returned and every goroutine
gone, or in one of the two panics `sync.WaitGroup` raises when a `wg.Add(1)` races with
`wg.Wait()`; in both cases exactly `Q` notifications have been received and exactly `Q`
lines printed by then.  The consumer receives one notification per successful send and
never more than `Q`; once its loop is over it has received exactly `Q` and no further
send can succeed.  Each goroutine has printed one line per successful send, except for
the one line it owes between its send and its `log.Printf`, and that line is always
ready to be printed.  Once `wg.Wait()` has returned, and so when `problem1` returns,
there is no panic, no line is owed and exactly `Q` lines have been printed.  A panic
can only occur while `problem1` is inside `wg.Wait()`, so after the consumer loop,
and only when all `Q` lines are printed. -/
theorem exactly_quota_printed (cfg : Config) (acts : List Action) (σ : State)
    (hq1 : 1 ≤ cfg.MaxTotalNumbers)
    (hq2 : cfg.MaxTotalNumbers ≤ cfg.MaxTotalGenerators * cfg.loopBound)
    (hrun : exec cfg acts = some σ) :
    acts.length ≤ maxSteps cfg ∧
    (Terminal cfg σ →
      (AllDone cfg σ ∨ σ.panic = some .waitGroupMisuse ∨ σ.panic = some .waitGroupReused) ∧
      σ.sent.length = cfg.MaxTotalNumbers ∧ σ.logs.length = cfg.MaxTotalNumbers) ∧
    σ.sent.length = σ.total ∧ σ.total ≤ cfg.MaxTotalNumbers ∧
    σ.logs.length ≤ σ.sent.length ∧
    (∀ s, printed σ.logs s + (σ.procs s).pending = sends σ.sent s) ∧
    (∀ s, (σ.procs s).pending = 1 → Enabled cfg σ (.procLog s)) ∧
    (σ.main.pastLoop = true →
      σ.sent.length = cfg.MaxTotalNumbers ∧ ∀ s, ¬ Enabled cfg σ (.procSend s)) ∧
    (σ.main.waitOver = true → σ.panic = none ∧
      σ.logs.length = cfg.MaxTotalNumbers ∧ ∀ s, printed σ.logs s = sends σ.sent s) ∧
    (σ.panic ≠ none →
      (σ.panic = some .waitGroupMisuse ∨ σ.panic = some .waitGroupReused) ∧
      (σ.main = .waitSema ∨ σ.main = .waitCheck) ∧
      σ.sent.length = cfg.MaxTotalNumbers ∧ σ.logs.length = cfg.MaxTotalNumbers) := by
  have hquota : quota cfg = cfg.MaxTotalNumbers := by
    unfold quota
    omega
  have hbound : acts.length ≤ maxSteps cfg := by
    have := p1_exec_bounded cfg acts σ hrun
    omega
  rcases good_exec cfg acts σ hrun with h | h
  · -- no panic so far
    have hlogs : σ.logs.length ≤ σ.sent.length := by
      rw [logs_length h, sent_length h, ← Nat.sub_eq_zero_iff_le]
      have : sumTo cfg.MaxTotalGenerators (sends σ.sent) =
          sumTo cfg.MaxTotalGenerators (fun s => printed σ.logs s + (σ.procs s).pending) :=
        sumTo_congr _ _ _ (fun s _ => ((h.proc s).printed).symm)
      rw [this, sumTo_add]
      omega
    have htotal : σ.total ≤ cfg.MaxTotalNumbers := by
      cases hp : σ.main.pastLoop
      · have := h.inLoop hp
        omega
      · have := h.broke hp
        omega
    have hpast : σ.main.pastLoop = true → σ.sent.length = cfg.MaxTotalNumbers := by
      intro hp
      rw [← h.total, h.broke hp, hquota]
    have hover : σ.main.waitOver = true → σ.logs.length = cfg.MaxTotalNumbers ∧
        ∀ s, printed σ.logs s = sends σ.sent s := by
      intro hw
      have hd : σ.main.drained σ.wg σ.waiters = true := by
        cases hm : σ.main <;> simp [hm, Main.waitOver, Main.drained] at hw ⊢
      obtain ⟨_, f2, f3, _⟩ := drained_facts h hd
      exact ⟨by rw [f2, hquota], f3⟩
    refine ⟨hbound, ?_, h.total.symm, htotal, hlogs, fun s => (h.proc s).printed, ?_, ?_, ?_,
      fun hc => absurd h.noPanic hc⟩
    · intro ht
      have hall := p1_terminal_allDone h (by rw [hquota]; exact hq2) ht
      exact ⟨Or.inl hall, hpast (by simp [hall.1, Main.pastLoop]),
        (hover (by simp [hall.1, Main.waitOver])).1⟩
    · intro s hs
      cases hproc : σ.procs s <;> simp [hproc, Proc.pending] at hs
      simp only [Enabled, p1_step_eq cfg σ _ h.noPanic, printRandom1Log, hproc]
      exact ⟨_, rfl⟩
    · intro hp
      refine ⟨hpast hp, ?_⟩
      rintro s ⟨τ, hτ⟩
      rw [p1_step_eq cfg σ _ h.noPanic] at hτ
      simp only [printRandom1Send] at hτ
      split at hτ
      · split at hτ
        · rename_i hm
          simp [hm, Main.pastLoop] at hp
        · simp at hτ
      · simp at hτ
    · intro hw
      exact ⟨h.noPanic, hover hw⟩
  · -- after a panic of the WaitGroup
    have hsent : σ.sent.length = cfg.MaxTotalNumbers := by rw [h.sent, hquota]
    have hlogs : σ.logs.length = cfg.MaxTotalNumbers := by rw [h.logs, hquota]
    refine ⟨hbound, fun _ => ⟨Or.inr h.panic, hsent, hlogs⟩, h.total.symm, ?_, ?_, ?_, ?_, ?_,
      ?_, fun _ => ⟨h.panic, h.inWait, hsent, hlogs⟩⟩
    · rw [h.total, hsent]
    · rw [hsent, hlogs]
    · intro s
      rw [h.pending s, h.printed s]
      rfl
    · intro s hs
      rw [h.pending s] at hs
      exact absurd hs (by decide)
    · intro _
      refine ⟨hsent, ?_⟩
      rintro s ⟨τ, hτ⟩
      rw [crashed_no_step h] at hτ
      simp at hτ
    · intro hw
      rcases h.inWait with e | e <;> simp [e, Main.waitOver] at hw

/-- C9, witness: the constants of `problem1` and the complete interleaving
`fullRun`: `problem1` has returned without a panic, 100 notifications were received
and 100 lines printed. -/
theorem exactly_quota_printed_witness :
    ∃ σ, exec problem1Config fullRun = some σ ∧ σ.main = .returned ∧ σ.panic = none ∧
      σ.sent.length = 100 ∧ σ.logs.length = 100 := by
  have hs : (exec problem1Config fullRun).isSome = true := by decide
  obtain ⟨σ, hσ⟩ := Option.isSome_iff_exists.mp hs
  have h1 : (exec problem1Config fullRun).map (fun σ => σ.main) = some .returned := by
    decide
  rw [hσ] at h1
  simp only [Option.map_some', Option.some.injEq] at h1
  have h := exactly_quota_printed problem1Config fullRun σ (by decide) (by decide) hσ
  have hw := h.2.2.2.2.2.2.2.2.1 (by simp [h1, Main.waitOver])
  exact ⟨σ, hσ, h1, hw.1, (h.2.2.2.2.2.2.2.1 (by simp [h1, Main.pastLoop])).1, hw.2.1⟩

/-- The first panic is reachable with the constants of `problem1`.  After the
interleaving `raceAdd` the `wg.Add(1)` of goroutine 4 (line 35) has panicked with
`WaitGroup misuse: Add called concurrently with Wait`: `problem1` is registered in
`wg.Wait()` and asleep, the decrement of goroutine 3 has brought the counter to zero,
and goroutine 3 is still inside its `wg.Done()`.  All 100 lines are printed. -/
theorem add_races_with_wait :
    ∃ σ, exec problem1Config raceAdd = some σ ∧ σ.panic = some .waitGroupMisuse ∧
      σ.main = .waitSema ∧ σ.procs 3 = .doneCheck 1 ∧ σ.procs 4 = .started ∧
      σ.sent.length = 100 ∧ σ.logs.length = 100 := by
  have hs : (exec problem1Config raceAdd).isSome = true := by decide
  obtain ⟨σ, hσ⟩ := Option.isSome_iff_exists.mp hs
  have h1 : (exec problem1Config raceAdd).map (fun σ => (σ.panic, σ.main, σ.procs 3,
      σ.procs 4, σ.sent.length, σ.logs.length)) =
      some (some .waitGroupMisuse, .waitSema, .doneCheck 1, .started, 100, 100) := by decide
  rw [hσ] at h1
  simp only [Option.map_some', Option.some.injEq, Prod.mk.injEq] at h1
  exact ⟨σ, hσ, h1⟩

/-- The second panic is reachable with the constants of `problem1`.  After the
interleaving `raceWait` the call `wg.Wait()` (line 68) has panicked with `WaitGroup is
reused before previous Wait has returned`: goroutine 3 has completed its `wg.Done()`
and released `problem1`, and the `wg.Add(1)` of goroutine 4 has raised the counter to
one before `problem1` re-read the state.  All 100 lines are printed. -/
theorem wait_finds_counter_raised :
    ∃ σ, exec problem1Config raceWait = some σ ∧ σ.panic = some .waitGroupReused ∧
      σ.main = .waitCheck ∧ σ.procs 4 = .loop 0 ∧ σ.wg = 1 ∧
      σ.sent.length = 100 ∧ σ.logs.length = 100 := by
  have hs : (exec problem1Config raceWait).isSome = true := by decide
  obtain ⟨σ, hσ⟩ := Option.isSome_iff_exists.mp hs
  have h1 : (exec problem1Config raceWait).map (fun σ => (σ.panic, σ.main,
      σ.procs 4, σ.wg, σ.sent.length, σ.logs.length)) =
      some (some .waitGroupReused, .waitCheck, .loop 0, 1, 100, 100) := by decide
  rw [hσ] at h1
  simp only [Option.map_some', Option.some.injEq, Prod.mk.injEq] at h1
  exact ⟨σ, hσ, h1⟩

/-- C10, the failing interleaving: with the constants of `problem1`, after
`earlyWait` the call `wg.Wait()` has returned (the counter is zero and `problem1` is
at its final `log.Printf`), although goroutines 4 to 9 have been started and have not
run yet: they are still before their own `wg.Add(1)`. -/
theorem wait_returns_early :
    ∃ σ, exec problem1Config earlyWait = some σ ∧ σ.main = .returning ∧ σ.done = 1 ∧
      σ.wg = 0 ∧ σ.procs 4 = .started ∧ σ.procs 9 = .started := by
  have hs : (exec problem1Config earlyWait).isSome = true := by decide
  obtain ⟨σ, hσ⟩ := Option.isSome_iff_exists.mp hs
  have h1 : (exec problem1Config earlyWait).map (fun σ => (σ.main, σ.done, σ.wg,
      σ.procs 4, σ.procs 9)) = some (.returning, 1, 0, .started, .started) := by decide
  rw [hσ] at h1
  simp only [Option.map_some', Option.some.injEq, Prod.mk.injEq] at h1
  exact ⟨σ, hσ, h1⟩

end Problem1

end Collect
